import Mathlib

/-! SoftFM: audio sinks, RTL-SDR source handle and command-line validation

A shallow embedding of the integer and byte level code of SoftFM
(`AudioOutput.cpp`, `RtlSdrSource.cpp`, `mian.cpp`, `oldmain.cpp`).

Conventions of the embedding:

* a byte (`uint8_t`) is a natural number below 256, a byte buffer is a `List ℕ`;
* `unsigned` / `uint32_t` arithmetic is arithmetic on `ℕ` reduced `% 2 ^ 32`,
  `uint16_t` is reduced `% 2 ^ 16`, `unsigned long` is reduced `% 2 ^ 64`;
* `int` and `long` values are integers (`ℤ`);
* a finite `float` or `double` value is the rational number it denotes; NaN
  and the infinities are modelled where the range test of the option `-s`
  looks at a value stored by `parse_dbl` (`DoubleValue`), and nowhere else;
  the one `float` operation of the audio
  path that rounds, the product `s * 32767`, is rounded to binary32 explicitly
  (`f32Round`), and the `double` operations of the argument parser, of the
  downsampling factor and of the PPS time stamp are rounded to binary64
  explicitly (`f64Round`);
* `long` and `unsigned long` are 64 bits wide (LP64);
* results of calls into the operating system or into librtlsdr are explicit
  arguments of the embedded functions.
-/

set_option linter.unusedVariables false

namespace SoftFM

/-! ## Numeric helpers -/

/-- Finite values of the C++ type `Sample` (a `float`), as the rationals they denote. -/
abbrev Sample := ℚ

/-- Value of `std::min(a, b)`, which is `(b < a) ? b : a`. -/
def stdMin (a b : ℚ) : ℚ := if b < a then b else a

/-- Value of `std::max(a, b)`, which is `(a < b) ? b : a`. -/
def stdMax (a b : ℚ) : ℚ := if a < b then b else a

/-- The C function `lrint` in the default rounding mode: the nearest integer,
a tie going to the even neighbour. -/
def lrint (x : ℚ) : ℤ :=
  let f : ℤ := ⌊x⌋
  if x - f < 1 / 2 then f
  else if 1 / 2 < x - f then f + 1
  else if f % 2 = 0 then f else f + 1

/-- Exponent of the binade of `x` in binary32: `⌊log₂ |x|⌋`, never below the
exponent `-126` shared by the subnormal numbers. -/
def f32Exponent (x : ℚ) : ℤ := max (Int.log 2 |x|) (-126)

/-- Rounding of a rational to binary32 (24 significant bits, round to nearest,
ties to even). Overflow to infinity is left out: the audio path only rounds
values of magnitude at most 32767. -/
def f32Round (x : ℚ) : ℚ :=
  let q : ℚ := 2 ^ (f32Exponent x - 23)
  (lrint (x / q) : ℚ) * q

/-- The `float` product `a * b`. -/
def f32Mul (a b : ℚ) : ℚ := f32Round (a * b)

/-! ## AudioOutput::samplesToInt16 -/

/-- Effect of `std::vector::resize(n)`: keep the first `n` cells, pad with the
value-initialised element `d`. -/
def resize {α : Type} (v : List α) (n : ℕ) (d : α) : List α :=
  v.take n ++ List.replicate (n - v.length) d

/-- The `long v` computed for one sample: clamp to `[-1, 1]`, scale by 32767
in `float`, round with `lrint`. -/
def sampleToLong (s : Sample) : ℤ :=
  let s1 : Sample := stdMax (-1) (stdMin 1 s)
  lrint (f32Mul s1 32767)

/-- The conversion `unsigned long u = v`. -/
def toUnsignedLong (v : ℤ) : ℕ := (v % 2 ^ 64).toNat

/-- The `while (i != n)` loop of `samplesToInt16`: `k` is the position of the
byte iterator, each round stores `u & 0xff` and `(u >> 8) & 0xff`. -/
def samplesToInt16Loop : List Sample → ℕ → List ℕ → List ℕ
  | [], _, bytes => bytes
  | s :: rest, k, bytes =>
    let u : ℕ := toUnsignedLong (sampleToLong s)
    samplesToInt16Loop rest (k + 2)
      ((bytes.set k (u % 256)).set (k + 1) ((u / 256) % 256))

/-- The vector overload of `AudioOutput::samplesToInt16`: `bytes` is the
in/out byte vector, the result is its final content. -/
def samplesToInt16 (samples : List Sample) (bytes : List ℕ) : List ℕ :=
  samplesToInt16Loop samples 0 (resize bytes (2 * samples.length) 0)

/-- Decoding of a little-endian byte pair as a signed 16-bit integer. -/
def decodeS16LE (lo hi : ℕ) : ℤ :=
  let w : ℤ := (lo : ℤ) + 256 * (hi : ℤ)
  if w < 32768 then w else w - 65536

/-- The sixteen-bit two's-complement representation of an integer. -/
def twosComplement16 (v : ℤ) : ℕ := (v % 65536).toNat

/-- The two bytes stored for one sample by one round of the loop of
`samplesToInt16` (used to state the closed form of the loop). -/
def encodeSample (s : Sample) : List ℕ :=
  [toUnsignedLong (sampleToLong s) % 256, (toUnsignedLong (sampleToLong s) / 256) % 256]

/-! ## WavAudioOutput -/

/-- Wrap-around of `unsigned` and `uint32_t` arithmetic. -/
def u32 (n : ℕ) : ℕ := n % 2 ^ 32

/-- Conversion of an integer (`int`, `long`) to `unsigned`. -/
def toUnsigned (v : ℤ) : ℕ := (v % 2 ^ 32).toNat

/-- `WavAudioOutput::encode_chunk_id(ptr, chunkname)`: `ptr[i] = chunkname[i]`
for `i < 4`, on the buffer that holds `ptr`. -/
def encode_chunk_id (buf : List ℕ) (ptr : ℕ) (chunkname : List Char) : List ℕ :=
  (List.range 4).foldl (fun b i => b.set (ptr + i) (chunkname.getD i (Char.ofNat 0)).toNat) buf

/-- The loop of `set_value`: `ptr[i] = value & 0xff; value >>= 8` for `size` rounds. -/
def setValueLoop : ℕ → List ℕ → ℕ → ℕ → List ℕ
  | 0, buf, _, _ => buf
  | n + 1, buf, ptr, value =>
    setValueLoop n (buf.set ptr (value % 256)) (ptr + 1) (value / 256)

/-- `WavAudioOutput::set_value<T>(ptr, value)` for an unsigned type `T` of
`size` bytes; the argument is converted to `T` at the call. -/
def set_value (size : ℕ) (buf : List ℕ) (ptr : ℕ) (value : ℕ) : List ℕ :=
  setValueLoop size buf ptr (value % 2 ^ (8 * size))

/-- The array `wavHeader` synthesised by `WavAudioOutput::write_header`
(the array starts out as 44 zero cells here; every cell is overwritten). -/
def wavHeader (numberOfChannels sampleRate nsamples : ℕ) : List ℕ :=
  let bytesPerSample : ℕ := 2
  let bitsPerSample : ℕ := 16
  let eWAVE_FORMAT_PCM : ℕ := 1
  let h := List.replicate 44 0
  let h := encode_chunk_id h 0 ['R', 'I', 'F', 'F']
  let h := set_value 4 h 4 (u32 (36 + u32 (nsamples * bytesPerSample)))
  let h := encode_chunk_id h 8 ['W', 'A', 'V', 'E']
  let h := encode_chunk_id h 12 ['f', 'm', 't', ' ']
  let h := set_value 4 h 16 16
  let h := set_value 2 h 20 eWAVE_FORMAT_PCM
  let h := set_value 2 h 22 numberOfChannels
  let h := set_value 4 h 24 sampleRate
  let h := set_value 4 h 28 (u32 (u32 (sampleRate * numberOfChannels) * bytesPerSample))
  let h := set_value 2 h 32 (u32 (numberOfChannels * bytesPerSample))
  let h := set_value 2 h 34 bitsPerSample
  let h := encode_chunk_id h 36 ['d', 'a', 't', 'a']
  set_value 4 h 40 (u32 (nsamples * bytesPerSample))

/-- A `FILE` stream open for writing: the bytes of the file and the file position. -/
structure Stream where
  content : List ℕ
  pos : ℕ

/-- `fwrite(buf, 1, buf.size(), stream)` when the C library gets the first `k`
bytes out: they replace the file content from the position on, the position
advances by their number, which is also the return value. -/
def fwrite (f : Stream) (buf : List ℕ) (k : ℕ) : Stream × ℕ :=
  let w := buf.take k
  ({ content := f.content.take f.pos ++ w ++ f.content.drop (f.pos + w.length),
     pos := f.pos + w.length }, w.length)

/-- `ftell(stream)`, a `long`. -/
def ftell (f : Stream) : ℤ := (f.pos : ℤ)

/-- State of a `WavAudioOutput` object (with the `m_error` and `m_zombie`
members of its base class `AudioOutput`). `m_stream = none` is the null
pointer. -/
structure WavAudioOutput where
  m_error : String
  m_zombie : Bool
  numberOfChannels : ℕ
  sampleRate : ℕ
  m_stream : Option Stream
  m_bytebuf : List ℕ

/-- The 44 bytes that `write_header(nsamples)` of this object hands to `fwrite`. -/
def WavAudioOutput.headerBytes (o : WavAudioOutput) (nsamples : ℕ) : List ℕ :=
  wavHeader o.numberOfChannels o.sampleRate nsamples

/-- `WavAudioOutput::write_header(nsamples)`; `k` is the number of bytes the
C library gets out in the `fwrite` call. -/
def WavAudioOutput.write_header (o : WavAudioOutput) (nsamples : ℕ) (k : ℕ) :
    Bool × WavAudioOutput :=
  match o.m_stream with
  | none => (false, o)
  | some f =>
    let r := fwrite f (o.headerBytes nsamples) k
    (r.2 == 44, { o with m_stream := some r.1 })

/-- The constructor `WavAudioOutput(filename, samplerate, stereo)`. `opened`
tells whether `fopen(filename, "wb")` succeeds (giving an empty file),
`errstr` is the text of `strerror(errno)`, `k` the byte count of the
`fwrite` of the initial header. -/
def WavAudioOutput.create (filename : String) (samplerate : ℕ) (stereo : Bool)
    (opened : Bool) (errstr : String) (k : ℕ) : WavAudioOutput :=
  let o : WavAudioOutput :=
    { m_error := "", m_zombie := false,
      numberOfChannels := if stereo then 2 else 1,
      sampleRate := samplerate,
      m_stream := if opened then some { content := [], pos := 0 } else none,
      m_bytebuf := [] }
  if o.m_stream.isNone then
    { o with m_error := "can not open '" ++ filename ++ "' (" ++ errstr ++ ")",
             m_zombie := true }
  else
    let r := o.write_header 0x7fff0000 k
    if !r.1 then
      { r.2 with m_error := "can not write to '" ++ filename ++ "' (" ++ errstr ++ ")",
                 m_zombie := true }
    else r.2

/-- `WavAudioOutput::write(samples)`; `k` is the byte count returned by
`fwrite`, `errstr` the text of `strerror(errno)`. -/
def WavAudioOutput.write (o : WavAudioOutput) (samples : List Sample) (k : ℕ)
    (errstr : String) : Bool × WavAudioOutput :=
  if o.m_zombie then (false, o)
  else
    let bytebuf := samplesToInt16 samples o.m_bytebuf
    match o.m_stream with
    | none => (false, { o with m_bytebuf := bytebuf })
    | some f =>
      let r := fwrite f bytebuf k
      if r.2 ≠ bytebuf.length then
        (false, { o with m_bytebuf := bytebuf, m_stream := some r.1,
                         m_error := "write failed (" ++ errstr ++ ")" })
      else
        (true, { o with m_bytebuf := bytebuf, m_stream := some r.1 })

/-- The destructor of `WavAudioOutput`, up to the final `fclose`: `seekOk`
tells whether `fseek(m_stream, 0, SEEK_SET)` returns 0, `k` is the byte
count of the `fwrite` of the header. The result carries the final file. -/
def WavAudioOutput.destroy (o : WavAudioOutput) (seekOk : Bool) (k : ℕ) : WavAudioOutput :=
  if !o.m_zombie then
    match o.m_stream with
    | none => o
    | some f =>
      let bytesPerSample : ℤ := 2
      let currentPosition : ℤ := ftell f
      let totalNumberOfSamples : ℕ := toUnsigned (Int.tdiv (currentPosition - 44) bytesPerSample)
      if seekOk then
        ({ o with m_stream := some { f with pos := 0 } }.write_header totalNumberOfSamples k).2
      else o
  else o

/-- Bytes of the file behind the stream of a `WavAudioOutput` (empty when no file is open). -/
def WavAudioOutput.fileBytes (o : WavAudioOutput) : List ℕ :=
  match o.m_stream with
  | none => []
  | some f => f.content

/-- A run of `write` calls, one per block of samples, in each of which
`fwrite` gets all bytes out. The flag tells whether every call returned true. -/
def WavAudioOutput.writeBlocks (o : WavAudioOutput) (blocks : List (List Sample))
    (errstr : String) : Bool × WavAudioOutput :=
  blocks.foldl
    (fun acc b => ((acc.2.write b (2 * b.length) errstr).1 && acc.1,
                   (acc.2.write b (2 * b.length) errstr).2))
    (true, o)

/-- Little-endian value of a sequence of bytes. -/
def decodeLE : List ℕ → ℕ
  | [] => 0
  | b :: bs => b + 256 * decodeLE bs

/-- The `len` bytes of a buffer from offset `off` on. -/
def field (buf : List ℕ) (off len : ℕ) : List ℕ := (buf.drop off).take len

/-- Little-endian byte sequence of the four low bytes of a number. -/
def le4 (v : ℕ) : List ℕ :=
  [v % 256, v / 256 % 256, v / 256 / 256 % 256, v / 256 / 256 / 256 % 256]

/-! ## RtlSdrSource -/

/-- An I/Q sample (`std::complex<float>`). -/
structure IQSample where
  re : ℚ
  im : ℚ

/-- The constant `INT_MIN`. -/
def INT_MIN : ℤ := -2 ^ 31

/-- State of a `RtlSdrSource` object. `m_dev` tells whether the device handle
is non-null, `mThread` whether a capture thread object exists. -/
structure RtlSdrSource where
  mAsync : Bool
  mThread : Bool
  m_dev : Bool
  m_block_length : ℤ
  m_devname : String
  m_error : String

/-- The static member `RtlSdrSource::default_block_length`. -/
def default_block_length : ℤ := 65536

/-- The constructor `RtlSdrSource(dev_index, async)`: `devname` is the result
of `rtlsdr_get_device_name` (`none` for `NULL`), `r` the result of
`rtlsdr_open`, which leaves the handle null when it fails, `errstr` the text
of `strerror(-r)`. -/
def RtlSdrSource.create (async : Bool) (devname : Option String) (r : ℤ) (errstr : String) :
    RtlSdrSource :=
  { mAsync := async, mThread := false, m_dev := decide (0 ≤ r),
    m_block_length := default_block_length,
    m_devname := devname.getD "",
    m_error := if r < 0 then "Failed to open RTL-SDR device (" ++ errstr ++ ")" else "" }

/-- Results of the librtlsdr calls made by one `configure` call. -/
structure ConfigureEnv where
  set_sample_rate : ℤ
  set_center_freq : ℤ
  set_tuner_gain_mode : ℤ
  set_tuner_gain : ℤ
  set_agc_mode : ℤ
  reset_buffer : ℤ

/-- The gain step of `configure`: the error message with which it returns
early, if it does. Automatic gain is asked for with `tuner_gain == INT_MIN`. -/
def gainStepError (env : ConfigureEnv) (tuner_gain : ℤ) : Option String :=
  if tuner_gain = INT_MIN then
    if env.set_tuner_gain_mode < 0 then
      some "rtlsdr_set_tuner_gain_mode could not set automatic gain"
    else none
  else
    if env.set_tuner_gain_mode < 0 then
      some "rtlsdr_set_tuner_gain_mode could not set manual gain"
    else if env.set_tuner_gain < 0 then
      some "rtlsdr_set_tuner_gain failed"
    else none

/-- The block length stored by `configure`: clamp to `[4096, 1024 * 1024]`,
then `m_block_length -= m_block_length % 4096`. -/
def snapBlockLength (block_length : ℤ) : ℤ :=
  let b : ℤ := if block_length < 4096 then 4096
    else if block_length > 1024 * 1024 then 1024 * 1024
    else block_length
  b - Int.tmod b 4096

/-- `RtlSdrSource::configure(sample_rate, frequency, tuner_gain, block_length, agcmode)`.
The numbers `sample_rate`, `frequency` and `agcmode` only travel to librtlsdr. -/
def RtlSdrSource.configure (st : RtlSdrSource) (env : ConfigureEnv)
    (sample_rate frequency : ℕ) (tuner_gain block_length : ℤ) (agcmode : Bool) :
    Bool × RtlSdrSource :=
  if !st.m_dev then (false, st)
  else if env.set_sample_rate < 0 then
    (false, { st with m_error := "rtlsdr_set_sample_rate failed" })
  else if env.set_center_freq < 0 then
    (false, { st with m_error := "rtlsdr_set_center_freq failed" })
  else
    match gainStepError env tuner_gain with
    | some msg => (false, { st with m_error := msg })
    | none =>
      if env.set_agc_mode < 0 then
        (false, { st with m_error := "rtlsdr_set_agc_mode failed" })
      else
        let st1 := { st with m_block_length := snapBlockLength block_length }
        if env.reset_buffer < 0 then
          (false, { st1 with m_error := "rtlsdr_reset_buffer failed" })
        else (true, st1)

/-- A block length that is a multiple of 4096 in `[4096, 1048576]`. -/
def validBlockLength (b : ℤ) : Prop := 4096 ∣ b ∧ 4096 ≤ b ∧ b ≤ 1048576

/-- A `configure` call gets as far as the block-length step: the handle is
non-null and no librtlsdr call before that step fails. -/
def reachesBlockLengthStep (st : RtlSdrSource) (env : ConfigureEnv) (tuner_gain : ℤ) : Prop :=
  st.m_dev = true ∧ 0 ≤ env.set_sample_rate ∧ 0 ≤ env.set_center_freq ∧
  0 ≤ env.set_tuner_gain_mode ∧ (tuner_gain ≠ INT_MIN → 0 ≤ env.set_tuner_gain) ∧
  0 ≤ env.set_agc_mode

/-- The I/Q sample built from bytes `2 * i` and `2 * i + 1` of a device buffer:
`IQSample((re - 128) / 128, (im - 128) / 128)` with `int32_t re = buf[2 * i]`. -/
def iqFromBytes (buf : List ℕ) (i : ℕ) : IQSample :=
  let re : ℤ := (buf.getD (2 * i) 0 : ℕ)
  let im : ℤ := (buf.getD (2 * i + 1) 0 : ℕ)
  { re := ((re - 128 : ℤ) : ℚ) / 128, im := ((im - 128 : ℤ) : ℚ) / 128 }

/-- `RtlSdrSource::get_samples(samples)`: `r` is the result of
`rtlsdr_read_sync`, `dat` the bytes it delivered into `buf` (their number is
`n_read`); `samples` is the in/out vector of the caller. -/
def RtlSdrSource.get_samples (st : RtlSdrSource) (r : ℤ) (dat : List ℕ)
    (samples : List IQSample) : Bool × RtlSdrSource × List IQSample :=
  if !st.m_dev || st.mAsync then (false, st, samples)
  else
    let buf : List ℕ := dat ++ List.replicate ((2 * st.m_block_length).toNat - dat.length) 0
    let n_read : ℤ := dat.length
    if r < 0 then (false, { st with m_error := "rtlsdr_read_sync failed" }, samples)
    else if n_read ≠ 2 * st.m_block_length then
      (false, { st with m_error := "short read, samples lost" }, samples)
    else
      let n : ℕ := st.m_block_length.toNat
      (true, st, (List.range n).foldl (fun v i => v.set i (iqFromBytes buf i))
                   (resize samples n { re := 0, im := 0 }))

/-! ## Command line (`mian.cpp`, `oldmain.cpp`) -/

/-- What a piece of code writes to standard error: the text of `usage()`, or a line. -/
inductive StderrItem where
  | usage : StderrItem
  | line : String → StderrItem
deriving DecidableEq, Repr

/-- Outcome of a step of `main`: it goes on with a value, or the process
ends through `exit(status)` after writing to standard error. -/
inductive Outcome (α : Type) where
  | proceed : α → Outcome α
  | exit : ℕ → List StderrItem → Outcome α

/-- `badarg(label)`: print the usage text and the error line, then `exit(1)`. -/
def badarg {α : Type} (label : String) : Outcome α :=
  Outcome.exit 1 [StderrItem.usage, StderrItem.line ("ERROR: Invalid argument for " ++ label ++ "\n")]

/-- A value of the type `double` as `strtod` can return it: a finite number
(the rational it denotes), an infinity, or NaN. -/
inductive DoubleValue where
  | finite : ℚ → DoubleValue
  | posInf : DoubleValue
  | negInf : DoubleValue
  | nan : DoubleValue

/-- The comparison `v < c` of a `double` with a finite constant; it is false for NaN. -/
def DoubleValue.lt (v : DoubleValue) (c : ℚ) : Bool :=
  match v with
  | DoubleValue.finite x => decide (x < c)
  | DoubleValue.posInf => false
  | DoubleValue.negInf => true
  | DoubleValue.nan => false

/-- The comparison `v > c` of a `double` with a finite constant; it is false for NaN. -/
def DoubleValue.gt (v : DoubleValue) (c : ℚ) : Bool :=
  match v with
  | DoubleValue.finite x => decide (x > c)
  | DoubleValue.posInf => true
  | DoubleValue.negInf => false
  | DoubleValue.nan => false

/-- The `case 's'` of the option loop of `main` (and of `oldmain`): `parsed`
and `ifrate` are the return value of `parse_dbl(optarg, ifrate)` and the
value it stored. The outcome on going on is the IF rate. -/
def optionS (parsed : Bool) (ifrate : DoubleValue) : Outcome DoubleValue :=
  if !parsed then badarg "-s"
  else if ifrate.lt 225001 || ifrate.gt 3200000 ||
      (ifrate.gt 300000 && ifrate.lt 900001) then
    badarg "-s"
  else Outcome.proceed ifrate

/-! ## Argument parsing (`oldmain.cpp`) -/

/-- The constant `INT_MAX`. -/
def INT_MAX : ℤ := 2 ^ 31 - 1

/-- The constant `LONG_MAX` (LP64). -/
def LONG_MAX : ℤ := 2 ^ 63 - 1

/-- The constant `LONG_MIN` (LP64). -/
def LONG_MIN : ℤ := -2 ^ 63

/-- The C library predicate `isspace` in the C locale: blank, `\t`, `\n`, `\v`, `\f`, `\r`. -/
def isspace (c : Char) : Bool := c.toNat = 32 || (9 ≤ c.toNat && c.toNat ≤ 13)

/-- The C library predicate `isdigit`. -/
def isdigit (c : Char) : Bool := 48 ≤ c.toNat && c.toNat ≤ 57

/-- Value of a run of decimal digits, most significant digit first. -/
def digitsValue (ds : List Char) : ℕ := ds.foldl (fun a c => 10 * a + (c.toNat - 48)) 0

/-- The C library function `strtol(s, &endp, 10)` on the characters of a C
string (the terminating NUL left out): skip white space, read an optional
sign and the longest run of digits, saturate at `LONG_MIN` and `LONG_MAX`.
The result is the value and the rest `endp`; without digits it is `(0, s)`. -/
def strtol (s : List Char) : ℤ × List Char :=
  let s1 := s.dropWhile isspace
  let s2 := if s1.head? = some '-' ∨ s1.head? = some '+' then s1.tail else s1
  let ds := s2.takeWhile isdigit
  if ds = [] then (0, s)
  else
    let m : ℤ := (digitsValue ds : ℤ)
    let t : ℤ := if s1.head? = some '-' then -m else m
    (max LONG_MIN (min LONG_MAX t), s2.dropWhile isdigit)

/-- `parse_int(s, v, allow_unit)`: the return value and the content of `v`
after the call (`v` keeps its value when the call returns false). -/
def parse_int (s : List Char) (v : ℤ) (allow_unit : Bool) : Bool × ℤ :=
  let t : ℤ := (strtol s).1
  let endp : List Char := (strtol s).2
  if endp = s then (false, v)
  else
    let unit : Bool := allow_unit && (endp.head? == some 'k') &&
      decide (t > Int.tdiv INT_MIN 1000) && decide (t < Int.tdiv INT_MAX 1000)
    let t1 : ℤ := if unit then t * 1000 else t
    let endp1 : List Char := if unit then endp.tail else endp
    if endp1 ≠ [] ∨ t1 < INT_MIN ∨ t1 > INT_MAX then (false, v)
    else (true, t1)

/-- Exponent of the binade of `x` in binary64: `⌊log₂ |x|⌋`, never below the
exponent `-1022` shared by the subnormal numbers. -/
def f64Exponent (x : ℚ) : ℤ := max (Int.log 2 |x|) (-1022)

/-- Rounding of a rational to binary64 (53 significant bits, round to nearest,
ties to even). Overflow to infinity is left out. -/
def f64Round (x : ℚ) : ℚ :=
  let q : ℚ := 2 ^ (f64Exponent x - 52)
  (lrint (x / q) : ℚ) * q

/-- The `double` product `a * b`. -/
def f64Mul (a b : ℚ) : ℚ := f64Round (a * b)

/-- `parse_dbl(s, v)`: the return value and the content of `v` after the call.
`x` is the value returned by the C library call `strtod(s, &endp)` and `n`
the number of characters it consumed, so that `endp = s + n`; when no
conversion is performed `n = 0` (`endp == s`). -/
def parse_dbl (s : List Char) (x : ℚ) (n : ℕ) : Bool × ℚ :=
  let endp : List Char := s.drop n
  if n = 0 then (false, x)
  else if endp.head? = some 'k' then (decide (endp.tail = []), f64Mul x 1000)
  else if endp.head? = some 'M' then (decide (endp.tail = []), f64Mul x 1000000)
  else if endp.head? = some 'G' then (decide (endp.tail = []), f64Mul x 1000000000)
  else (decide (endp = []), x)

/-! ## The gain option and the LNA gain check of `main` (`mian.cpp`) -/

/-- The test `strcasecmp(a, b) == 0` on ASCII texts. -/
def strcasecmpEq (a b : List Char) : Bool := a.map Char.toLower == b.map Char.toLower

/-- The `case 'g'` of the option loop of `main`: the value left in `lnagain`.
`x` and `n` are the value and the consumed length given by `strtod` inside
`parse_dbl(optarg, tmpgain)`. -/
def optionG (optarg : List Char) (x : ℚ) (n : ℕ) : Outcome ℤ :=
  if strcasecmpEq optarg ['a', 'u', 't', 'o'] then Outcome.proceed INT_MIN
  else if strcasecmpEq optarg ['l', 'i', 's', 't'] then Outcome.proceed (INT_MIN + 1)
  else
    if !(parse_dbl optarg x n).1 then badarg "-g"
    else
      let tmpgain : ℚ := (parse_dbl optarg x n).2
      let tmpgain2 : ℤ := lrint (f64Mul tmpgain 10)
      if tmpgain2 ≤ INT_MIN ∨ tmpgain2 ≥ INT_MAX then badarg "-g"
      else Outcome.proceed tmpgain2

/-- What the LNA gain check hands to the logger: the `SERR` line for a gain
that the tuner does not support (with the gain in tenths of a dB), the `SDEB`
line that opens the list of gains, and one `SDEB` line per supported gain. -/
inductive GainLog where
  | notSupported : ℤ → GainLog
  | supportedHeader : GainLog
  | supportedGain : ℤ → GainLog
deriving DecidableEq, Repr

/-- Outcome of the LNA gain check: `main` goes on, or ends through
`exit(status)` after the log lines. -/
inductive GainCheck where
  | proceed : GainCheck
  | exit : ℕ → List GainLog → GainCheck
deriving DecidableEq, Repr

/-- The block `Check LNA gain` of `main`; `gains` is the result of
`rtlsdr.get_tuner_gains()`. -/
def checkLnaGain (lnagain : ℤ) (gains : List ℤ) : GainCheck :=
  if lnagain ≠ INT_MIN then
    if ¬ (lnagain ∈ gains) then
      GainCheck.exit 1
        ((if lnagain ≠ INT_MIN + 1 then [GainLog.notSupported lnagain] else [])
          ++ [GainLog.supportedHeader] ++ gains.map GainLog.supportedGain)
    else GainCheck.proceed
  else GainCheck.proceed

/-! ## Calls on a `RtlSdrSource` -/

/-- `RtlSdrSource::error()`: the returned text and the state after the call. -/
def RtlSdrSource.error (st : RtlSdrSource) : String × RtlSdrSource :=
  (st.m_error, { st with m_error := "" })

/-- The health probe `RtlSdrSource::operator bool`: `m_dev && m_error.empty()`. -/
def RtlSdrSource.operatorBool (st : RtlSdrSource) : Bool :=
  st.m_dev && decide (st.m_error = "")

/-- What `StartAsync` and `StopAsync` do to the capture thread: `new std::thread`,
`rtlsdr_cancel_async` and `mThread->join()`. -/
inductive ThreadEvent where
  | spawn : ThreadEvent
  | cancel_async : ThreadEvent
  | join : ThreadEvent
deriving DecidableEq, Repr

/-- `RtlSdrSource::StartAsync()`: return value, state and thread events. -/
def RtlSdrSource.StartAsync (st : RtlSdrSource) : Bool × RtlSdrSource × List ThreadEvent :=
  if st.mAsync && !st.mThread then
    (true, { st with mThread := true }, [ThreadEvent.spawn])
  else (false, st, [])

/-- `RtlSdrSource::StopAsync()`: return value, state and thread events. -/
def RtlSdrSource.StopAsync (st : RtlSdrSource) : Bool × RtlSdrSource × List ThreadEvent :=
  if st.mAsync && st.mThread then
    (true, { st with mThread := false }, [ThreadEvent.cancel_async, ThreadEvent.join])
  else (false, st, [])

/-- A call on a `RtlSdrSource`, with the results of the librtlsdr calls it makes. -/
inductive SourceCall where
  | configure : ConfigureEnv → ℕ → ℕ → ℤ → ℤ → Bool → SourceCall
  | get_samples : ℤ → List ℕ → SourceCall
  | error : SourceCall
  | operatorBool : SourceCall
  | StartAsync : SourceCall
  | StopAsync : SourceCall

/-- What a call on a source or on an audio sink returns: a truth value or a text. -/
inductive CallResult where
  | flag : Bool → CallResult
  | text : String → CallResult
deriving DecidableEq, Repr

/-- One call on a source: its result, the state after it and its thread events. -/
def RtlSdrSource.call (st : RtlSdrSource) :
    SourceCall → CallResult × RtlSdrSource × List ThreadEvent
  | SourceCall.configure env sample_rate frequency tuner_gain block_length agcmode =>
    (CallResult.flag
        (st.configure env sample_rate frequency tuner_gain block_length agcmode).1,
      (st.configure env sample_rate frequency tuner_gain block_length agcmode).2, [])
  | SourceCall.get_samples r dat =>
    (CallResult.flag (st.get_samples r dat []).1, (st.get_samples r dat []).2.1, [])
  | SourceCall.error => (CallResult.text st.error.1, st.error.2, [])
  | SourceCall.operatorBool => (CallResult.flag st.operatorBool, st, [])
  | SourceCall.StartAsync => (CallResult.flag st.StartAsync.1, st.StartAsync.2.1, st.StartAsync.2.2)
  | SourceCall.StopAsync => (CallResult.flag st.StopAsync.1, st.StopAsync.2.1, st.StopAsync.2.2)

/-- A sequence of calls on a source: the results in order, the thread events
in order and the final state. -/
def RtlSdrSource.run (st : RtlSdrSource) :
    List SourceCall → List CallResult × List ThreadEvent × RtlSdrSource
  | [] => ([], [], st)
  | c :: cs =>
    ((st.call c).1 :: ((st.call c).2.1.run cs).1,
      (st.call c).2.2 ++ ((st.call c).2.1.run cs).2.1,
      ((st.call c).2.1.run cs).2.2)

/-- The answer of a dead handle: `configure`, `get_samples` and the health
probe give false (nothing is asked of the other calls). -/
def deadAnswer : SourceCall → CallResult → Prop
  | SourceCall.configure _ _ _ _ _ _, r => r = CallResult.flag false
  | SourceCall.get_samples _ _, r => r = CallResult.flag false
  | SourceCall.operatorBool, r => r = CallResult.flag false
  | _, _ => True

/-- A health probe answers false (nothing is asked of the other calls). -/
def probeUnhealthy : SourceCall → CallResult → Prop
  | SourceCall.operatorBool, r => r = CallResult.flag false
  | _, _ => True

/-- Number of capture threads alive after a sequence of thread events:
spawned and not yet joined. -/
def liveThreads : List ThreadEvent → ℤ
  | [] => 0
  | ThreadEvent.spawn :: es => liveThreads es + 1
  | ThreadEvent.join :: es => liveThreads es - 1
  | ThreadEvent.cancel_async :: es => liveThreads es

/-! ## The base class `AudioOutput` and `RawAudioOutput` -/

/-- The members of the base class `AudioOutput`. -/
structure AudioOutput where
  m_error : String
  m_zombie : Bool

/-- `AudioOutput::error()`: the returned text and the state after the call. -/
def AudioOutput.error (a : AudioOutput) : String × AudioOutput :=
  (a.m_error, { a with m_error := "" })

/-- The health probe `AudioOutput::operator bool`: `(!m_zombie) && m_error.empty()`. -/
def AudioOutput.operatorBool (a : AudioOutput) : Bool :=
  !a.m_zombie && decide (a.m_error = "")

/-- The base class part of a `WavAudioOutput`. -/
def WavAudioOutput.base (o : WavAudioOutput) : AudioOutput :=
  { m_error := o.m_error, m_zombie := o.m_zombie }

/-- `error()` called on a `WavAudioOutput`. -/
def WavAudioOutput.error (o : WavAudioOutput) : String × WavAudioOutput :=
  (o.base.error.1, { o with m_error := o.base.error.2.m_error })

/-- The health probe of a `WavAudioOutput`. -/
def WavAudioOutput.operatorBool (o : WavAudioOutput) : Bool := o.base.operatorBool

/-- State of a `RawAudioOutput` object (with the members of its base class). -/
structure RawAudioOutput where
  m_error : String
  m_zombie : Bool
  m_fd : ℤ
  m_bytebuf : List ℕ

/-- The constant `STDOUT_FILENO`. -/
def STDOUT_FILENO : ℤ := 1

/-- The constructor `RawAudioOutput(filename)`: `fd` is the result of
`open(filename, O_WRONLY | O_CREAT | O_TRUNC, 0666)`, `errstr` the text of
`strerror(errno)`. -/
def RawAudioOutput.create (filename : String) (fd : ℤ) (errstr : String) : RawAudioOutput :=
  if filename = "-" then
    { m_error := "", m_zombie := false, m_fd := STDOUT_FILENO, m_bytebuf := [] }
  else if fd < 0 then
    { m_error := "can not open '" ++ filename ++ "' (" ++ errstr ++ ")", m_zombie := true,
      m_fd := fd, m_bytebuf := [] }
  else { m_error := "", m_zombie := false, m_fd := fd, m_bytebuf := [] }

/-- The base class part of a `RawAudioOutput`. -/
def RawAudioOutput.base (o : RawAudioOutput) : AudioOutput :=
  { m_error := o.m_error, m_zombie := o.m_zombie }

/-- `error()` called on a `RawAudioOutput`. -/
def RawAudioOutput.error (o : RawAudioOutput) : String × RawAudioOutput :=
  (o.base.error.1, { o with m_error := o.base.error.2.m_error })

/-- The health probe of a `RawAudioOutput`. -/
def RawAudioOutput.operatorBool (o : RawAudioOutput) : Bool := o.base.operatorBool

/-- Result of one operating system call `::write(m_fd, data + p, n - p)`:
either the system takes the first `k` of the offered bytes and returns their
number (0 when `k = 0`), or it returns -1. The text is that of
`strerror(errno)`, the flag tells whether `errno == EINTR`. -/
inductive OsWrite where
  | accepts : ℕ → String → OsWrite
  | fails : Bool → String → OsWrite
deriving DecidableEq, Repr

/-- An operating system result on which `RawAudioOutput::write` gives up: a
return value 0, or -1 with an `errno` other than `EINTR`. -/
def OsWrite.bad : OsWrite → Bool
  | OsWrite.accepts k _ => decide (k = 0)
  | OsWrite.fails eintr _ => !eintr

/-- An operating system result after which `RawAudioOutput::write` calls
`::write` again at the same offset: -1 with `errno == EINTR`. -/
def OsWrite.retry : OsWrite → Bool
  | OsWrite.accepts _ _ => false
  | OsWrite.fails eintr _ => eintr

/-- What a run of the write loop of `RawAudioOutput::write` leaves: the return
value, the message stored in `m_error` (if one is stored), the byte ranges
taken by the operating system in order, and the number of `::write` calls. -/
structure RawWriteRun where
  ret : Bool
  message : Option String
  accepted : List (List ℕ)
  calls : ℕ
deriving DecidableEq, Repr

/-- The loop `while (p < n)` of `RawAudioOutput::write` over the bytes `buf`,
from offset `p`, against the results of the successive `::write` calls.
The result is `none` when the listed results run out before the loop ends. -/
def RawAudioOutput.writeLoop (buf : List ℕ) : List OsWrite → ℕ → Option RawWriteRun
  | [], p =>
    if p < buf.length then none
    else some { ret := true, message := none, accepted := [], calls := 0 }
  | r :: rs, p =>
    if p < buf.length then
      match r with
      | OsWrite.accepts k errstr =>
        let w : List ℕ := (buf.drop p).take k
        if w.length ≤ 0 then
          some { ret := false, message := some ("write failed (" ++ errstr ++ ")"),
                 accepted := [], calls := 1 }
        else
          (RawAudioOutput.writeLoop buf rs (p + w.length)).map
            (fun run => { run with accepted := w :: run.accepted, calls := run.calls + 1 })
      | OsWrite.fails eintr errstr =>
        if !eintr then
          some { ret := false, message := some ("write failed (" ++ errstr ++ ")"),
                 accepted := [], calls := 1 }
        else
          (RawAudioOutput.writeLoop buf rs p).map
            (fun run => { run with calls := run.calls + 1 })
    else some { ret := true, message := none, accepted := [], calls := 0 }

/-- `RawAudioOutput::write(samples)` against the results `rs` of its `::write`
calls: the run of the loop and the state after the call (`none` when the
listed results run out before the call returns). -/
def RawAudioOutput.write (o : RawAudioOutput) (samples : List Sample) (rs : List OsWrite) :
    Option (RawWriteRun × RawAudioOutput) :=
  if o.m_fd < 0 then
    some ({ ret := false, message := none, accepted := [], calls := 0 }, o)
  else
    (RawAudioOutput.writeLoop (samplesToInt16 samples o.m_bytebuf) rs 0).map
      (fun run => (run, { o with m_bytebuf := samplesToInt16 samples o.m_bytebuf,
                                 m_error := run.message.getD o.m_error }))

/-- A call on a `WavAudioOutput`, with the results of the C library calls it makes. -/
inductive WavCall where
  | write : List Sample → ℕ → String → WavCall
  | error : WavCall
  | operatorBool : WavCall

/-- One call on a `WavAudioOutput`: its result and the state after it. -/
def WavAudioOutput.call (o : WavAudioOutput) : WavCall → CallResult × WavAudioOutput
  | WavCall.write samples k errstr =>
    (CallResult.flag (o.write samples k errstr).1, (o.write samples k errstr).2)
  | WavCall.error => (CallResult.text o.error.1, o.error.2)
  | WavCall.operatorBool => (CallResult.flag o.operatorBool, o)

/-- A sequence of calls on a `WavAudioOutput`: the results in order and the final state. -/
def WavAudioOutput.run (o : WavAudioOutput) : List WavCall → List CallResult × WavAudioOutput
  | [] => ([], o)
  | c :: cs => ((o.call c).1 :: ((o.call c).2.run cs).1, ((o.call c).2.run cs).2)

/-- A call on a `RawAudioOutput`, with the results of the system calls it makes. -/
inductive RawCall where
  | write : List Sample → List OsWrite → RawCall
  | error : RawCall
  | operatorBool : RawCall

/-- One call on a `RawAudioOutput`: its result and the state after it (`none`
when a `write` call does not return on the listed system results). -/
def RawAudioOutput.call (o : RawAudioOutput) : RawCall → Option (CallResult × RawAudioOutput)
  | RawCall.write samples rs =>
    (o.write samples rs).map (fun x => (CallResult.flag x.1.ret, x.2))
  | RawCall.error => some (CallResult.text o.error.1, o.error.2)
  | RawCall.operatorBool => some (CallResult.flag o.operatorBool, o)

/-- A sequence of calls on a `RawAudioOutput`: the results in order and the
final state; the sequence ends at a call that does not return. -/
def RawAudioOutput.run (o : RawAudioOutput) : List RawCall → List CallResult × RawAudioOutput
  | [] => ([], o)
  | c :: cs =>
    match o.call c with
    | none => ([], o)
    | some x => (x.1 :: (x.2.run cs).1, (x.2.run cs).2)

/-- The answer of a zombie `WavAudioOutput`: `write` and the health probe give false. -/
def wavDeadAnswer : WavCall → CallResult → Prop
  | WavCall.write _ _ _, r => r = CallResult.flag false
  | WavCall.operatorBool, r => r = CallResult.flag false
  | WavCall.error, _ => True

/-- The answer of a zombie `RawAudioOutput`: `write` and the health probe give false. -/
def rawDeadAnswer : RawCall → CallResult → Prop
  | RawCall.write _ _, r => r = CallResult.flag false
  | RawCall.operatorBool, r => r = CallResult.flag false
  | RawCall.error, _ => True

/-! ## RtlSdrSource::DongleCallback -/

/-- The members that `SampleBufferBlock` adds to its base class: the array
`samples` (a list of its cells) and `size`. -/
structure SampleBufferBlock where
  samples : List IQSample
  size : ℤ

/-- What `DongleCallback` does to the outside, in order: the log lines
(`SDEB`, `SWAR`), the calls on the hand-off queue `mSampleBuffer`
(`GetBlockToWrite`, and `UpdateWriteState` with the content of the write block
at the time of the call), and the emission of the signal `NEW_DATA`. -/
inductive CallbackEvent where
  | SDEB : String → CallbackEvent
  | GetBlockToWrite : CallbackEvent
  | UpdateWriteState : SampleBufferBlock → CallbackEvent
  | SWAR : String → CallbackEvent
  | NEW_DATA_Emit : CallbackEvent

/-- The loop `for (size_t i = 0; i < iqSamples; ++i)` of `DongleCallback` with
`n` rounds left, at index `i`: each round reads bytes `2 * i` and `2 * i + 1`
of `buf` and stores the sample in cell `i`. The result is `none` when a round
reads outside the buffer or stores outside the array. -/
def RtlSdrSource.fillBlock (buf : List ℕ) : ℕ → ℕ → List IQSample → Option (List IQSample)
  | 0, _, samples => some samples
  | n + 1, i, samples =>
    if 2 * i + 1 < buf.length ∧ i < samples.length then
      RtlSdrSource.fillBlock buf n (i + 1) (samples.set i (iqFromBytes buf i))
    else none

/-- `RtlSdrSource::DongleCallback(buf, len)`: `slot` is the block that
`mSampleBuffer->GetBlockToWrite()` returns (`none` for the null pointer). The
result lists what the callback does to the outside; it is `none` when the loop
leaves the buffer or the sample array. -/
def RtlSdrSource.DongleCallback (slot : Option SampleBufferBlock) (buf : List ℕ) (len : ℕ) :
    Option (List CallbackEvent) :=
  let iqSamples : ℕ := len / 2
  match slot with
  | some block =>
    (RtlSdrSource.fillBlock buf iqSamples 0 block.samples).map
      (fun samples =>
        [CallbackEvent.SDEB "+", CallbackEvent.GetBlockToWrite,
          CallbackEvent.UpdateWriteState { block with samples := samples },
          CallbackEvent.NEW_DATA_Emit])
  | none =>
    some [CallbackEvent.SDEB "+", CallbackEvent.GetBlockToWrite,
      CallbackEvent.SWAR "SampleBuffer is full", CallbackEvent.NEW_DATA_Emit]

/-- The blocks published to the hand-off queue by a list of events. -/
def publishedBlocks : List CallbackEvent → List SampleBufferBlock
  | [] => []
  | CallbackEvent.UpdateWriteState block :: es => block :: publishedBlocks es
  | _ :: es => publishedBlocks es

/-- The number of emissions of `NEW_DATA` in a list of events. -/
def emissions : List CallbackEvent → ℕ
  | [] => 0
  | CallbackEvent.NEW_DATA_Emit :: es => emissions es + 1
  | _ :: es => emissions es

/-- The warnings recorded by a list of events. -/
def warnings : List CallbackEvent → List String
  | [] => []
  | CallbackEvent.SWAR text :: es => text :: warnings es
  | _ :: es => warnings es

/-! ## DataBuffer (oldmain.cpp) -/

/-- State of a `DataBuffer<Element>`: `m_qlen` (a `size_t`), `m_end_marked`
and the queue of blocks, the front first. -/
structure DataBuffer (α : Type) where
  m_qlen : ℕ
  m_end_marked : Bool
  m_queue : List (List α)

/-- The constructor `DataBuffer()`. -/
def DataBuffer.create {α : Type} : DataBuffer α :=
  { m_qlen := 0, m_end_marked := false, m_queue := [] }

/-- `DataBuffer::push(samples)`. -/
def DataBuffer.push {α : Type} (b : DataBuffer α) (samples : List α) : DataBuffer α :=
  if !samples.isEmpty then
    { b with m_qlen := toUnsignedLong ((b.m_qlen : ℤ) + (samples.length : ℤ)),
             m_queue := b.m_queue ++ [samples] }
  else b

/-- `DataBuffer::push_end()`. -/
def DataBuffer.push_end {α : Type} (b : DataBuffer α) : DataBuffer α :=
  { b with m_end_marked := true }

/-- `DataBuffer::queued_samples()`. -/
def DataBuffer.queued_samples {α : Type} (b : DataBuffer α) : ℕ := b.m_qlen

/-- `DataBuffer::pull()` with no other thread at work: the returned vector and
the state after the call; `none` when the call waits on the condition
variable (empty queue, end not marked). -/
def DataBuffer.pull {α : Type} (b : DataBuffer α) : Option (List α × DataBuffer α) :=
  if b.m_queue.isEmpty && !b.m_end_marked then none
  else
    match b.m_queue with
    | front :: rest =>
      some (front, { b with m_qlen := toUnsignedLong ((b.m_qlen : ℤ) - (front.length : ℤ)),
                            m_queue := rest })
    | [] => some ([], b)

/-- `DataBuffer::pull_end_reached()`. -/
def DataBuffer.pull_end_reached {α : Type} (b : DataBuffer α) : Bool :=
  b.m_qlen == 0 && b.m_end_marked

/-- A call on a `DataBuffer`. -/
inductive BufferOp (α : Type) where
  | push : List α → BufferOp α
  | push_end : BufferOp α
  | pull : BufferOp α

/-- A sequence of calls on a `DataBuffer`: the vectors returned by the `pull`
calls in order and the final state; the sequence ends at a `pull` that waits. -/
def DataBuffer.run {α : Type} (b : DataBuffer α) : List (BufferOp α) → List (List α) × DataBuffer α
  | [] => ([], b)
  | BufferOp.push samples :: ops => (b.push samples).run ops
  | BufferOp.push_end :: ops => b.push_end.run ops
  | BufferOp.pull :: ops =>
    match b.pull with
    | none => ([], b)
    | some x => (x.1 :: (x.2.run ops).1, (x.2.run ops).2)

/-- The calls of a sequence that return: all of them, or those before the
first `pull` that waits. -/
def DataBuffer.performed {α : Type} (b : DataBuffer α) : List (BufferOp α) → List (BufferOp α)
  | [] => []
  | BufferOp.push samples :: ops => BufferOp.push samples :: (b.push samples).performed ops
  | BufferOp.push_end :: ops => BufferOp.push_end :: b.push_end.performed ops
  | BufferOp.pull :: ops =>
    match b.pull with
    | none => []
    | some x => BufferOp.pull :: x.2.performed ops

/-- Whether a call is `push_end()`. -/
def BufferOp.isPushEnd {α : Type} : BufferOp α → Bool
  | BufferOp.push_end => true
  | _ => false

/-- Whether every `pull` of a sequence of calls is made when the queue is non-empty. -/
def DataBuffer.pullsOnNonEmpty {α : Type} (b : DataBuffer α) : List (BufferOp α) → Bool
  | [] => true
  | BufferOp.push samples :: ops => (b.push samples).pullsOnNonEmpty ops
  | BufferOp.push_end :: ops => b.push_end.pullsOnNonEmpty ops
  | BufferOp.pull :: ops =>
    !b.m_queue.isEmpty &&
      (match b.pull with
       | none => false
       | some x => x.2.pullsOnNonEmpty ops)

/-- The non-empty blocks pushed by a sequence of calls, in order. -/
def pushedNonEmpty {α : Type} : List (BufferOp α) → List (List α)
  | [] => []
  | BufferOp.push samples :: ops =>
    if samples.isEmpty then pushedNonEmpty ops else samples :: pushedNonEmpty ops
  | _ :: ops => pushedNonEmpty ops

/-- The number of `pull` calls in a sequence of calls. -/
def pullCount {α : Type} : List (BufferOp α) → ℕ
  | [] => 0
  | BufferOp.pull :: ops => pullCount ops + 1
  | _ :: ops => pullCount ops

/-! ## The `AudioBuffer` overload of `samplesToInt16` and `RtAudioOutput` -/

/-- The `AudioBuffer` overload of `AudioOutput::samplesToInt16`: the calls
`bytes.PushFramesBytes(temp, 2)` in order, each given by the two bytes of
`temp`. -/
def samplesToInt16Push : List Sample → List (List ℕ)
  | [] => []
  | ss :: rest =>
    let u : ℕ := toUnsignedLong (sampleToLong ss)
    [u % 256, (u / 256) % 256] :: samplesToInt16Push rest

/-- The conversion `static_cast<uint16_t>(n)` of an `unsigned int`. -/
def toUint16 (n : ℕ) : ℕ := n % 2 ^ 16

/-- The arguments that the constructor of `RtAudioOutput` hands to the
constructors of `LF::audio::AudioBuffer` and `LF::audio::AudioParameters`
after the sample format `Sint16`: the sample rate and the channel count. -/
structure AudioSetup where
  sampleRate : ℕ
  channels : ℕ
deriving DecidableEq, Repr

/-- State of a `RtAudioOutput` object after its constructor: the members of the
base class and what `mAudioBuffer` and `mParameters` were constructed with
(`mPlayer` is constructed from `mParameters`). -/
structure RtAudioOutput where
  m_error : String
  m_zombie : Bool
  mAudioBuffer : AudioSetup
  mParameters : AudioSetup

/-- The constructor `RtAudioOutput(samplerate, stereo)`. -/
def RtAudioOutput.create (samplerate : ℕ) (stereo : Bool) : RtAudioOutput :=
  { m_error := "", m_zombie := false,
    mAudioBuffer := { sampleRate := toUint16 samplerate, channels := if stereo then 2 else 1 },
    mParameters := { sampleRate := toUint16 samplerate, channels := if stereo then 2 else 1 } }

/-! ## The downsampling factor and the PPS time stamps (`mian.cpp`, `oldmain.cpp`) -/

/-- The `double` quotient `a / b`. -/
def f64Div (a b : ℚ) : ℚ := f64Round (a / b)

/-- The `double` sum `a + b`. -/
def f64Add (a b : ℚ) : ℚ := f64Round (a + b)

/-- The `double` difference `a - b`. -/
def f64Sub (a b : ℚ) : ℚ := f64Round (a - b)

/-- The conversion `int(x)` of a `double`: the fractional part is dropped;
the result is `none` when the truncated value is no `int` (the conversion is
then undefined). -/
def doubleToInt (x : ℚ) : Option ℤ :=
  let t : ℤ := if 0 ≤ x then ⌊x⌋ else ⌈x⌉
  if INT_MIN ≤ t ∧ t ≤ INT_MAX then some t else none

/-- `std::max(a, b)` on `int`. -/
def stdMaxInt (a b : ℤ) : ℤ := if a < b then b else a

/-- The line `unsigned int downsample = std::max(1, int(ifrate / 215.0e3));`
of `main` and of `oldmain`. -/
def downsample (ifrate : ℚ) : Option ℕ :=
  (doubleToInt (f64Div ifrate 215000)).map (fun t => toUnsigned (stdMaxInt 1 t))

/-- The time stamp `ts` that `oldmain` writes for a PPS event:
`ts = prev_block_time; ts += ev.block_position * (block_time - prev_block_time);`. -/
def ppsTime (prev_block_time block_time block_position : ℚ) : ℚ :=
  f64Add prev_block_time (f64Mul block_position (f64Sub block_time prev_block_time))

/-- The number of samples in the blocks of a queue. -/
def queuedTotal {α : Type} (queue : List (List α)) : ℕ := (queue.map List.length).sum

/-- A rational number that is a value of the type `double`: rounding to
binary64 keeps it. -/
def isDouble (x : ℚ) : Prop := f64Round x = x
/-! ## The start of `main` (`mian.cpp`) -/

/-- The enumeration `OutputMode` of `main`. -/
inductive OutputMode where
  | MODE_RAW : OutputMode
  | MODE_WAV : OutputMode
  | MODE_RTAUDIO : OutputMode
deriving DecidableEq, Repr

/-- The local variables of `main` that the option loop sets. -/
structure MainVars where
  freq : ℚ
  devidx : ℤ
  lnagain : ℤ
  agcmode : Bool
  ifrate : ℚ
  pcmrate : ℤ
  stereo : Bool
  outmode : OutputMode
  filename : List Char
  ppsfilename : List Char
  bufsecs : ℚ

/-- The initial values of the local variables of `main`. -/
def MainVars.init : MainVars :=
  { freq := -1, devidx := 0, lnagain := INT_MIN, agcmode := false, ifrate := 1200000,
    pcmrate := 48000, stereo := true, outmode := OutputMode.MODE_RTAUDIO, filename := [],
    ppsfilename := [], bufsecs := -1 }

/-- One result of `getopt_long`: the option character `c` it returns and
`optarg` (empty when the option has no argument). For the options whose
argument goes through `parse_dbl`, `x` and `n` are the value, a finite number,
and the consumed length given by `strtod` on `optarg`. -/
structure GetoptResult where
  c : Char
  optarg : List Char
  x : ℚ
  n : ℕ

/-- An argument of a log line: an integer or a text. -/
inductive LogArg where
  | int : ℤ → LogArg
  | str : List Char → LogArg
deriving DecidableEq, Repr

/-- What `main` puts out before it opens the device: text on standard error
(`usage()`, `fprintf(stderr, ...)`, the output of `badarg`) and the lines
handed to the logger through `SDEB` and `SERR`, each with its format text
and arguments. -/
inductive MainLog where
  | stderr : StderrItem → MainLog
  | SDEB : String → List LogArg → MainLog
  | SERR : String → List LogArg → MainLog
deriving DecidableEq, Repr

/-- The body of the `switch (c)` of the option loop of `main` for one result
of `getopt_long`: the variables after it, or the exit. In the log of an exit,
`StderrItem.usage` stands for the text of `usage()` (that of `mian.cpp` in the
`default` case, that of `oldmain.cpp` inside `badarg`), and the line handed to
`SERR` in the `default` case is kept as a line item. -/
def mainOption (v : MainVars) (o : GetoptResult) : Outcome MainVars :=
  if o.c = 'f' then
    if !(parse_dbl o.optarg o.x o.n).1 || decide ((parse_dbl o.optarg o.x o.n).2 ≤ 0) then
      badarg "-f"
    else Outcome.proceed { v with freq := (parse_dbl o.optarg o.x o.n).2 }
  else if o.c = 'd' then
    if !(parse_int o.optarg v.devidx false).1 then Outcome.proceed { v with devidx := -1 }
    else Outcome.proceed { v with devidx := (parse_int o.optarg v.devidx false).2 }
  else if o.c = 'g' then
    match optionG o.optarg o.x o.n with
    | Outcome.proceed lnagain => Outcome.proceed { v with lnagain := lnagain }
    | Outcome.exit status log => Outcome.exit status log
  else if o.c = 's' then
    match optionS (parse_dbl o.optarg o.x o.n).1
        (DoubleValue.finite (parse_dbl o.optarg o.x o.n).2) with
    | Outcome.proceed _ => Outcome.proceed { v with ifrate := (parse_dbl o.optarg o.x o.n).2 }
    | Outcome.exit status log => Outcome.exit status log
  else if o.c = 'r' then
    if !(parse_int o.optarg v.pcmrate true).1 ||
        decide ((parse_int o.optarg v.pcmrate true).2 < 1) then
      badarg "-r"
    else Outcome.proceed { v with pcmrate := (parse_int o.optarg v.pcmrate true).2 }
  else if o.c = 'M' then Outcome.proceed { v with stereo := false }
  else if o.c = 'R' then
    Outcome.proceed { v with outmode := OutputMode.MODE_RAW, filename := o.optarg }
  else if o.c = 'W' then
    Outcome.proceed { v with outmode := OutputMode.MODE_WAV, filename := o.optarg }
  else if o.c = 'P' then Outcome.proceed { v with outmode := OutputMode.MODE_RTAUDIO }
  else if o.c = 'T' then Outcome.proceed { v with ppsfilename := o.optarg }
  else if o.c = 'b' then
    if !(parse_dbl o.optarg o.x o.n).1 || decide ((parse_dbl o.optarg o.x o.n).2 < 0) then
      badarg "-b"
    else Outcome.proceed { v with bufsecs := (parse_dbl o.optarg o.x o.n).2 }
  else if o.c = 'a' then Outcome.proceed { v with agcmode := true }
  else
    Outcome.exit 1 [StderrItem.usage, StderrItem.line "Invalid command line options"]

/-- The loop `while ((c = getopt_long(...)) >= 0)` of `main` over the results
that `getopt_long` gives before it returns -1. -/
def optionLoop (v : MainVars) : List GetoptResult → Outcome MainVars
  | [] => Outcome.proceed v
  | o :: os =>
    match mainOption v o with
    | Outcome.proceed v1 => optionLoop v1 os
    | Outcome.exit status log => Outcome.exit status log

/-- How far `main` gets: it ends through `exit(status)`, or it reaches the
line `RtlSdrSource rtlsdr(devidx, true);` that opens the device, with the
variables it has then. Both carry what was put out on the way. -/
inductive MainStage where
  | exit : ℕ → List MainLog → MainStage
  | openDevice : MainVars → List MainLog → MainStage

/-- The lines that `main` logs for a device index that is not in the list. -/
def deviceListLog (devidx : ℤ) (devnames : List (List Char)) : List MainLog :=
  (if devidx ≠ -1 then [MainLog.SERR "invalid device index %d" [LogArg.int devidx]] else []) ++
  [MainLog.SDEB "Found %u devices: " [LogArg.int (u32 devnames.length)]] ++
  (List.range devnames.length).map
    (fun (i : ℕ) => MainLog.SDEB "%2u: %s" [LogArg.int (i : ℤ), LogArg.str (devnames.getD i [])])

/-- `main` from its first line to the line that opens the RTL-SDR device.
`opts` are the results of `getopt_long`, `leftover` tells whether
`optind < argc` after the loop, `devnames` is the result of
`RtlSdrSource::get_device_names()` (whose length is an `int`, so that the
`unsigned` counter of the listing loop does not wrap). -/
def mainToOpen (opts : List GetoptResult) (leftover : Bool) (devnames : List (List Char)) :
    MainStage :=
  let start : List MainLog :=
    [MainLog.SDEB "SoftFM - Software decoder for FM broadcast radio with RTL-SDR" []]
  match optionLoop MainVars.init opts with
  | Outcome.exit status log => MainStage.exit status (start ++ log.map MainLog.stderr)
  | Outcome.proceed v =>
    if leftover then
      MainStage.exit 1 (start ++ [MainLog.stderr StderrItem.usage,
        MainLog.stderr (StderrItem.line "ERROR: Unexpected command line options\n")])
    else if v.devidx < 0 ∨ (toUnsigned v.devidx : ℤ) ≥ (devnames.length : ℤ) then
      MainStage.exit 1 (start ++ deviceListLog v.devidx devnames)
    else if v.freq ≤ 0 then
      MainStage.exit 1 (start ++
        [MainLog.SDEB "using device %d: %s"
            [LogArg.int v.devidx, LogArg.str (devnames.getD v.devidx.toNat [])],
          MainLog.stderr StderrItem.usage,
          MainLog.SERR "ERROR: Specify a tuning frequency" []])
    else
      MainStage.openDevice v (start ++
        [MainLog.SDEB "using device %d: %s"
            [LogArg.int v.devidx, LogArg.str (devnames.getD v.devidx.toNat [])]])

/-! ## Lemmas on rounding -/

theorem lrint_sub_le (x : ℚ) : |(lrint x : ℚ) - x| ≤ 1 / 2 := by
  have h1 : (⌊x⌋ : ℚ) ≤ x := Int.floor_le x
  have h2 : x < (⌊x⌋ : ℚ) + 1 := Int.lt_floor_add_one x
  unfold lrint
  simp only
  split_ifs with ha hb hc
  · rw [abs_le]; constructor <;> linarith
  · rw [abs_le]; push_cast; constructor <;> linarith
  · rw [abs_le]; constructor <;> linarith
  · rw [abs_le]; push_cast; constructor <;> linarith

theorem lrint_le_of_le (x : ℚ) (m : ℤ) (h : x ≤ m) : lrint x ≤ m := by
  have h1 := (abs_le.mp (lrint_sub_le x)).2
  have h2 : (lrint x : ℚ) < (m : ℚ) + 1 := by linarith
  have h3 : lrint x < m + 1 := by exact_mod_cast h2
  omega

theorem le_lrint_of_le (x : ℚ) (m : ℤ) (h : (m : ℚ) ≤ x) : m ≤ lrint x := by
  have h1 := (abs_le.mp (lrint_sub_le x)).1
  have h2 : (m : ℚ) - 1 < (lrint x : ℚ) := by linarith
  have h3 : m - 1 < lrint x := by exact_mod_cast h2
  omega


theorem f32Exponent_le (x : ℚ) (hx : |x| ≤ 32767) : f32Exponent x ≤ 14 := by
  unfold f32Exponent
  apply max_le _ (by norm_num)
  rcases (abs_nonneg x).eq_or_lt with h0 | hpos
  · rw [← h0]; simp [Int.log_of_right_le_zero]
  · have h : Int.log 2 |x| < 15 := by
      rw [← Int.lt_zpow_iff_log_lt (by norm_num) hpos]
      norm_num
      linarith
    omega

theorem f32Exponent_ge (x : ℚ) : -126 ≤ f32Exponent x := le_max_right _ _

/-- The spacing of binary32 around a value of magnitude at most 32767 is
`1 / 2 ^ n` for some `n` from 9 on. -/
theorem f32_quantum (x : ℚ) (hx : |x| ≤ 32767) :
    ∃ n : ℕ, 9 ≤ n ∧ (2 : ℚ) ^ (f32Exponent x - 23) = 1 / 2 ^ n := by
  have h1 := f32Exponent_le x hx
  have h2 := f32Exponent_ge x
  refine ⟨(23 - f32Exponent x).toNat, by omega, ?_⟩
  have h3 : f32Exponent x - 23 = -(((23 - f32Exponent x).toNat : ℕ) : ℤ) := by
    rw [Int.toNat_of_nonneg (by omega)]; ring
  rw [h3, zpow_neg, zpow_natCast, one_div]

/-- Rounding a value of magnitude at most 32767 to binary32 moves it by at most `2⁻¹⁰`. -/
theorem f32Round_error (x : ℚ) (hx : |x| ≤ 32767) : |f32Round x - x| ≤ 1 / 1024 := by
  obtain ⟨n, hn, hq⟩ := f32_quantum x hx
  unfold f32Round
  simp only [hq]
  have hpos : (0 : ℚ) < 2 ^ n := by positivity
  have hle : (2 : ℚ) ^ 9 ≤ 2 ^ n := pow_le_pow_right₀ (by norm_num) hn
  have hr := lrint_sub_le (x / (1 / 2 ^ n))
  have e1 : x / (1 / 2 ^ n) = x * 2 ^ n := by field_simp
  rw [e1] at hr ⊢
  have e2 : (lrint (x * 2 ^ n) : ℚ) * (1 / 2 ^ n) - x
      = ((lrint (x * 2 ^ n) : ℚ) - x * 2 ^ n) / 2 ^ n := by field_simp; ring
  rw [e2, abs_div, abs_of_pos hpos, div_le_iff₀ hpos]
  calc |(lrint (x * 2 ^ n) : ℚ) - x * 2 ^ n| ≤ 1 / 2 := hr
    _ = 1 / 1024 * 2 ^ 9 := by norm_num
    _ ≤ 1 / 1024 * 2 ^ n := by apply mul_le_mul_of_nonneg_left hle; norm_num

/-- Rounding to binary32 keeps a value inside `[-32767, 32767]`. -/
theorem f32Round_bound (x : ℚ) (hx : |x| ≤ 32767) : |f32Round x| ≤ 32767 := by
  obtain ⟨n, hn, hq⟩ := f32_quantum x hx
  unfold f32Round
  simp only [hq]
  have hpos : (0 : ℚ) < 2 ^ n := by positivity
  have e1 : x / (1 / 2 ^ n) = x * 2 ^ n := by field_simp
  rw [e1]
  obtain ⟨hlo, hhi⟩ := abs_le.mp hx
  have hup : lrint (x * 2 ^ n) ≤ 32767 * 2 ^ n := by
    apply lrint_le_of_le
    push_cast
    exact mul_le_mul_of_nonneg_right hhi hpos.le
  have hdn : -(32767 * 2 ^ n) ≤ lrint (x * 2 ^ n) := by
    apply le_lrint_of_le
    push_cast
    have := mul_le_mul_of_nonneg_right hlo hpos.le
    linarith
  have hup1 : (lrint (x * 2 ^ n) : ℚ) ≤ 32767 * 2 ^ n := by exact_mod_cast hup
  have hdn1 : -(32767 * 2 ^ n : ℚ) ≤ (lrint (x * 2 ^ n) : ℚ) := by exact_mod_cast hdn
  rw [abs_le]
  constructor
  · rw [mul_one_div, le_div_iff₀ hpos]; linarith
  · rw [mul_one_div, div_le_iff₀ hpos]; linarith

/-! ## Lemmas on `samplesToInt16` -/

theorem clamp_bounds (s : ℚ) :
    -1 ≤ stdMax (-1) (stdMin 1 s) ∧ stdMax (-1) (stdMin 1 s) ≤ 1 := by
  unfold stdMax stdMin
  split_ifs <;> constructor <;> linarith

theorem clamp_id (s : ℚ) (h1 : -1 ≤ s) (h2 : s ≤ 1) : stdMax (-1) (stdMin 1 s) = s := by
  unfold stdMax stdMin
  split_ifs <;> linarith

theorem clamp_eq_max_min (s : ℚ) : stdMax (-1) (stdMin 1 s) = max (-1) (min 1 s) := by
  unfold stdMax stdMin
  rcases le_or_lt 1 s with h | h
  · rw [if_neg (not_lt.mpr h), min_eq_left h, if_pos (by norm_num), max_eq_right (by norm_num)]
  · rw [if_pos h, min_eq_right h.le]
    split_ifs with h2
    · rw [max_eq_right h2.le]
    · rw [max_eq_left (not_lt.mp h2)]

theorem take_set_set {α : Type} (l : List α) (k : ℕ) (a b : α) (h : k + 1 < l.length) :
    ((l.set k a).set (k + 1) b).take (k + 2) = l.take k ++ [a, b] := by
  induction k generalizing l with
  | zero =>
    match l, h with
    | x :: y :: t, _ => simp
  | succ k ih =>
    match l, h with
    | x :: t, h =>
      have h1 : k + 1 < t.length := by simpa using h
      simpa using ih t h1

theorem samplesToInt16Loop_eq (samples : List Sample) (k : ℕ) (bytes : List ℕ)
    (h : bytes.length = k + 2 * samples.length) :
    samplesToInt16Loop samples k bytes = bytes.take k ++ samples.flatMap encodeSample := by
  induction samples generalizing k bytes with
  | nil =>
    have h0 : bytes.length = k := by simpa using h
    simp [samplesToInt16Loop, ← h0]
  | cons s rest ih =>
    simp only [List.length_cons] at h
    simp only [samplesToInt16Loop]
    rw [ih]
    · rw [take_set_set _ _ _ _ (by omega)]
      simp [encodeSample, List.flatMap_cons]
    · simp only [List.length_set]; omega

theorem length_resize {α : Type} (v : List α) (n : ℕ) (d : α) : (resize v n d).length = n := by
  simp [resize]; omega

/-- Closed form of the loop: the output is the concatenation of the byte
pairs of the samples, whatever the byte vector held before. -/
theorem samplesToInt16_eq (samples : List Sample) (bytes : List ℕ) :
    samplesToInt16 samples bytes = samples.flatMap encodeSample := by
  unfold samplesToInt16
  rw [samplesToInt16Loop_eq _ _ _ (by rw [length_resize]; omega)]
  simp

theorem length_flatMap_encodeSample (samples : List Sample) :
    (samples.flatMap encodeSample).length = 2 * samples.length := by
  induction samples with
  | nil => simp
  | cons s rest ih => simp [List.flatMap_cons, encodeSample, ih]; omega

theorem getElem?_flatMap_encodeSample (samples : List Sample) (i : ℕ) (h : i < samples.length) :
    (samples.flatMap encodeSample)[2 * i]?
        = some (toUnsignedLong (sampleToLong samples[i]) % 256) ∧
    (samples.flatMap encodeSample)[2 * i + 1]?
        = some ((toUnsignedLong (sampleToLong samples[i]) / 256) % 256) := by
  induction samples generalizing i with
  | nil => simp at h
  | cons s rest ih =>
    cases i with
    | zero => simp [List.flatMap_cons, encodeSample]
    | succ j =>
      have hj : j < rest.length := by simpa using h
      have e1 : 2 * (j + 1) = 2 * j + 1 + 1 := by ring
      rw [e1]
      simpa [List.flatMap_cons, encodeSample] using ih j hj

/-- The integer written for a sample lies in `[-32767, 32767]`. -/
theorem sampleToLong_bounds (s : Sample) : -32767 ≤ sampleToLong s ∧ sampleToLong s ≤ 32767 := by
  obtain ⟨h1, h2⟩ := clamp_bounds s
  have hx : |stdMax (-1) (stdMin 1 s) * 32767| ≤ 32767 := by
    rw [abs_le]; constructor <;> linarith
  obtain ⟨h3, h4⟩ := abs_le.mp (f32Round_bound _ hx)
  unfold sampleToLong f32Mul
  constructor
  · apply le_lrint_of_le; push_cast; linarith
  · apply lrint_le_of_le; push_cast; linarith

/-- The integer written for a sample is the exact product `32767 * clamp s`
up to the `lrint` rounding (at most 1/2) and the `float` rounding (at most `2⁻¹⁰`). -/
theorem sampleToLong_error (s : Sample) :
    |(sampleToLong s : ℚ) - 32767 * stdMax (-1) (stdMin 1 s)| ≤ 1 / 2 + 1 / 1024 := by
  obtain ⟨h1, h2⟩ := clamp_bounds s
  have hx : |stdMax (-1) (stdMin 1 s) * 32767| ≤ 32767 := by
    rw [abs_le]; constructor <;> linarith
  have ha := abs_le.mp (f32Round_error _ hx)
  have hb := abs_le.mp (lrint_sub_le (f32Round (stdMax (-1) (stdMin 1 s) * 32767)))
  unfold sampleToLong f32Mul
  simp only
  rw [abs_le]
  constructor <;> linarith [ha.1, ha.2, hb.1, hb.2]

theorem decode_bytes (v : ℤ) (h1 : -32768 ≤ v) (h2 : v ≤ 32767) :
    decodeS16LE (toUnsignedLong v % 256) ((toUnsignedLong v / 256) % 256) = v := by
  unfold decodeS16LE toUnsignedLong
  simp only
  norm_num
  split_ifs <;> omega

theorem bytes_twosComplement (v : ℤ) :
    toUnsignedLong v % 256 = twosComplement16 v % 256 ∧
    (toUnsignedLong v / 256) % 256 = twosComplement16 v / 256 := by
  unfold toUnsignedLong twosComplement16
  norm_num
  omega

theorem twosComplement16_lt (v : ℤ) : twosComplement16 v < 65536 := by
  unfold twosComplement16
  omega

/-! ## Claims on `samplesToInt16` -/

/-- C1: for samples in `[-1, 1]`, every byte pair written by
`AudioOutput::samplesToInt16`, read back as a little-endian signed 16-bit
integer `v` and decoded as `v / 32767`, is within `1 / 32767` of the sample
at that position. -/
theorem C1_roundtrip_within_one_step (samples : List Sample) (bytes : List ℕ)
    (hrange : ∀ s ∈ samples, -1 ≤ s ∧ s ≤ 1) (i : ℕ) (hi : i < samples.length) :
    ∃ lo hi8 : ℕ,
      (samplesToInt16 samples bytes)[2 * i]? = some lo ∧
      (samplesToInt16 samples bytes)[2 * i + 1]? = some hi8 ∧
      |(decodeS16LE lo hi8 : ℚ) / 32767 - samples[i]| ≤ 1 / 32767 := by
  obtain ⟨e1, e2⟩ := getElem?_flatMap_encodeSample samples i hi
  obtain ⟨b1, b2⟩ := sampleToLong_bounds samples[i]
  obtain ⟨r1, r2⟩ := hrange samples[i] (List.getElem_mem hi)
  refine ⟨_, _, by rw [samplesToInt16_eq]; exact e1, by rw [samplesToInt16_eq]; exact e2, ?_⟩
  rw [decode_bytes _ (by omega) b2]
  have herr := abs_le.mp (sampleToLong_error samples[i])
  rw [clamp_id _ r1 r2] at herr
  rw [abs_le]
  constructor
  · rw [le_sub_iff_add_le, le_div_iff₀ (by norm_num)]; linarith [herr.1]
  · rw [sub_le_iff_le_add, div_le_iff₀ (by norm_num)]; linarith [herr.2]

/-- Witness of C1 on the one-sample sequence `[1/2]`. -/
theorem C1_roundtrip_within_one_step_witness :
    (∀ s ∈ [(1 / 2 : Sample)], -1 ≤ s ∧ s ≤ 1) ∧ 0 < [(1 / 2 : Sample)].length ∧
    ∃ lo hi8 : ℕ,
      (samplesToInt16 [(1 / 2 : Sample)] [])[2 * 0]? = some lo ∧
      (samplesToInt16 [(1 / 2 : Sample)] [])[2 * 0 + 1]? = some hi8 ∧
      |(decodeS16LE lo hi8 : ℚ) / 32767 - [(1 / 2 : Sample)][0]| ≤ 1 / 32767 :=
  ⟨by norm_num, by decide,
    C1_roundtrip_within_one_step [(1 / 2 : Sample)] [] (by norm_num) 0 (by decide)⟩

/-- C2: for samples of any magnitude, `AudioOutput::samplesToInt16` writes two
bytes per sample and every byte pair decodes as a little-endian signed 16-bit
integer in `[-32767, 32767]`; the value -32768 is never written. -/
theorem C2_pairs_within_clamped_range (samples : List Sample) (bytes : List ℕ) :
    (samplesToInt16 samples bytes).length = 2 * samples.length ∧
    ∀ i : ℕ, i < samples.length →
      ∃ lo hi8 : ℕ,
        (samplesToInt16 samples bytes)[2 * i]? = some lo ∧
        (samplesToInt16 samples bytes)[2 * i + 1]? = some hi8 ∧
        -32767 ≤ decodeS16LE lo hi8 ∧ decodeS16LE lo hi8 ≤ 32767 ∧
        decodeS16LE lo hi8 ≠ -32768 := by
  rw [samplesToInt16_eq]
  refine ⟨length_flatMap_encodeSample samples, ?_⟩
  intro i hi
  obtain ⟨e1, e2⟩ := getElem?_flatMap_encodeSample samples i hi
  obtain ⟨b1, b2⟩ := sampleToLong_bounds samples[i]
  refine ⟨_, _, e1, e2, ?_⟩
  rw [decode_bytes _ (by omega) b2]
  exact ⟨b1, b2, by omega⟩

/-- Witness of C2 on the two-sample sequence `[5, -7]`, both outside `[-1, 1]`. -/
theorem C2_pairs_within_clamped_range_witness :
    ∃ lo hi8 : ℕ,
      (samplesToInt16 [(5 : Sample), -7] [])[2 * 1]? = some lo ∧
      (samplesToInt16 [(5 : Sample), -7] [])[2 * 1 + 1]? = some hi8 ∧
      -32767 ≤ decodeS16LE lo hi8 ∧ decodeS16LE lo hi8 ≤ 32767 ∧
      decodeS16LE lo hi8 ≠ -32768 :=
  (C2_pairs_within_clamped_range [(5 : Sample), -7] []).2 1 (by decide)

/-- C3 (amended). `AudioOutput::samplesToInt16` leaves exactly `2 * n` bytes in
the byte vector, and bytes `2 * i` and `2 * i + 1` are the low and the high
eight bits of the 16-bit two's-complement representation of
`v = lrint (fl (32767 * clamp (samples[i], -1, 1)))`, where `fl` rounds the
product to `float` and `lrint` rounds to the nearest integer, ties to even.
This `v` differs by at most 1 from the nearest integer of the exact product
`32767 * clamp (samples[i], -1, 1)`. -/
theorem C3_bytes_of_rounded_clamped_sample (samples : List Sample) (bytes : List ℕ) :
    (samplesToInt16 samples bytes).length = 2 * samples.length ∧
    ∀ (i : ℕ) (hi : i < samples.length),
      (samplesToInt16 samples bytes)[2 * i]?
        = some (twosComplement16 (lrint (f32Mul (max (-1) (min 1 samples[i])) 32767)) % 256) ∧
      (samplesToInt16 samples bytes)[2 * i + 1]?
        = some (twosComplement16 (lrint (f32Mul (max (-1) (min 1 samples[i])) 32767)) / 256) ∧
      twosComplement16 (lrint (f32Mul (max (-1) (min 1 samples[i])) 32767)) < 65536 ∧
      |lrint (f32Mul (max (-1) (min 1 samples[i])) 32767) -
        lrint ((32767 : Sample) * max (-1) (min 1 samples[i]))| ≤ 1 := by
  rw [samplesToInt16_eq]
  refine ⟨length_flatMap_encodeSample samples, ?_⟩
  intro i hi
  obtain ⟨e1, e2⟩ := getElem?_flatMap_encodeSample samples i hi
  obtain ⟨t1, t2⟩ := bytes_twosComplement (sampleToLong samples[i])
  rw [t1] at e1
  rw [t2] at e2
  have hv : sampleToLong samples[i] = lrint (f32Mul (max (-1) (min 1 samples[i])) 32767) := by
    unfold sampleToLong
    simp only [clamp_eq_max_min]
  have herr := abs_le.mp (sampleToLong_error samples[i])
  rw [hv, clamp_eq_max_min] at herr
  rw [hv] at e1 e2
  refine ⟨e1, e2, twosComplement16_lt _, ?_⟩
  have hex := abs_le.mp (lrint_sub_le ((32767 : Sample) * max (-1) (min 1 samples[i])))
  have h1 : ((lrint (f32Mul (max (-1) (min 1 samples[i])) 32767) : ℤ) : ℚ) -
      (lrint ((32767 : Sample) * max (-1) (min 1 samples[i])) : ℤ) < 2 := by linarith [herr.2, hex.1]
  have h2 : (-2 : ℚ) < ((lrint (f32Mul (max (-1) (min 1 samples[i])) 32767) : ℤ) : ℚ) -
      (lrint ((32767 : Sample) * max (-1) (min 1 samples[i])) : ℤ) := by linarith [herr.1, hex.2]
  have h3 : lrint (f32Mul (max (-1) (min 1 samples[i])) 32767) -
      lrint ((32767 : Sample) * max (-1) (min 1 samples[i])) < 2 := by exact_mod_cast h1
  have h4 : -2 < lrint (f32Mul (max (-1) (min 1 samples[i])) 32767) -
      lrint ((32767 : Sample) * max (-1) (min 1 samples[i])) := by exact_mod_cast h2
  rw [abs_le]
  constructor <;> omega

/-- Witness of C3 on the sequence `[1/3, 2]` with a byte vector that held other data. -/
theorem C3_bytes_of_rounded_clamped_sample_witness :
    (samplesToInt16 [(1 / 3 : Sample), 2] [9, 9, 9, 9, 9])[2 * 1]?
        = some (twosComplement16
            (lrint (f32Mul (max (-1) (min 1 [(1 / 3 : Sample), 2][1])) 32767)) % 256) ∧
    (samplesToInt16 [(1 / 3 : Sample), 2] [9, 9, 9, 9, 9])[2 * 1 + 1]?
        = some (twosComplement16
            (lrint (f32Mul (max (-1) (min 1 [(1 / 3 : Sample), 2][1])) 32767)) / 256) ∧
    twosComplement16 (lrint (f32Mul (max (-1) (min 1 [(1 / 3 : Sample), 2][1])) 32767)) < 65536 :=
  ⟨((C3_bytes_of_rounded_clamped_sample [(1 / 3 : Sample), 2] [9, 9, 9, 9, 9]).2 1
      (by decide)).1,
    ((C3_bytes_of_rounded_clamped_sample [(1 / 3 : Sample), 2] [9, 9, 9, 9, 9]).2 1
      (by decide)).2.1,
    ((C3_bytes_of_rounded_clamped_sample [(1 / 3 : Sample), 2] [9, 9, 9, 9, 9]).2 1
      (by decide)).2.2.1⟩

/-! ## Lemmas on the WAVE header -/

/-- Closed form of the 44 bytes of the header. -/
theorem wavHeader_eq (c r n : ℕ) :
    wavHeader c r n =
      [82, 73, 70, 70] ++ le4 (u32 (36 + u32 (n * 2)) % 2 ^ 32)
      ++ [87, 65, 86, 69, 102, 109, 116, 32]
      ++ [16, 0, 0, 0, 1, 0] ++ [c % 2 ^ 16 % 256, c % 2 ^ 16 / 256 % 256] ++ le4 (r % 2 ^ 32)
      ++ le4 (u32 (u32 (r * c) * 2) % 2 ^ 32)
      ++ [u32 (c * 2) % 2 ^ 16 % 256, u32 (c * 2) % 2 ^ 16 / 256 % 256] ++ [16, 0]
      ++ [100, 97, 116, 97] ++ le4 (u32 (n * 2) % 2 ^ 32) := by
  simp [wavHeader, encode_chunk_id, set_value, setValueLoop, le4, List.range, List.range.loop,
    List.replicate]

theorem length_wavHeader (c r n : ℕ) : (wavHeader c r n).length = 44 := by
  rw [wavHeader_eq]; simp [le4]

theorem decodeLE_le4 (v : ℕ) (h : v < 2 ^ 32) : decodeLE (le4 v) = v := by
  simp only [le4, decodeLE]
  omega

theorem decodeLE_pair (v : ℕ) (h : v < 2 ^ 16) : decodeLE [v % 256, v / 256 % 256] = v := by
  simp only [decodeLE]
  omega

theorem fwrite_full (f : Stream) (buf : List ℕ) (k : ℕ) (h : buf.length ≤ k) :
    fwrite f buf k =
      ({ content := f.content.take f.pos ++ buf ++ f.content.drop (f.pos + buf.length),
         pos := f.pos + buf.length }, buf.length) := by
  unfold fwrite
  simp only [List.take_of_length_le h]

theorem length_samplesToInt16 (samples : List Sample) (bytes : List ℕ) :
    (samplesToInt16 samples bytes).length = 2 * samples.length := by
  rw [samplesToInt16_eq, length_flatMap_encodeSample]

/-- State of a writer after a successful open and a complete first header. -/
theorem create_opened (filename errstr : String) (rate : ℕ) (stereo : Bool) :
    WavAudioOutput.create filename rate stereo true errstr 44 =
      { m_error := "", m_zombie := false,
        numberOfChannels := if stereo then 2 else 1,
        sampleRate := rate,
        m_stream := some { content := wavHeader (if stereo then 2 else 1) rate 0x7fff0000,
                           pos := 44 },
        m_bytebuf := [] } := by
  have hl := length_wavHeader (if stereo then 2 else 1) rate 0x7fff0000
  simp [WavAudioOutput.create, WavAudioOutput.write_header, WavAudioOutput.headerBytes,
    fwrite_full, hl]

/-- A `write` call on a healthy writer whose `fwrite` gets all bytes out returns
true and appends at the file position. -/
theorem write_full (o : WavAudioOutput) (f : Stream) (samples : List Sample) (errstr : String)
    (hz : o.m_zombie = false) (hs : o.m_stream = some f) :
    o.write samples (2 * samples.length) errstr =
      (true, { o with
        m_bytebuf := samplesToInt16 samples o.m_bytebuf,
        m_stream := some
          { content := f.content.take f.pos ++ samplesToInt16 samples o.m_bytebuf
              ++ f.content.drop (f.pos + 2 * samples.length),
            pos := f.pos + 2 * samples.length } }) := by
  have hl := length_samplesToInt16 samples o.m_bytebuf
  unfold WavAudioOutput.write
  rw [hz, hs]
  simp only [Bool.false_eq_true, if_false]
  rw [fwrite_full _ _ _ (by omega)]
  simp [hl]

/-- After a run of complete writes the writer is healthy, its channel count and
sample rate are unchanged, every call returned true and the file position has
advanced by two bytes per sample; the first 44 bytes of the file are untouched
when the run starts at or after offset 44. -/
theorem writeBlocks_state (blocks : List (List Sample)) (errstr : String) :
    ∀ (o : WavAudioOutput) (f : Stream), o.m_zombie = false → o.m_stream = some f →
      (o.writeBlocks blocks errstr).1 = true ∧
      (o.writeBlocks blocks errstr).2.m_zombie = false ∧
      (o.writeBlocks blocks errstr).2.numberOfChannels = o.numberOfChannels ∧
      (o.writeBlocks blocks errstr).2.sampleRate = o.sampleRate ∧
      (o.writeBlocks blocks errstr).2.m_error = o.m_error ∧
      ∃ g : Stream, (o.writeBlocks blocks errstr).2.m_stream = some g ∧
        g.pos = f.pos + 2 * (blocks.map List.length).sum := by
  induction blocks with
  | nil =>
    intro o f hz hs
    exact ⟨rfl, hz, rfl, rfl, rfl, f, hs, by simp⟩
  | cons b rest ih =>
    intro o f hz hs
    have hw := write_full o f b errstr hz hs
    have hstep : o.writeBlocks (b :: rest) errstr
        = (o.write b (2 * b.length) errstr).2.writeBlocks rest errstr := by
      unfold WavAudioOutput.writeBlocks
      rw [List.foldl_cons, hw]
      simp
    rw [hstep]
    obtain ⟨h1, h2, h3, h4, h5, g, h6, h7⟩ :=
      ih (o.write b (2 * b.length) errstr).2
        { content := f.content.take f.pos ++ samplesToInt16 b o.m_bytebuf
            ++ f.content.drop (f.pos + 2 * b.length),
          pos := f.pos + 2 * b.length }
        (by rw [hw]; exact hz) (by rw [hw])
    refine ⟨h1, h2, ?_, ?_, ?_, g, h6, ?_⟩
    · rw [h3, hw]
    · rw [h4, hw]
    · rw [h5, hw]
    · rw [h7]
      simp only [List.map_cons, List.sum_cons]
      ring


theorem toUnsigned_half (t : ℕ) :
    toUnsigned (Int.tdiv (((44 + 2 * t : ℕ) : ℤ) - 44) 2) = t % 2 ^ 32 := by
  have e : (((44 + 2 * t : ℕ) : ℤ) - 44) = ((2 * t : ℕ) : ℤ) := by push_cast; ring
  rw [e, Int.tdiv_eq_ediv (by positivity) (by norm_num)]
  unfold toUnsigned
  omega

/-- The destructor of a healthy writer at file position `44 + 2 * t`, with a
successful seek and a complete header write, replaces the first 44 bytes of
the file by the header for `t` samples (taken as an `unsigned`). -/
theorem destroy_fileBytes (o : WavAudioOutput) (g : Stream) (t : ℕ)
    (hz : o.m_zombie = false) (hs : o.m_stream = some g) (hp : g.pos = 44 + 2 * t) :
    (o.destroy true 44).fileBytes
      = wavHeader o.numberOfChannels o.sampleRate (t % 2 ^ 32) ++ g.content.drop 44 := by
  have hl := length_wavHeader o.numberOfChannels o.sampleRate (t % 2 ^ 32)
  unfold WavAudioOutput.destroy
  rw [hz, hs]
  simp only [Bool.not_false, if_true, ftell, hp, toUnsigned_half]
  unfold WavAudioOutput.write_header WavAudioOutput.headerBytes
  simp only
  rw [fwrite_full _ _ _ (by omega)]
  simp only [WavAudioOutput.fileBytes, hl, List.take_zero, List.nil_append, Nat.zero_add]

/-- Fields of a header followed by any data. -/
theorem wavHeader_fields (c r n : ℕ) (rest : List ℕ) :
    field (wavHeader c r n ++ rest) 0 4 = [82, 73, 70, 70] ∧
    decodeLE (field (wavHeader c r n ++ rest) 4 4) = (36 + n * 2) % 2 ^ 32 ∧
    field (wavHeader c r n ++ rest) 8 4 = [87, 65, 86, 69] ∧
    field (wavHeader c r n ++ rest) 12 4 = [102, 109, 116, 32] ∧
    decodeLE (field (wavHeader c r n ++ rest) 16 4) = 16 ∧
    decodeLE (field (wavHeader c r n ++ rest) 20 2) = 1 ∧
    decodeLE (field (wavHeader c r n ++ rest) 22 2) = c % 2 ^ 16 ∧
    decodeLE (field (wavHeader c r n ++ rest) 24 4) = r % 2 ^ 32 ∧
    decodeLE (field (wavHeader c r n ++ rest) 28 4) = (r * c * 2) % 2 ^ 32 ∧
    decodeLE (field (wavHeader c r n ++ rest) 32 2) = (c * 2) % 2 ^ 16 ∧
    decodeLE (field (wavHeader c r n ++ rest) 34 2) = 16 ∧
    field (wavHeader c r n ++ rest) 36 4 = [100, 97, 116, 97] ∧
    decodeLE (field (wavHeader c r n ++ rest) 40 4) = (n * 2) % 2 ^ 32 := by
  rw [wavHeader_eq]
  refine ⟨by simp [field, le4], ?_, by simp [field, le4], by simp [field, le4],
    by simp [field, le4, decodeLE], by simp [field, le4, decodeLE], ?_, ?_, ?_, ?_,
    by simp [field, le4, decodeLE], by simp [field, le4], ?_⟩
  all_goals
    simp [field, le4]
    simp only [decodeLE, u32]
    omega


theorem length_setValueLoop (n : ℕ) (buf : List ℕ) (ptr value : ℕ) :
    (setValueLoop n buf ptr value).length = buf.length := by
  induction n generalizing buf ptr value with
  | zero => rfl
  | succ n ih => simp [setValueLoop, ih]

theorem getElem?_setValueLoop_lt (n : ℕ) (buf : List ℕ) (ptr value i : ℕ) (h : i < ptr) :
    (setValueLoop n buf ptr value)[i]? = buf[i]? := by
  induction n generalizing buf ptr value with
  | zero => rfl
  | succ n ih =>
    simp only [setValueLoop]
    rw [ih _ _ _ (by omega), List.getElem?_set]
    have : ptr ≠ i := by omega
    simp [this]

theorem field_succ (buf : List ℕ) (p n : ℕ) (x : ℕ) (h : buf[p]? = some x) :
    field buf p (n + 1) = x :: field buf (p + 1) n := by
  obtain ⟨hlt, hx⟩ := List.getElem?_eq_some_iff.mp h
  unfold field
  rw [List.drop_eq_getElem_cons hlt, List.take_succ_cons, hx]

/-- The bytes stored by the loop of `set_value` at `ptr ..< ptr + n` decode
little-endian to the low `n` bytes of the value. -/
theorem decodeLE_setValueLoop (n : ℕ) (buf : List ℕ) (ptr value : ℕ)
    (h : ptr + n ≤ buf.length) :
    decodeLE (field (setValueLoop n buf ptr value) ptr n) = value % 2 ^ (8 * n) := by
  induction n generalizing buf ptr value with
  | zero => simp [field, decodeLE, Nat.mod_one]
  | succ n ih =>
    have hx : (setValueLoop (n + 1) buf ptr value)[ptr]? = some (value % 256) := by
      simp only [setValueLoop]
      rw [getElem?_setValueLoop_lt _ _ _ _ _ (by omega), List.getElem?_set]
      simp; omega
    rw [field_succ _ _ _ _ hx]
    simp only [decodeLE, setValueLoop]
    rw [ih _ _ _ (by simp only [List.length_set]; omega)]
    have e : 2 ^ (8 * (n + 1)) = 256 * 2 ^ (8 * n) := by
      rw [Nat.mul_add, pow_add]; norm_num; ring
    rw [e, Nat.mod_mul]

theorem decodeLE_set_value (size : ℕ) (buf : List ℕ) (ptr value : ℕ)
    (h : ptr + size ≤ buf.length) :
    decodeLE (field (set_value size buf ptr value) ptr size) = value % 2 ^ (8 * size) := by
  unfold set_value
  rw [decodeLE_setValueLoop _ _ _ _ h, Nat.mod_mod]

/-- Size fields of the file after open, complete writes and close, as numbers
modulo `2 ^ 32`; every write of the run returns true. -/
theorem wav_close_fields (filename errstr : String) (rate : ℕ) (stereo : Bool)
    (blocks : List (List Sample)) :
    ((WavAudioOutput.create filename rate stereo true errstr 44).writeBlocks blocks errstr).1
      = true ∧
    decodeLE (field
      ((((WavAudioOutput.create filename rate stereo true errstr 44).writeBlocks
        blocks errstr).2.destroy true 44).fileBytes) 4 4)
      = (36 + 2 * (blocks.map List.length).sum) % 2 ^ 32 ∧
    decodeLE (field
      ((((WavAudioOutput.create filename rate stereo true errstr 44).writeBlocks
        blocks errstr).2.destroy true 44).fileBytes) 40 4)
      = (2 * (blocks.map List.length).sum) % 2 ^ 32 := by
  have hc := create_opened filename errstr rate stereo
  obtain ⟨h1, h2, -, -, -, g, h6, h7⟩ :=
    writeBlocks_state blocks errstr (WavAudioOutput.create filename rate stereo true errstr 44)
      { content := wavHeader (if stereo then 2 else 1) rate 0x7fff0000, pos := 44 }
      (by rw [hc]) (by rw [hc])
  have hd := destroy_fileBytes _ g (blocks.map List.length).sum h2 h6 h7
  rw [hd]
  obtain ⟨-, f1, -, -, -, -, -, -, -, -, -, -, f2⟩ := wavHeader_fields
    ((WavAudioOutput.create filename rate stereo true errstr 44).writeBlocks
      blocks errstr).2.numberOfChannels
    ((WavAudioOutput.create filename rate stereo true errstr 44).writeBlocks
      blocks errstr).2.sampleRate ((blocks.map List.length).sum % 2 ^ 32) (g.content.drop 44)
  refine ⟨h1, ?_, ?_⟩
  · rw [f1]; omega
  · rw [f2]; omega


theorem create_channels (filename errstr : String) (rate : ℕ) (stereo opened : Bool) (k : ℕ) :
    (WavAudioOutput.create filename rate stereo opened errstr k).numberOfChannels
      = (if stereo then 2 else 1) ∧
    (WavAudioOutput.create filename rate stereo opened errstr k).sampleRate = rate := by
  cases opened <;>
    simp only [WavAudioOutput.create, WavAudioOutput.write_header] <;>
    split_ifs <;> simp

/-! ## Claims on `WavAudioOutput` -/

/-- C4 (amended): after a successful open, successful writes of `N` frames
of `C` channels (`N * C` samples) and a close with a successful seek and
header write, the RIFF size field (bytes 4..7) holds `36 + 2 * N * C` and the
data size field (bytes 40..43) holds `2 * N * C`, both modulo `2 ^ 32`; they
are exactly `36 + 2 * N * C` and `2 * N * C` whenever `36 + 2 * N * C < 2 ^ 32`. -/
theorem C4_close_rewrites_size_fields (filename errstr : String) (rate : ℕ) (stereo : Bool)
    (blocks : List (List Sample)) (N : ℕ)
    (hN : (blocks.map List.length).sum = N * (if stereo then 2 else 1)) :
    ((WavAudioOutput.create filename rate stereo true errstr 44).writeBlocks blocks errstr).1
      = true ∧
    decodeLE (field
      ((((WavAudioOutput.create filename rate stereo true errstr 44).writeBlocks
        blocks errstr).2.destroy true 44).fileBytes) 4 4)
      = (36 + 2 * N * (if stereo then 2 else 1)) % 2 ^ 32 ∧
    decodeLE (field
      ((((WavAudioOutput.create filename rate stereo true errstr 44).writeBlocks
        blocks errstr).2.destroy true 44).fileBytes) 40 4)
      = (2 * N * (if stereo then 2 else 1)) % 2 ^ 32 ∧
    (36 + 2 * N * (if stereo then 2 else 1) < 2 ^ 32 →
      decodeLE (field
        ((((WavAudioOutput.create filename rate stereo true errstr 44).writeBlocks
          blocks errstr).2.destroy true 44).fileBytes) 4 4)
        = 36 + 2 * N * (if stereo then 2 else 1) ∧
      decodeLE (field
        ((((WavAudioOutput.create filename rate stereo true errstr 44).writeBlocks
          blocks errstr).2.destroy true 44).fileBytes) 40 4)
        = 2 * N * (if stereo then 2 else 1)) := by
  obtain ⟨h1, h2, h3⟩ := wav_close_fields filename errstr rate stereo blocks
  rw [hN] at h2 h3
  have e : 2 * (N * (if stereo then 2 else 1)) = 2 * N * (if stereo then 2 else 1) := by ring
  rw [e] at h2 h3
  refine ⟨h1, h2, h3, ?_⟩
  intro hfit
  rw [h2, h3]
  constructor
  · exact Nat.mod_eq_of_lt hfit
  · exact Nat.mod_eq_of_lt (by omega)

/-- Witness of C4: three mono frames written in two blocks. -/
theorem C4_close_rewrites_size_fields_witness :
    ((List.map List.length [[(0 : Sample), 1 / 2], [1]]).sum = 3 * (if false then 2 else 1)) ∧
    36 + 2 * 3 * (if false then 2 else 1) < 2 ^ 32 ∧
    decodeLE (field
      ((((WavAudioOutput.create "out.wav" 48000 false true "" 44).writeBlocks
        [[(0 : Sample), 1 / 2], [1]] "").2.destroy true 44).fileBytes) 4 4)
      = 36 + 2 * 3 * (if false then 2 else 1) ∧
    decodeLE (field
      ((((WavAudioOutput.create "out.wav" 48000 false true "" 44).writeBlocks
        [[(0 : Sample), 1 / 2], [1]] "").2.destroy true 44).fileBytes) 40 4)
      = 2 * 3 * (if false then 2 else 1) :=
  ⟨by decide, by decide,
    (C4_close_rewrites_size_fields "out.wav" "" 48000 false [[(0 : Sample), 1 / 2], [1]] 3
      (by decide)).2.2.2 (by decide)⟩

/-- Counterexample to C4 as stated: after `2 ^ 31` mono frames, all written
successfully, the closed file has RIFF size field 36 and data size field 0,
not `36 + 2 ^ 32` and `2 ^ 32`. -/
theorem C4_counterexample :
    ((WavAudioOutput.create "out.wav" 48000 false true "" 44).writeBlocks
      [List.replicate 2147483648 (0 : Sample)] "").1 = true ∧
    (List.map List.length [List.replicate 2147483648 (0 : Sample)]).sum = 2147483648 * 1 ∧
    decodeLE (field
      ((((WavAudioOutput.create "out.wav" 48000 false true "" 44).writeBlocks
        [List.replicate 2147483648 (0 : Sample)] "").2.destroy true 44).fileBytes) 4 4) = 36 ∧
    decodeLE (field
      ((((WavAudioOutput.create "out.wav" 48000 false true "" 44).writeBlocks
        [List.replicate 2147483648 (0 : Sample)] "").2.destroy true 44).fileBytes) 40 4) = 0 ∧
    ¬ (decodeLE (field
      ((((WavAudioOutput.create "out.wav" 48000 false true "" 44).writeBlocks
        [List.replicate 2147483648 (0 : Sample)] "").2.destroy true 44).fileBytes) 4 4)
        = 36 + 2 * 2147483648 * 1 ∧
      decodeLE (field
      ((((WavAudioOutput.create "out.wav" 48000 false true "" 44).writeBlocks
        [List.replicate 2147483648 (0 : Sample)] "").2.destroy true 44).fileBytes) 40 4)
        = 2 * 2147483648 * 1) := by
  obtain ⟨h1, h2, h3⟩ :=
    wav_close_fields "out.wav" "" 48000 false [List.replicate 2147483648 (0 : Sample)]
  have hs : (List.map List.length [List.replicate 2147483648 (0 : Sample)]).sum
      = 2147483648 * 1 := by
    rw [List.map_cons, List.map_nil, List.sum_cons, List.sum_nil, List.length_replicate]
    norm_num
  rw [hs] at h2 h3
  have e2 : (36 + 2 * (2147483648 * 1)) % 2 ^ 32 = 36 := by norm_num
  have e3 : (2 * (2147483648 * 1)) % 2 ^ 32 = 0 := by norm_num
  rw [e2] at h2
  rw [e3] at h3
  refine ⟨h1, hs, h2, h3, ?_⟩
  rw [h2, h3]
  norm_num

/-- C5 (amended): for every sample rate (an `unsigned`, so below `2 ^ 32`) and
stereo flag, the header that `write_header` hands to `fwrite` is 44 bytes
long with RIFF at 0..3, WAVE at 8..11, fmt and a blank at 12..15, 16 at 16..19,
format tag 1 at 20..21, the channel count (2 if stereo, else 1) at 22..23, the
sample rate at 24..27, the byte rate `rate * channels * 2` modulo `2 ^ 32` at
28..31 (the exact product whenever it is below `2 ^ 32`), block align
`channels * 2` at 32..33, 16 bits per sample at 34..35 and data at 36..39. -/
theorem C5_header_layout (filename errstr : String) (samplerate : ℕ) (stereo opened : Bool)
    (k nsamples : ℕ) (hrate : samplerate < 2 ^ 32) :
    ((WavAudioOutput.create filename samplerate stereo opened errstr k).headerBytes
      nsamples).length = 44 ∧
    field ((WavAudioOutput.create filename samplerate stereo opened errstr k).headerBytes
      nsamples) 0 4 = ['R', 'I', 'F', 'F'].map Char.toNat ∧
    field ((WavAudioOutput.create filename samplerate stereo opened errstr k).headerBytes
      nsamples) 8 4 = ['W', 'A', 'V', 'E'].map Char.toNat ∧
    field ((WavAudioOutput.create filename samplerate stereo opened errstr k).headerBytes
      nsamples) 12 4 = ['f', 'm', 't', ' '].map Char.toNat ∧
    decodeLE (field ((WavAudioOutput.create filename samplerate stereo opened errstr
      k).headerBytes nsamples) 16 4) = 16 ∧
    decodeLE (field ((WavAudioOutput.create filename samplerate stereo opened errstr
      k).headerBytes nsamples) 20 2) = 1 ∧
    decodeLE (field ((WavAudioOutput.create filename samplerate stereo opened errstr
      k).headerBytes nsamples) 22 2) = (if stereo then 2 else 1) ∧
    decodeLE (field ((WavAudioOutput.create filename samplerate stereo opened errstr
      k).headerBytes nsamples) 24 4) = samplerate ∧
    decodeLE (field ((WavAudioOutput.create filename samplerate stereo opened errstr
      k).headerBytes nsamples) 28 4) = (samplerate * (if stereo then 2 else 1) * 2) % 2 ^ 32 ∧
    (samplerate * (if stereo then 2 else 1) * 2 < 2 ^ 32 →
      decodeLE (field ((WavAudioOutput.create filename samplerate stereo opened errstr
        k).headerBytes nsamples) 28 4) = samplerate * (if stereo then 2 else 1) * 2) ∧
    decodeLE (field ((WavAudioOutput.create filename samplerate stereo opened errstr
      k).headerBytes nsamples) 32 2) = (if stereo then 2 else 1) * 2 ∧
    decodeLE (field ((WavAudioOutput.create filename samplerate stereo opened errstr
      k).headerBytes nsamples) 34 2) = 16 ∧
    field ((WavAudioOutput.create filename samplerate stereo opened errstr k).headerBytes
      nsamples) 36 4 = ['d', 'a', 't', 'a'].map Char.toNat := by
  obtain ⟨hc, hr⟩ := create_channels filename errstr samplerate stereo opened k
  unfold WavAudioOutput.headerBytes
  rw [hc, hr]
  obtain ⟨f0, -, f8, f12, f16, f20, f22, f24, f28, f32, f34, f36, -⟩ :=
    wavHeader_fields (if stereo then 2 else 1) samplerate nsamples []
  rw [List.append_nil] at f0 f8 f12 f16 f20 f22 f24 f28 f32 f34 f36
  have hch : (if stereo then 2 else 1 : ℕ) = 1 ∨ (if stereo then 2 else 1 : ℕ) = 2 := by
    cases stereo <;> simp
  refine ⟨length_wavHeader _ _ _, by rw [f0]; rfl, by rw [f8]; rfl, by rw [f12]; rfl, f16, f20,
    ?_, ?_, f28, ?_, ?_, f34, by rw [f36]; rfl⟩
  · rw [f22]; rcases hch with h | h <;> rw [h] <;> norm_num
  · rw [f24]; exact Nat.mod_eq_of_lt hrate
  · intro hfit; rw [f28]; exact Nat.mod_eq_of_lt hfit
  · rw [f32]; rcases hch with h | h <;> rw [h] <;> norm_num

/-- Witness of C5: 48000 Hz stereo, where the byte rate 192000 fits. -/
theorem C5_header_layout_witness :
    (48000 < 2 ^ 32) ∧ (48000 * (if true then 2 else 1) * 2 < 2 ^ 32) ∧
    decodeLE (field ((WavAudioOutput.create "out.wav" 48000 true true "" 44).headerBytes
        0x7fff0000) 28 4) = 48000 * (if true then 2 else 1) * 2 :=
  ⟨by decide, by decide,
    (C5_header_layout "out.wav" "" 48000 true true 44 0x7fff0000 (by decide)).2.2.2.2.2.2.2.2.2.1
      (by decide)⟩

/-- Counterexample to C5 as stated: at sample rate `2 ^ 30` in stereo the byte
rate field at 28..31 holds 0, not `rate * channels * 2 = 2 ^ 32`. -/
theorem C5_counterexample :
    decodeLE (field ((WavAudioOutput.create "out.wav" 1073741824 true true "" 44).headerBytes
      0x7fff0000) 28 4) = 0 ∧
    decodeLE (field ((WavAudioOutput.create "out.wav" 1073741824 true true "" 44).headerBytes
      0x7fff0000) 28 4) ≠ 1073741824 * 2 * 2 := by
  obtain ⟨hc, hr⟩ := create_channels "out.wav" "" 1073741824 true true 44
  have f28 := (wavHeader_fields 2 1073741824 0x7fff0000 []).2.2.2.2.2.2.2.2.1
  rw [List.append_nil] at f28
  unfold WavAudioOutput.headerBytes
  rw [hc, hr]
  simp only [if_true]
  rw [f28]
  norm_num

/-- C6 (amended): for every sample count passed to `write_header`, the data
size field at bytes 40..43 holds `nsamples * 2` modulo `2 ^ 32` and the RIFF
size field at bytes 4..7 holds 36 plus the data size field, modulo `2 ^ 32`;
when `36 + nsamples * 2 < 2 ^ 32` they are exactly `nsamples * 2` and 36 plus
that. Every field stored by `set_value<T>` decodes little-endian to the
value of type `T` that was passed. -/
theorem C6_size_fields_little_endian (o : WavAudioOutput) (nsamples : ℕ) :
    decodeLE (field (o.headerBytes nsamples) 40 4) = (nsamples * 2) % 2 ^ 32 ∧
    decodeLE (field (o.headerBytes nsamples) 4 4)
      = (36 + decodeLE (field (o.headerBytes nsamples) 40 4)) % 2 ^ 32 ∧
    (36 + nsamples * 2 < 2 ^ 32 →
      decodeLE (field (o.headerBytes nsamples) 40 4) = nsamples * 2 ∧
      decodeLE (field (o.headerBytes nsamples) 4 4)
        = 36 + decodeLE (field (o.headerBytes nsamples) 40 4)) ∧
    (∀ (size : ℕ) (buf : List ℕ) (ptr value : ℕ),
      ptr + size ≤ buf.length → value < 2 ^ (8 * size) →
      decodeLE (field (set_value size buf ptr value) ptr size) = value) := by
  obtain ⟨-, f4, -, -, -, -, -, -, -, -, -, -, f40⟩ :=
    wavHeader_fields o.numberOfChannels o.sampleRate nsamples []
  rw [List.append_nil] at f4 f40
  unfold WavAudioOutput.headerBytes
  rw [f4, f40]
  refine ⟨rfl, by omega, ?_, ?_⟩
  · intro hfit
    constructor
    · exact Nat.mod_eq_of_lt (by omega)
    · rw [Nat.mod_eq_of_lt hfit, Nat.mod_eq_of_lt (by omega)]
  · intro size buf ptr value hb hv
    rw [decodeLE_set_value _ _ _ _ hb, Nat.mod_eq_of_lt hv]

/-- Witness of C6: the dummy sample count `0x7fff0000` of the constructor, and
the RIFF size it stores with `set_value<uint32_t>` at offset 4. -/
theorem C6_size_fields_little_endian_witness :
    (36 + 0x7fff0000 * 2 < 2 ^ 32 ∧ 4 + 4 ≤ (List.replicate 44 0).length ∧
      0xfffe0024 < 2 ^ (8 * 4)) ∧
    (decodeLE (field ((WavAudioOutput.create "out.wav" 48000 true true "" 44).headerBytes
        0x7fff0000) 40 4) = 0x7fff0000 * 2 ∧
      decodeLE (field ((WavAudioOutput.create "out.wav" 48000 true true "" 44).headerBytes
        0x7fff0000) 4 4)
        = 36 + decodeLE (field ((WavAudioOutput.create "out.wav" 48000 true true ""
            44).headerBytes 0x7fff0000) 40 4)) ∧
    decodeLE (field (set_value 4 (List.replicate 44 0) 4 0xfffe0024) 4 4) = 0xfffe0024 :=
  ⟨⟨by decide, by decide, by decide⟩,
    (C6_size_fields_little_endian (WavAudioOutput.create "out.wav" 48000 true true "" 44)
      0x7fff0000).2.2.1 (by decide),
    (C6_size_fields_little_endian (WavAudioOutput.create "out.wav" 48000 true true "" 44)
      0x7fff0000).2.2.2 4 (List.replicate 44 0) 4 0xfffe0024 (by decide) (by decide)⟩

/-- Counterexample to C6 as stated: for the sample count `2 ^ 31` the data
size field holds 0, not `nsamples * 2 = 2 ^ 32`. -/
theorem C6_counterexample :
    decodeLE (field ((WavAudioOutput.create "out.wav" 48000 false true "" 44).headerBytes
      2147483648) 40 4) = 0 ∧
    decodeLE (field ((WavAudioOutput.create "out.wav" 48000 false true "" 44).headerBytes
      2147483648) 40 4) ≠ 2147483648 * 2 := by
  have f40 := (wavHeader_fields
    (WavAudioOutput.create "out.wav" 48000 false true "" 44).numberOfChannels
    (WavAudioOutput.create "out.wav" 48000 false true "" 44).sampleRate
    2147483648 []).2.2.2.2.2.2.2.2.2.2.2.2
  rw [List.append_nil] at f40
  unfold WavAudioOutput.headerBytes
  rw [f40]
  norm_num


/-! ## Lemmas on `RtlSdrSource` -/

theorem snapBlockLength_eq (b : ℤ) :
    snapBlockLength b = min (max b 4096) 1048576 - min (max b 4096) 1048576 % 4096 := by
  unfold snapBlockLength
  simp only
  split_ifs with h1 h2
  · rw [Int.tmod_eq_emod (by norm_num) (by norm_num)]
    have : min (max b 4096) 1048576 = 4096 := by omega
    rw [this]
  · rw [Int.tmod_eq_emod (by norm_num) (by norm_num)]
    have : min (max b 4096) 1048576 = 1024 * 1024 := by omega
    rw [this]
  · rw [Int.tmod_eq_emod (by omega) (by norm_num)]
    have : min (max b 4096) 1048576 = b := by omega
    rw [this]

theorem snapBlockLength_valid (b : ℤ) : validBlockLength (snapBlockLength b) := by
  rw [snapBlockLength_eq]
  unfold validBlockLength
  omega

/-- A `configure` call that gets to the block-length step stores the snapped block length. -/
theorem configure_reaches (st : RtlSdrSource) (env : ConfigureEnv) (sample_rate frequency : ℕ)
    (tuner_gain block_length : ℤ) (agcmode : Bool)
    (h : reachesBlockLengthStep st env tuner_gain) :
    (st.configure env sample_rate frequency tuner_gain block_length agcmode).2.m_block_length
      = snapBlockLength block_length := by
  obtain ⟨h1, h2, h3, h4, h5, h6⟩ := h
  have hg : gainStepError env tuner_gain = none := by
    unfold gainStepError
    split_ifs with a b c d <;> first | rfl | omega
  unfold RtlSdrSource.configure
  rw [h1, hg]
  simp only [Bool.not_true, Bool.false_eq_true, if_false, not_lt.mpr h2, not_lt.mpr h3,
    not_lt.mpr h6]
  split_ifs <;> rfl

/-- A `configure` call leaves the block length alone or stores the snapped one. -/
theorem configure_block_length (st : RtlSdrSource) (env : ConfigureEnv)
    (sample_rate frequency : ℕ) (tuner_gain block_length : ℤ) (agcmode : Bool) :
    (st.configure env sample_rate frequency tuner_gain block_length agcmode).2.m_block_length
      = st.m_block_length ∨
    (st.configure env sample_rate frequency tuner_gain block_length agcmode).2.m_block_length
      = snapBlockLength block_length := by
  unfold RtlSdrSource.configure
  cases gainStepError env tuner_gain with
  | some msg => simp only; split_ifs <;> (left; rfl)
  | none => simp only; split_ifs <;> first | (left; rfl) | (right; rfl)


/-- The `for` loop that stores `f i` at index `i` for `i < n` fills the first `n` cells. -/
theorem foldl_set_range {α : Type} (f : ℕ → α) (n : ℕ) (v : List α) (h : n ≤ v.length) :
    (List.range n).foldl (fun w i => w.set i (f i)) v = (List.range n).map f ++ v.drop n := by
  induction n with
  | zero => simp
  | succ n ih =>
    rw [List.range_succ, List.foldl_append, ih (by omega)]
    simp only [List.foldl_cons, List.foldl_nil, List.map_append, List.map_cons, List.map_nil]
    have hl : ((List.range n).map f).length = n := by simp
    rw [List.set_append_right _ _ (by omega), hl, Nat.sub_self,
      List.drop_eq_getElem_cons (by omega : n < v.length), List.set_cons_zero,
      List.append_assoc, List.singleton_append]

theorem iq_component_bounds (b : ℕ) (h : b < 256) :
    -1 ≤ (((b : ℤ) - 128 : ℤ) : ℚ) / 128 ∧ (((b : ℤ) - 128 : ℤ) : ℚ) / 128 ≤ 1 := by
  have h0 : (0 : ℚ) ≤ (b : ℚ) := Nat.cast_nonneg b
  have h1 : (b : ℚ) ≤ 255 := by exact_mod_cast Nat.le_of_lt_succ h
  push_cast
  constructor
  · rw [le_div_iff₀ (by norm_num)]; linarith
  · rw [div_le_iff₀ (by norm_num)]; linarith

/-! ## Claims on `RtlSdrSource` -/

/-- C7: a `configure` call that reaches the block-length step stores the
greatest multiple of 4096 that is at most `min (max block_length 4096) 1048576`;
the stored value is a multiple of 4096 in `[4096, 1048576]`. -/
theorem C7_block_length_snapped (st : RtlSdrSource) (env : ConfigureEnv)
    (sample_rate frequency : ℕ) (tuner_gain block_length : ℤ) (agcmode : Bool)
    (h : reachesBlockLengthStep st env tuner_gain) :
    4096 ∣ (st.configure env sample_rate frequency tuner_gain block_length
      agcmode).2.m_block_length ∧
    (st.configure env sample_rate frequency tuner_gain block_length agcmode).2.m_block_length
      ≤ min (max block_length 4096) 1048576 ∧
    (∀ m : ℤ, 4096 ∣ m → m ≤ min (max block_length 4096) 1048576 →
      m ≤ (st.configure env sample_rate frequency tuner_gain block_length
        agcmode).2.m_block_length) ∧
    4096 ≤ (st.configure env sample_rate frequency tuner_gain block_length
      agcmode).2.m_block_length ∧
    (st.configure env sample_rate frequency tuner_gain block_length agcmode).2.m_block_length
      ≤ 1048576 := by
  rw [configure_reaches st env sample_rate frequency tuner_gain block_length agcmode h,
    snapBlockLength_eq]
  refine ⟨by omega, by omega, ?_, by omega, by omega⟩
  intro m hm hle
  omega

/-- Witness of C7: a fresh synchronous source, every librtlsdr call returning 0,
automatic gain, requested block length 10000 (stored: 8192). -/
theorem C7_block_length_snapped_witness :
    reachesBlockLengthStep (RtlSdrSource.create false (some "rtl") 0 "")
      ⟨0, 0, 0, 0, 0, 0⟩ INT_MIN ∧
    4096 ∣ ((RtlSdrSource.create false (some "rtl") 0 "").configure ⟨0, 0, 0, 0, 0, 0⟩
      1200000 100300000 INT_MIN 10000 false).2.m_block_length ∧
    ((RtlSdrSource.create false (some "rtl") 0 "").configure ⟨0, 0, 0, 0, 0, 0⟩
      1200000 100300000 INT_MIN 10000 false).2.m_block_length
      ≤ min (max 10000 4096) 1048576 :=
  ⟨⟨rfl, by decide, by decide, by decide, fun _ => by decide, by decide⟩,
    (C7_block_length_snapped (RtlSdrSource.create false (some "rtl") 0 "") ⟨0, 0, 0, 0, 0, 0⟩
      1200000 100300000 INT_MIN 10000 false
      ⟨rfl, by decide, by decide, by decide, fun _ => by decide, by decide⟩).1,
    (C7_block_length_snapped (RtlSdrSource.create false (some "rtl") 0 "") ⟨0, 0, 0, 0, 0, 0⟩
      1200000 100300000 INT_MIN 10000 false
      ⟨rfl, by decide, by decide, by decide, fun _ => by decide, by decide⟩).2.1⟩

/-- C8 (amended): the block length of a source is a multiple of 4096 in
`[4096, 1048576]` after construction, and every `configure` call, whatever
block length is passed and however the call ends, keeps it so. -/
theorem C8_block_length_multiple_of_4096 :
    (∀ (async : Bool) (devname : Option String) (r : ℤ) (errstr : String),
      validBlockLength (RtlSdrSource.create async devname r errstr).m_block_length) ∧
    (∀ (st : RtlSdrSource) (env : ConfigureEnv) (sample_rate frequency : ℕ)
      (tuner_gain block_length : ℤ) (agcmode : Bool),
      validBlockLength st.m_block_length →
      validBlockLength (st.configure env sample_rate frequency tuner_gain block_length
        agcmode).2.m_block_length) := by
  constructor
  · intro async devname r errstr
    simp only [RtlSdrSource.create, default_block_length, validBlockLength]
    omega
  · intro st env sample_rate frequency tuner_gain block_length agcmode hv
    rcases configure_block_length st env sample_rate frequency tuner_gain block_length agcmode
      with h | h
    · rw [h]; exact hv
    · rw [h]; exact snapBlockLength_valid block_length

/-- Witness of C8 (amended): a `configure` call with block length 12288 on a fresh source. -/
theorem C8_block_length_multiple_of_4096_witness :
    validBlockLength (RtlSdrSource.create false (some "rtl") 0 "").m_block_length ∧
    validBlockLength ((RtlSdrSource.create false (some "rtl") 0 "").configure
      ⟨0, 0, 0, 0, 0, 0⟩ 1200000 100300000 INT_MIN 12288 false).2.m_block_length :=
  ⟨C8_block_length_multiple_of_4096.1 false (some "rtl") 0 "",
    C8_block_length_multiple_of_4096.2 (RtlSdrSource.create false (some "rtl") 0 "")
      ⟨0, 0, 0, 0, 0, 0⟩ 1200000 100300000 INT_MIN 12288 false
      (C8_block_length_multiple_of_4096.1 false (some "rtl") 0 "")⟩

/-- Counterexample to C8 as stated: a successful `configure` call with block
length 12288 stores 12288, which is not a power of two. -/
theorem C8_counterexample :
    ((RtlSdrSource.create false (some "rtl") 0 "").configure ⟨0, 0, 0, 0, 0, 0⟩
      1200000 100300000 INT_MIN 12288 false).1 = true ∧
    ((RtlSdrSource.create false (some "rtl") 0 "").configure ⟨0, 0, 0, 0, 0, 0⟩
      1200000 100300000 INT_MIN 12288 false).2.m_block_length = 12288 ∧
    ¬ ∃ k : ℕ, ((RtlSdrSource.create false (some "rtl") 0 "").configure ⟨0, 0, 0, 0, 0, 0⟩
      1200000 100300000 INT_MIN 12288 false).2.m_block_length = 2 ^ k := by
  have hb : ((RtlSdrSource.create false (some "rtl") 0 "").configure ⟨0, 0, 0, 0, 0, 0⟩
      1200000 100300000 INT_MIN 12288 false).2.m_block_length = 12288 := by decide
  refine ⟨by decide, hb, ?_⟩
  rw [hb]
  rintro ⟨k, hk⟩
  have hk2 : (2 : ℤ) ^ k = 12288 := hk.symm
  have hlt : k < 14 := by
    by_contra hge
    have h14 : (2 : ℤ) ^ 14 ≤ 2 ^ k := pow_le_pow_right₀ (by norm_num) (by omega)
    rw [hk2] at h14
    norm_num at h14
  interval_cases k <;> norm_num at hk2


/-- Result of a successful synchronous read: the flag is true, the state is
unchanged and the output holds one converted sample per byte pair. -/
theorem get_samples_ok (st : RtlSdrSource) (r : ℤ) (dat : List ℕ) (samples : List IQSample)
    (L : ℕ) (hdev : st.m_dev = true) (hsync : st.mAsync = false) (hr : 0 ≤ r)
    (hL : st.m_block_length = L) (hlen : dat.length = 2 * L) :
    st.get_samples r dat samples = (true, st, (List.range L).map (iqFromBytes dat)) := by
  unfold RtlSdrSource.get_samples
  have h1 : (2 * st.m_block_length).toNat - dat.length = 0 := by rw [hL, hlen]; omega
  have h2 : ((dat.length : ℕ) : ℤ) = 2 * st.m_block_length := by rw [hL, hlen]; push_cast; ring
  have h3 : st.m_block_length.toNat = L := by rw [hL]; simp
  rw [hdev, hsync]
  simp only [Bool.not_true, Bool.or_false, Bool.false_eq_true, if_false, not_lt.mpr hr, h1, h2,
    List.replicate_zero, List.append_nil, ne_eq, not_true_eq_false, h3]
  rw [foldl_set_range _ _ _ (by rw [length_resize])]
  rw [List.drop_of_length_le (by rw [length_resize]), List.append_nil]

/-- C9: a successful synchronous read of `2 * L` bytes with block length `L`
makes `get_samples` return true with exactly `L` samples; sample `i` has
in-phase part `(buf[2i] - 128) / 128` and quadrature part
`(buf[2i+1] - 128) / 128`, and both lie in `[-1, 1]`. -/
theorem C9_get_samples_conversion (st : RtlSdrSource) (r : ℤ) (dat : List ℕ)
    (samples : List IQSample) (L : ℕ)
    (hdev : st.m_dev = true) (hsync : st.mAsync = false) (hr : 0 ≤ r)
    (hL : st.m_block_length = L) (hlen : dat.length = 2 * L) (hbytes : ∀ b ∈ dat, b < 256) :
    (st.get_samples r dat samples).1 = true ∧
    (st.get_samples r dat samples).2.2.length = L ∧
    ∀ i : ℕ, i < L →
      ∃ (bre bim : ℕ) (z : IQSample),
        dat[2 * i]? = some bre ∧ dat[2 * i + 1]? = some bim ∧
        (st.get_samples r dat samples).2.2[i]? = some z ∧
        z.re = ((bre : ℚ) - 128) / 128 ∧ z.im = ((bim : ℚ) - 128) / 128 ∧
        -1 ≤ z.re ∧ z.re ≤ 1 ∧ -1 ≤ z.im ∧ z.im ≤ 1 := by
  rw [get_samples_ok st r dat samples L hdev hsync hr hL hlen]
  refine ⟨rfl, by simp, ?_⟩
  intro i hi
  have h0 : 2 * i < dat.length := by omega
  have h1 : 2 * i + 1 < dat.length := by omega
  have b0 := iq_component_bounds dat[2 * i] (hbytes _ (List.getElem_mem h0))
  have b1 := iq_component_bounds dat[2 * i + 1] (hbytes _ (List.getElem_mem h1))
  refine ⟨dat[2 * i], dat[2 * i + 1], iqFromBytes dat i, List.getElem?_eq_getElem h0,
    List.getElem?_eq_getElem h1, ?_, ?_, ?_, ?_⟩
  · simp [hi]
  · simp only [iqFromBytes, List.getD_eq_getElem _ _ h0]; push_cast; rfl
  · simp only [iqFromBytes, List.getD_eq_getElem _ _ h1]; push_cast; rfl
  · simp only [iqFromBytes, List.getD_eq_getElem _ _ h0, List.getD_eq_getElem _ _ h1]
    exact ⟨b0.1, b0.2, b1.1, b1.2⟩


/-- Witness of C9: a fresh synchronous source (block length 65536) and a read
that delivers 131072 bytes, all of value 128. -/
theorem C9_get_samples_conversion_witness :
    ((RtlSdrSource.create false (some "rtl") 0 "").m_dev = true ∧
      (RtlSdrSource.create false (some "rtl") 0 "").mAsync = false ∧ (0 : ℤ) ≤ 131072 ∧
      (RtlSdrSource.create false (some "rtl") 0 "").m_block_length = ((65536 : ℕ) : ℤ) ∧
      (List.replicate 131072 128).length = 2 * 65536 ∧
      ∀ b ∈ List.replicate 131072 128, b < 256) ∧
    ((RtlSdrSource.create false (some "rtl") 0 "").get_samples 131072
      (List.replicate 131072 128) []).1 = true ∧
    ((RtlSdrSource.create false (some "rtl") 0 "").get_samples 131072
      (List.replicate 131072 128) []).2.2.length = 65536 :=
  ⟨⟨by decide, by decide, by decide, by decide, List.length_replicate _ _,
      fun b hb => by rw [List.eq_of_mem_replicate hb]; decide⟩,
    (C9_get_samples_conversion (RtlSdrSource.create false (some "rtl") 0 "") 131072
      (List.replicate 131072 128) [] 65536 (by decide) (by decide) (by decide) (by decide)
      (List.length_replicate _ _)
      (fun b hb => by rw [List.eq_of_mem_replicate hb]; decide)).1,
    (C9_get_samples_conversion (RtlSdrSource.create false (some "rtl") 0 "") 131072
      (List.replicate 131072 128) [] 65536 (by decide) (by decide) (by decide) (by decide)
      (List.length_replicate _ _)
      (fun b hb => by rw [List.eq_of_mem_replicate hb]; decide)).2.1⟩

/-! ## Claims on the command line -/

theorem badarg_s_eq :
    (badarg "-s" : Outcome DoubleValue)
      = Outcome.exit 1
          [StderrItem.usage, StderrItem.line "ERROR: Invalid argument for -s\n"] := by
  unfold badarg
  rfl

/-- The range test of `case 's'` on a finite value. -/
theorem optionS_finite (ifrate : ℚ) :
    optionS true (DoubleValue.finite ifrate) =
      if (ifrate < 225001) ∨ (ifrate > 3200000) ∨ ((ifrate > 300000) ∧ (ifrate < 900001)) then
        badarg "-s"
      else Outcome.proceed (DoubleValue.finite ifrate) := by
  unfold optionS
  simp only [Bool.not_true, Bool.false_eq_true, if_false, DoubleValue.lt, DoubleValue.gt,
    Bool.or_eq_true, Bool.and_eq_true, decide_eq_true_eq, or_assoc]

/-- C10. A finite value parsed for `-s` is accepted exactly when it lies in
`[225001, 300000]` or in `[900001, 3200000]`; any other finite value, both
infinities, and any argument that `parse_dbl` rejects end in `badarg("-s")`:
the usage text and the line `ERROR: Invalid argument for -s` on standard
error, exit status 1. The value NaN, which `parse_dbl` stores for the text
`nan` while returning true, passes the test although it lies in neither
interval: every comparison of the test is false for it. -/
theorem C10_option_s_validation :
    (∀ ifrate : ℚ,
      (optionS true (DoubleValue.finite ifrate) = Outcome.proceed (DoubleValue.finite ifrate) ↔
        (225001 ≤ ifrate ∧ ifrate ≤ 300000) ∨ (900001 ≤ ifrate ∧ ifrate ≤ 3200000)) ∧
      (¬ ((225001 ≤ ifrate ∧ ifrate ≤ 300000) ∨ (900001 ≤ ifrate ∧ ifrate ≤ 3200000)) →
        optionS true (DoubleValue.finite ifrate)
          = Outcome.exit 1
              [StderrItem.usage, StderrItem.line "ERROR: Invalid argument for -s\n"])) ∧
    (∀ v : DoubleValue, optionS false v
      = Outcome.exit 1
          [StderrItem.usage, StderrItem.line "ERROR: Invalid argument for -s\n"]) ∧
    optionS true DoubleValue.posInf
      = Outcome.exit 1
          [StderrItem.usage, StderrItem.line "ERROR: Invalid argument for -s\n"] ∧
    optionS true DoubleValue.negInf
      = Outcome.exit 1
          [StderrItem.usage, StderrItem.line "ERROR: Invalid argument for -s\n"] ∧
    optionS true DoubleValue.nan = Outcome.proceed DoubleValue.nan ∧
    optionS true (DoubleValue.finite 500000)
      = Outcome.exit 1
          [StderrItem.usage, StderrItem.line "ERROR: Invalid argument for -s\n"] ∧
    optionS true (DoubleValue.finite 1200000) = Outcome.proceed (DoubleValue.finite 1200000) := by
  have hcond : ∀ ifrate : ℚ,
      ((ifrate < 225001) ∨ (ifrate > 3200000) ∨ ((ifrate > 300000) ∧ (ifrate < 900001)))
      ↔ ¬ ((225001 ≤ ifrate ∧ ifrate ≤ 300000) ∨ (900001 ≤ ifrate ∧ ifrate ≤ 3200000)) := by
    intro ifrate
    constructor
    · rintro (h | h | ⟨h1, h2⟩) <;> rintro (⟨a, b⟩ | ⟨a, b⟩) <;> linarith
    · intro h
      by_contra hn
      push_neg at hn h
      obtain ⟨n1, n2, n3⟩ := hn
      rcases le_or_lt ifrate 300000 with c | c
      · exact absurd c (not_le.mpr (h.1 n1))
      · exact absurd n2 (not_le.mpr (h.2 (n3 c)))
  have hfin : ∀ ifrate : ℚ,
      (optionS true (DoubleValue.finite ifrate) = Outcome.proceed (DoubleValue.finite ifrate) ↔
        (225001 ≤ ifrate ∧ ifrate ≤ 300000) ∨ (900001 ≤ ifrate ∧ ifrate ≤ 3200000)) ∧
      (¬ ((225001 ≤ ifrate ∧ ifrate ≤ 300000) ∨ (900001 ≤ ifrate ∧ ifrate ≤ 3200000)) →
        optionS true (DoubleValue.finite ifrate)
          = Outcome.exit 1
              [StderrItem.usage, StderrItem.line "ERROR: Invalid argument for -s\n"]) := by
    intro ifrate
    rw [optionS_finite, badarg_s_eq]
    constructor
    · by_cases hc : (ifrate < 225001) ∨ (ifrate > 3200000) ∨
          ((ifrate > 300000) ∧ (ifrate < 900001))
      · rw [if_pos hc]
        constructor
        · intro h; cases h
        · intro h; exact absurd h ((hcond ifrate).mp hc)
      · rw [if_neg hc]
        constructor
        · intro _; exact not_not.mp (fun h => hc ((hcond ifrate).mpr h))
        · intro _; rfl
    · intro h
      rw [if_pos ((hcond ifrate).mpr h)]
  refine ⟨hfin, ?_, ?_, ?_, ?_, (hfin 500000).2 (by norm_num), (hfin 1200000).1.mpr (by norm_num)⟩
  · intro v
    unfold optionS
    simp only [Bool.not_false, if_true, badarg_s_eq]
  · unfold optionS
    simp only [Bool.not_true, Bool.false_eq_true, if_false, DoubleValue.lt, DoubleValue.gt,
      Bool.false_or, Bool.true_or, Bool.or_true, if_true, badarg_s_eq]
  · unfold optionS
    simp only [Bool.not_true, Bool.false_eq_true, if_false, DoubleValue.lt, DoubleValue.gt,
      Bool.false_or, Bool.true_or, Bool.or_true, if_true, badarg_s_eq]
  · unfold optionS
    simp only [Bool.not_true, Bool.false_eq_true, if_false, DoubleValue.lt, DoubleValue.gt,
      Bool.false_or, Bool.or_false, Bool.and_false, Bool.false_and]

/-! ## Lemmas and claims on `parse_int` -/

theorem isspace_of_isdigit (c : Char) (h : isdigit c = true) : isspace c = false := by
  simp only [isdigit, Bool.and_eq_true, decide_eq_true_eq] at h
  simp only [isspace, Bool.or_eq_false_iff, decide_eq_false_iff_not, Bool.and_eq_false_iff]
  constructor
  · omega
  · right; omega

theorem takeWhile_digits (ds rest : List Char) (hd : ∀ c ∈ ds, isdigit c = true)
    (hr : ∀ c, rest.head? = some c → isdigit c = false) :
    (ds ++ rest).takeWhile isdigit = ds ∧ (ds ++ rest).dropWhile isdigit = rest := by
  induction ds with
  | nil =>
    cases rest with
    | nil => simp
    | cons c r => simp [hr c rfl]
  | cons d ds ih =>
    have h1 := hd d (List.mem_cons_self _ _)
    obtain ⟨i1, i2⟩ := ih (fun c hc => hd c (List.mem_cons_of_mem _ hc))
    simp [List.takeWhile_cons, List.dropWhile_cons, h1, i1, i2]

/-- The digit scan of `strtol` once white space and sign are gone. -/
theorem strtol_scan (s1 ds rest : List Char) (hne : ds ≠ [])
    (hd : ∀ c ∈ ds, isdigit c = true) (hr : ∀ c, rest.head? = some c → isdigit c = false)
    (s : List Char) (hs1 : s.dropWhile isspace = s1)
    (hs2 : (if s1.head? = some '-' ∨ s1.head? = some '+' then s1.tail else s1) = ds ++ rest) :
    strtol s = (max LONG_MIN (min LONG_MAX
      (if s1.head? = some '-' then -(digitsValue ds : ℤ) else (digitsValue ds : ℤ))), rest) := by
  obtain ⟨t1, t2⟩ := takeWhile_digits ds rest hd hr
  unfold strtol
  simp only [hs1, hs2, t1, t2, if_neg hne]

/-- Value and end pointer given by `strtol` on an optional sign, a non-empty
run of digits and a rest that does not start with a digit. -/
theorem strtol_decimal (sg ds rest : List Char)
    (hs : sg = [] ∨ sg = ['-'] ∨ sg = ['+']) (hne : ds ≠ [])
    (hd : ∀ c ∈ ds, isdigit c = true) (hr : ∀ c, rest.head? = some c → isdigit c = false) :
    strtol (sg ++ ds ++ rest)
      = (max LONG_MIN (min LONG_MAX
          (if sg = ['-'] then -(digitsValue ds : ℤ) else (digitsValue ds : ℤ))), rest) := by
  obtain ⟨d, ds1, rfl⟩ := List.exists_cons_of_ne_nil hne
  have hdd := hd d (List.mem_cons_self _ _)
  have hsp := isspace_of_isdigit d hdd
  rcases hs with rfl | rfl | rfl
  · have hm : d ≠ '-' := by rintro rfl; simp [isdigit] at hdd
    have hp : d ≠ '+' := by rintro rfl; simp [isdigit] at hdd
    rw [strtol_scan (d :: (ds1 ++ rest)) (d :: ds1) rest hne hd hr]
    · simp [hm]
    · simp [List.dropWhile_cons, hsp]
    · simp [hm, hp]
  · rw [strtol_scan ('-' :: (d :: ds1 ++ rest)) (d :: ds1) rest hne hd hr]
    · simp
    · have hsm : isspace '-' = false := by decide
      simp [List.dropWhile_cons, hsm]
    · simp
  · rw [strtol_scan ('+' :: (d :: ds1 ++ rest)) (d :: ds1) rest hne hd hr]
    · simp
    · have hsm : isspace '+' = false := by decide
      simp [List.dropWhile_cons, hsm]
    · simp

theorem tdiv_INT_MIN : Int.tdiv INT_MIN 1000 = -2147483 := by decide

theorem tdiv_INT_MAX : Int.tdiv INT_MAX 1000 = 2147483 := by decide

theorem ne_append_left (a rest : List Char) (h : a ≠ []) : rest ≠ a ++ rest := by
  intro e
  have hl := congrArg List.length e
  simp only [List.length_append] at hl
  have : 0 < a.length := List.length_pos.mpr h
  omega

/-- The branches of `parse_int` in terms of the result `(t, endp)` of `strtol`. -/
theorem parse_int_branches (s : List Char) (v : ℤ) (au : Bool) (t : ℤ) (endp : List Char)
    (h : strtol s = (t, endp)) (hne : endp ≠ s) :
    parse_int s v au =
      if au = true ∧ endp.head? = some 'k' ∧ -2147483 < t ∧ t < 2147483 then
        (if endp.tail ≠ [] ∨ t * 1000 < INT_MIN ∨ t * 1000 > INT_MAX then (false, v)
         else (true, t * 1000))
      else
        (if endp ≠ [] ∨ t < INT_MIN ∨ t > INT_MAX then (false, v) else (true, t)) := by
  unfold parse_int
  rw [h]
  simp only [if_neg hne, tdiv_INT_MIN, tdiv_INT_MAX]
  by_cases hu : au = true ∧ endp.head? = some 'k' ∧ -2147483 < t ∧ t < 2147483
  · have hb : (au && (endp.head? == some 'k') && decide (t > -2147483) &&
        decide (t < 2147483)) = true := by
      obtain ⟨h1, h2, h3, h4⟩ := hu
      simp [h1, h2, h3, h4]
    simp only [hb, if_true, if_pos hu]
  · have hb : (au && (endp.head? == some 'k') && decide (t > -2147483) &&
        decide (t < 2147483)) = false := by
      rw [Bool.eq_false_iff]
      intro hb
      simp only [Bool.and_eq_true, beq_iff_eq, decide_eq_true_eq] at hb
      exact hu ⟨hb.1.1.1, hb.1.1.2, hb.1.2, hb.2⟩
    simp only [hb, Bool.false_eq_true, if_false, if_neg hu]

/-- What `parse_int` does on every string made of an optional sign and a
non-empty run of digits of value `n`, alone or followed by other characters:
alone it succeeds exactly when `n` is an `int`; followed by a single `k` with
`allow_unit` set it succeeds, storing `1000 * n`, exactly when
`-2147483 < n < 2147483`; every other continuation is rejected and leaves `v`. -/
theorem parse_int_decimal (sg ds : List Char) (v : ℤ)
    (hs : sg = [] ∨ sg = ['-'] ∨ sg = ['+']) (hne : ds ≠ [])
    (hd : ∀ c ∈ ds, isdigit c = true) :
    (∀ au : Bool, parse_int (sg ++ ds) v au
      = if INT_MIN ≤ (if sg = ['-'] then -(digitsValue ds : ℤ) else (digitsValue ds : ℤ)) ∧
          (if sg = ['-'] then -(digitsValue ds : ℤ) else (digitsValue ds : ℤ)) ≤ INT_MAX
        then (true, if sg = ['-'] then -(digitsValue ds : ℤ) else (digitsValue ds : ℤ))
        else (false, v)) ∧
    (parse_int (sg ++ ds ++ ['k']) v true
      = if -2147483 < (if sg = ['-'] then -(digitsValue ds : ℤ) else (digitsValue ds : ℤ)) ∧
          (if sg = ['-'] then -(digitsValue ds : ℤ) else (digitsValue ds : ℤ)) < 2147483
        then (true, 1000 * (if sg = ['-'] then -(digitsValue ds : ℤ) else (digitsValue ds : ℤ)))
        else (false, v)) ∧
    (parse_int (sg ++ ds ++ ['k']) v false = (false, v)) ∧
    (∀ (au : Bool) (c : Char) (rest : List Char), isdigit c = false →
      ¬ (au = true ∧ c = 'k' ∧ rest = []) →
      parse_int (sg ++ ds ++ c :: rest) v au = (false, v)) := by
  have hsd : sg ++ ds ≠ [] := by simp [hne]
  generalize hn : (if sg = ['-'] then -(digitsValue ds : ℤ) else (digitsValue ds : ℤ)) = n
  have key : ∀ rest : List Char, (∀ c, rest.head? = some c → isdigit c = false) →
      strtol (sg ++ ds ++ rest) = (max LONG_MIN (min LONG_MAX n), rest) := by
    intro rest hr
    rw [strtol_decimal sg ds rest hs hne hd hr, hn]
  have hk : isdigit 'k' = false := by decide
  have f1 : max LONG_MIN (min LONG_MAX n) < INT_MIN ↔ n < INT_MIN := by
    simp only [LONG_MIN, LONG_MAX, INT_MIN]; omega
  have f2 : max LONG_MIN (min LONG_MAX n) > INT_MAX ↔ n > INT_MAX := by
    simp only [LONG_MIN, LONG_MAX, INT_MAX]; omega
  have f3 : ¬ n < INT_MIN → ¬ n > INT_MAX → max LONG_MIN (min LONG_MAX n) = n := by
    simp only [LONG_MIN, LONG_MAX, INT_MIN, INT_MAX]; omega
  have f4 : -2147483 < max LONG_MIN (min LONG_MAX n) ↔ -2147483 < n := by
    simp only [LONG_MIN, LONG_MAX]; omega
  have f5 : max LONG_MIN (min LONG_MAX n) < 2147483 ↔ n < 2147483 := by
    simp only [LONG_MIN, LONG_MAX]; omega
  have f6 : -2147483 < n → n < 2147483 → max LONG_MIN (min LONG_MAX n) = n := by
    simp only [LONG_MIN, LONG_MAX]; omega
  generalize max LONG_MIN (min LONG_MAX n) = t at key f1 f2 f3 f4 f5 f6
  refine ⟨?_, ?_, ?_, ?_⟩
  · intro au
    have h := key [] (by simp)
    rw [List.append_nil] at h
    rw [parse_int_branches _ v au t [] h (fun e => hsd e.symm)]
    rw [if_neg (by simp)]
    by_cases h1 : n < INT_MIN
    · rw [if_pos (Or.inr (Or.inl (f1.mpr h1))), if_neg (by omega)]
    · by_cases h2 : n > INT_MAX
      · rw [if_pos (Or.inr (Or.inr (f2.mpr h2))), if_neg (by omega)]
      · have e := f3 h1 h2
        have c2 : ¬ (([] : List Char) ≠ [] ∨ n < INT_MIN ∨ n > INT_MAX) := by
          simp only [ne_eq, not_true_eq_false, false_or]
          omega
        rw [e, if_neg c2, if_pos (by omega)]
  · have h := key ['k'] (by simp [hk])
    rw [parse_int_branches _ v true t ['k'] h (ne_append_left (sg ++ ds) ['k'] hsd)]
    by_cases h1 : -2147483 < n ∧ n < 2147483
    · have e := f6 h1.1 h1.2
      have c1 : true = true ∧ ['k'].head? = some 'k' ∧ -2147483 < t ∧ t < 2147483 :=
        ⟨rfl, rfl, f4.mpr h1.1, f5.mpr h1.2⟩
      have c2 : ¬ (['k'].tail ≠ [] ∨ n * 1000 < INT_MIN ∨ n * 1000 > INT_MAX) := by
        simp only [List.tail_cons, ne_eq, not_true_eq_false, false_or, INT_MIN, INT_MAX]
        omega
      rw [if_pos c1, if_pos h1, e, if_neg c2, mul_comm]
    · have c1 : ¬ (true = true ∧ ['k'].head? = some 'k' ∧ -2147483 < t ∧ t < 2147483) := by
        rintro ⟨-, -, a, b⟩
        exact h1 ⟨f4.mp a, f5.mp b⟩
      rw [if_neg c1, if_neg h1, if_pos (Or.inl (by simp))]
  · have h := key ['k'] (by simp [hk])
    rw [parse_int_branches _ v false t ['k'] h (ne_append_left (sg ++ ds) ['k'] hsd)]
    rw [if_neg (by simp), if_pos (Or.inl (by simp))]
  · intro au c rest hc hnot
    have h := key (c :: rest) (by simp [hc])
    rw [parse_int_branches _ v au t (c :: rest) h (ne_append_left (sg ++ ds) (c :: rest) hsd)]
    by_cases hu : au = true ∧ (c :: rest).head? = some 'k' ∧ -2147483 < t ∧ t < 2147483
    · have hck : c = 'k' := by simpa using hu.2.1
      have hr : rest ≠ [] := fun e => hnot ⟨hu.1, hck, e⟩
      rw [if_pos hu, if_pos (Or.inl (by simpa using hr))]
    · rw [if_neg hu, if_pos (Or.inl (by simp))]

/-- C11: with `allow_unit` set, `parse_int` rejects the string `2147483k`
(and `-2147483k`) and leaves `v` alone, although `1000 * 2147483` is an
`int`: the guard `t < INT_MAX / 1000` is strict, the `k` stays unread and
the final test `*endp != 0` fails. One step inside the guard, `2147482k`
gives 2147482000. -/
theorem C11_parse_int_unit_boundary :
    parse_int "2147483k".toList 0 true = (false, 0) ∧
    parse_int "-2147483k".toList 0 true = (false, 0) ∧
    (INT_MIN ≤ 1000 * 2147483 ∧ (1000 * 2147483 : ℤ) ≤ INT_MAX) ∧
    (INT_MIN ≤ 1000 * -2147483 ∧ (1000 * -2147483 : ℤ) ≤ INT_MAX) ∧
    parse_int "2147482k".toList 0 true = (true, 2147482000) := by
  refine ⟨by decide, by decide, by decide, by decide, by decide⟩

/-! ## Lemmas and claims on `parse_dbl` -/

theorem lrint_intCast (m : ℤ) : lrint (m : ℚ) = m := by
  have h1 := lrint_le_of_le (m : ℚ) m le_rfl
  have h2 := le_lrint_of_le (m : ℚ) m le_rfl
  omega

/-- Rounding to binary64 moves a value of magnitude at least `2⁻¹⁰²²` by at
most the fraction `2⁻⁵³` of its magnitude. -/
theorem f64Round_rel_error (y : ℚ) (hy : (2 : ℚ) ^ (-1022 : ℤ) ≤ |y|) :
    |f64Round y - y| ≤ |y| / 2 ^ 53 := by
  have hpos : 0 < |y| := lt_of_lt_of_le (by positivity) hy
  have hlog : -1022 ≤ Int.log 2 |y| := by
    have := (Int.zpow_le_iff_le_log (R := ℚ) (b := 2) (by norm_num) hpos (x := -1022)).mp
      (by exact_mod_cast hy)
    exact this
  have he : f64Exponent y = Int.log 2 |y| := by
    unfold f64Exponent; exact max_eq_left hlog
  have hle : (2 : ℚ) ^ Int.log 2 |y| ≤ |y| := by
    have := Int.zpow_log_le_self (R := ℚ) (b := 2) (by norm_num) hpos
    exact_mod_cast this
  unfold f64Round
  simp only [he]
  set e := Int.log 2 |y| with hedef
  have hq : (0 : ℚ) < 2 ^ (e - 52) := by positivity
  have hr := lrint_sub_le (y / 2 ^ (e - 52))
  have e2 : (lrint (y / 2 ^ (e - 52)) : ℚ) * 2 ^ (e - 52) - y
      = ((lrint (y / 2 ^ (e - 52)) : ℚ) - y / 2 ^ (e - 52)) * 2 ^ (e - 52) := by
    field_simp
  rw [e2, abs_mul, abs_of_pos hq]
  have e3 : (2 : ℚ) ^ (e - 52) = 2 ^ e / 2 ^ 52 := by
    rw [zpow_sub₀ (by norm_num)]; norm_num
  calc |(lrint (y / 2 ^ (e - 52)) : ℚ) - y / 2 ^ (e - 52)| * 2 ^ (e - 52)
      ≤ 1 / 2 * 2 ^ (e - 52) := mul_le_mul_of_nonneg_right hr hq.le
    _ = 2 ^ e / 2 ^ 53 := by rw [e3]; ring
    _ ≤ |y| / 2 ^ 53 := by
        apply div_le_div_of_nonneg_right hle; positivity

/-- An integer of magnitude below `2⁵³` is a binary64 value: rounding keeps it. -/
theorem f64Round_int (k : ℤ) (hk : |(k : ℚ)| < 2 ^ 53) : f64Round (k : ℚ) = k := by
  have he : f64Exponent (k : ℚ) ≤ 52 := by
    unfold f64Exponent
    apply max_le _ (by norm_num)
    rcases (abs_nonneg (k : ℚ)).eq_or_lt with h0 | hpos
    · rw [← h0]; simp [Int.log_of_right_le_zero]
    · have h : Int.log 2 |(k : ℚ)| < 53 := by
        rw [← Int.lt_zpow_iff_log_lt (by norm_num) hpos]
        norm_num
        exact hk
      omega
  have hge : -1022 ≤ f64Exponent (k : ℚ) := le_max_right _ _
  have hq : (2 : ℚ) ^ (f64Exponent (k : ℚ) - 52) = 1 / 2 ^ (52 - f64Exponent (k : ℚ)).toNat := by
    have h3 : f64Exponent (k : ℚ) - 52 = -(((52 - f64Exponent (k : ℚ)).toNat : ℕ) : ℤ) := by
      rw [Int.toNat_of_nonneg (by omega)]; ring
    rw [h3, zpow_neg, zpow_natCast, one_div]
  unfold f64Round
  simp only [hq]
  set m := (52 - f64Exponent (k : ℚ)).toNat
  have hpos : (0 : ℚ) < 2 ^ m := by positivity
  have e1 : (k : ℚ) / (1 / 2 ^ m) = ((k * 2 ^ m : ℤ) : ℚ) := by
    push_cast; field_simp
  rw [e1, lrint_intCast]
  push_cast
  field_simp

/-- C13: `main` gets past the LNA gain check exactly when the gain is the
automatic-gain sentinel `INT_MIN` or one of the gains the tuner reports;
otherwise it exits with status 1 after logging the supported gains. The
option text `list` (in any letter case) sets the sentinel `INT_MIN + 1`,
which no tuner reports as a gain, so that `-g list` logs the list of gains,
without a complaint about the gain, and exits with status 1. -/
theorem C13_lna_gain_check (lnagain : ℤ) (gains : List ℤ) :
    (checkLnaGain lnagain gains = GainCheck.proceed ↔ lnagain = INT_MIN ∨ lnagain ∈ gains) ∧
    (¬ (lnagain = INT_MIN ∨ lnagain ∈ gains) →
      ∃ log : List GainLog, checkLnaGain lnagain gains = GainCheck.exit 1 log ∧
        ∀ g ∈ gains, GainLog.supportedGain g ∈ log) ∧
    (∀ (optarg : List Char) (x : ℚ) (n : ℕ), strcasecmpEq optarg ['l', 'i', 's', 't'] = true →
      optionG optarg x n = Outcome.proceed (INT_MIN + 1)) ∧
    (∀ (optarg : List Char) (x : ℚ) (n : ℕ), strcasecmpEq optarg ['a', 'u', 't', 'o'] = true →
      optionG optarg x n = Outcome.proceed INT_MIN) ∧
    (INT_MIN + 1 ∉ gains →
      checkLnaGain (INT_MIN + 1) gains
        = GainCheck.exit 1 (GainLog.supportedHeader :: gains.map GainLog.supportedGain)) := by
  refine ⟨?_, ?_, ?_, ?_, ?_⟩
  · unfold checkLnaGain
    by_cases h1 : lnagain = INT_MIN
    · simp [h1]
    · by_cases h2 : lnagain ∈ gains
      · simp [h1, h2]
      · simp [h1, h2]
  · intro h
    push_neg at h
    refine ⟨(if lnagain ≠ INT_MIN + 1 then [GainLog.notSupported lnagain] else [])
          ++ [GainLog.supportedHeader] ++ gains.map GainLog.supportedGain, ?_, ?_⟩
    · unfold checkLnaGain
      rw [if_pos h.1, if_pos h.2]
    · intro g hg
      simp only [List.mem_append, List.mem_map]
      exact Or.inr ⟨g, hg, rfl⟩
  · intro optarg x n h
    have hne : strcasecmpEq optarg ['a', 'u', 't', 'o'] = false := by
      unfold strcasecmpEq at h ⊢
      rw [beq_iff_eq] at h
      rw [h]
      decide
    simp [optionG, h, hne]
  · intro optarg x n h
    simp [optionG, h]
  · intro h
    have hne : INT_MIN + 1 ≠ INT_MIN := by unfold INT_MIN; omega
    unfold checkLnaGain
    rw [if_pos hne, if_pos h]
    simp

/-- Witness of C13: the tuner reports the gains 0, 9 and 14; the gain 9 passes,
the gain 10 and the option text `list` end in exit status 1. -/
theorem C13_lna_gain_check_witness :
    (9 = INT_MIN ∨ (9 : ℤ) ∈ [(0 : ℤ), 9, 14]) ∧
    checkLnaGain 9 [0, 9, 14] = GainCheck.proceed ∧
    ¬ (10 = INT_MIN ∨ (10 : ℤ) ∈ [(0 : ℤ), 9, 14]) ∧
    (∃ log : List GainLog, checkLnaGain 10 [0, 9, 14] = GainCheck.exit 1 log ∧
        ∀ g ∈ [(0 : ℤ), 9, 14], GainLog.supportedGain g ∈ log) ∧
    strcasecmpEq ['L', 'i', 's', 't'] ['l', 'i', 's', 't'] = true ∧
    optionG ['L', 'i', 's', 't'] 0 0 = Outcome.proceed (INT_MIN + 1) ∧
    INT_MIN + 1 ∉ [(0 : ℤ), 9, 14] ∧
    checkLnaGain (INT_MIN + 1) [0, 9, 14]
      = GainCheck.exit 1
          (GainLog.supportedHeader :: [(0 : ℤ), 9, 14].map GainLog.supportedGain) :=
  ⟨by decide, (C13_lna_gain_check 9 [0, 9, 14]).1.mpr (by decide), by decide,
    (C13_lna_gain_check 10 [0, 9, 14]).2.1 (by decide), by decide,
    (C13_lna_gain_check 0 []).2.2.1 ['L', 'i', 's', 't'] 0 0 (by decide), by decide,
    (C13_lna_gain_check (INT_MIN + 1) [0, 9, 14]).2.2.2.2 (by decide)⟩

/-! ## Lemmas and claims on the calls of a `RtlSdrSource` -/

theorem configure_dead (st : RtlSdrSource) (env : ConfigureEnv) (sample_rate frequency : ℕ)
    (tuner_gain block_length : ℤ) (agcmode : Bool) (h : st.m_dev = false) :
    st.configure env sample_rate frequency tuner_gain block_length agcmode = (false, st) := by
  unfold RtlSdrSource.configure
  simp [h]

theorem get_samples_dead (st : RtlSdrSource) (r : ℤ) (dat : List ℕ) (samples : List IQSample)
    (h : st.m_dev = false) : st.get_samples r dat samples = (false, st, samples) := by
  unfold RtlSdrSource.get_samples
  simp [h]

/-- No call changes whether the device handle is null. -/
theorem call_m_dev (st : RtlSdrSource) (c : SourceCall) : (st.call c).2.1.m_dev = st.m_dev := by
  cases c with
  | configure env sr f tg bl agc =>
    simp only [RtlSdrSource.call, RtlSdrSource.configure]
    cases gainStepError env tg <;> simp only <;> split_ifs <;> rfl
  | get_samples r dat =>
    simp only [RtlSdrSource.call, RtlSdrSource.get_samples]
    split_ifs <;> rfl
  | error => rfl
  | operatorBool => rfl
  | StartAsync => simp only [RtlSdrSource.call, RtlSdrSource.StartAsync]; split_ifs <;> rfl
  | StopAsync => simp only [RtlSdrSource.call, RtlSdrSource.StopAsync]; split_ifs <;> rfl

theorem call_dead (st : RtlSdrSource) (c : SourceCall) (h : st.m_dev = false) :
    deadAnswer c (st.call c).1 := by
  cases c with
  | configure env sr f tg bl agc =>
    simp only [RtlSdrSource.call, deadAnswer, configure_dead _ _ _ _ _ _ _ h]
  | get_samples r dat =>
    simp only [RtlSdrSource.call, deadAnswer, get_samples_dead _ _ _ _ h]
  | error => trivial
  | operatorBool => simp [RtlSdrSource.call, deadAnswer, RtlSdrSource.operatorBool, h]
  | StartAsync => trivial
  | StopAsync => trivial

theorem run_dead (calls : List SourceCall) :
    ∀ st : RtlSdrSource, st.m_dev = false → List.Forall₂ deadAnswer calls (st.run calls).1 := by
  induction calls with
  | nil => intro st _; exact List.Forall₂.nil
  | cons c cs ih =>
    intro st h
    simp only [RtlSdrSource.run]
    exact List.Forall₂.cons (call_dead st c h) (ih _ (by rw [call_m_dev]; exact h))

theorem gainStepError_ne (env : ConfigureEnv) (tuner_gain : ℤ) (msg : String)
    (h : gainStepError env tuner_gain = some msg) : msg ≠ "" := by
  unfold gainStepError at h
  split_ifs at h <;> (simp only [Option.some.injEq] at h; subst h; decide)

/-- A failed `configure` call on an open device leaves a non-empty message. -/
theorem configure_failed_message (st : RtlSdrSource) (env : ConfigureEnv)
    (sample_rate frequency : ℕ) (tuner_gain block_length : ℤ) (agcmode : Bool)
    (hdev : st.m_dev = true)
    (hf : (st.configure env sample_rate frequency tuner_gain block_length agcmode).1 = false) :
    (st.configure env sample_rate frequency tuner_gain block_length agcmode).2.m_error ≠ "" := by
  unfold RtlSdrSource.configure at hf ⊢
  rw [hdev] at hf ⊢
  simp only [Bool.not_true, Bool.false_eq_true, if_false] at hf ⊢
  by_cases h1 : env.set_sample_rate < 0
  · rw [if_pos h1]
    show ("rtlsdr_set_sample_rate failed" : String) ≠ ""
    decide
  · rw [if_neg h1] at hf ⊢
    by_cases h2 : env.set_center_freq < 0
    · rw [if_pos h2]
      show ("rtlsdr_set_center_freq failed" : String) ≠ ""
      decide
    · rw [if_neg h2] at hf ⊢
      cases hg : gainStepError env tuner_gain with
      | some msg =>
        simp only [hg]
        exact gainStepError_ne env tuner_gain msg hg
      | none =>
        simp only [hg] at hf ⊢
        by_cases h3 : env.set_agc_mode < 0
        · rw [if_pos h3]
          show ("rtlsdr_set_agc_mode failed" : String) ≠ ""
          decide
        · rw [if_neg h3] at hf ⊢
          by_cases h4 : env.reset_buffer < 0
          · rw [if_pos h4]
            show ("rtlsdr_reset_buffer failed" : String) ≠ ""
            decide
          · rw [if_neg h4] at hf
            simp at hf

/-- A `configure` call leaves the message alone or stores a non-empty one. -/
theorem configure_message (st : RtlSdrSource) (env : ConfigureEnv)
    (sample_rate frequency : ℕ) (tuner_gain block_length : ℤ) (agcmode : Bool) :
    (st.configure env sample_rate frequency tuner_gain block_length agcmode).2.m_error
      = st.m_error ∨
    (st.configure env sample_rate frequency tuner_gain block_length agcmode).2.m_error ≠ "" := by
  cases hdev : st.m_dev with
  | false => left; rw [configure_dead _ _ _ _ _ _ _ hdev]
  | true =>
    cases hf : (st.configure env sample_rate frequency tuner_gain block_length agcmode).1 with
    | false => right; exact configure_failed_message _ _ _ _ _ _ _ hdev hf
    | true =>
      left
      unfold RtlSdrSource.configure at hf ⊢
      rw [hdev] at hf ⊢
      simp only [Bool.not_true, Bool.false_eq_true, if_false] at hf ⊢
      by_cases h1 : env.set_sample_rate < 0
      · rw [if_pos h1] at hf; simp at hf
      · rw [if_neg h1] at hf ⊢
        by_cases h2 : env.set_center_freq < 0
        · rw [if_pos h2] at hf; simp at hf
        · rw [if_neg h2] at hf ⊢
          cases hg : gainStepError env tuner_gain with
          | some msg => simp [hg] at hf
          | none =>
            simp only [hg] at hf ⊢
            by_cases h3 : env.set_agc_mode < 0
            · rw [if_pos h3] at hf; simp at hf
            · rw [if_neg h3] at hf ⊢
              by_cases h4 : env.reset_buffer < 0
              · rw [if_pos h4] at hf; simp at hf
              · rw [if_neg h4]

/-- A `get_samples` call leaves the message alone or stores a non-empty one. -/
theorem get_samples_message (st : RtlSdrSource) (r : ℤ) (dat : List ℕ)
    (samples : List IQSample) :
    (st.get_samples r dat samples).2.1.m_error = st.m_error ∨
    (st.get_samples r dat samples).2.1.m_error ≠ "" := by
  unfold RtlSdrSource.get_samples
  simp only
  by_cases h0 : (!st.m_dev || st.mAsync) = true
  · rw [if_pos h0]; left; rfl
  · rw [if_neg h0]
    by_cases h1 : r < 0
    · rw [if_pos h1]; right; show ("rtlsdr_read_sync failed" : String) ≠ ""; decide
    · rw [if_neg h1]
      by_cases h2 : ((dat.length : ℕ) : ℤ) ≠ 2 * st.m_block_length
      · rw [if_pos h2]; right; show ("short read, samples lost" : String) ≠ ""; decide
      · rw [if_neg h2]; left; rfl

/-- Every call but `error()` keeps a stored message non-empty. -/
theorem call_keeps_message (st : RtlSdrSource) (c : SourceCall) (hc : c ≠ SourceCall.error)
    (h : st.m_error ≠ "") : (st.call c).2.1.m_error ≠ "" := by
  cases c with
  | configure env sr f tg bl agc =>
    rcases configure_message st env sr f tg bl agc with e | e
    · simp only [RtlSdrSource.call]; rw [e]; exact h
    · exact e
  | get_samples r dat =>
    rcases get_samples_message st r dat [] with e | e
    · simp only [RtlSdrSource.call]; rw [e]; exact h
    · exact e
  | error => exact absurd rfl hc
  | operatorBool => exact h
  | StartAsync => simp only [RtlSdrSource.call, RtlSdrSource.StartAsync]; split_ifs <;> exact h
  | StopAsync => simp only [RtlSdrSource.call, RtlSdrSource.StopAsync]; split_ifs <;> exact h

theorem run_unhealthy (calls : List SourceCall) :
    ∀ st : RtlSdrSource, st.m_error ≠ "" → SourceCall.error ∉ calls →
      List.Forall₂ probeUnhealthy calls (st.run calls).1 := by
  induction calls with
  | nil => intro st _ _; exact List.Forall₂.nil
  | cons c cs ih =>
    intro st h hn
    have hc : c ≠ SourceCall.error := fun e => hn (by rw [e]; exact List.mem_cons_self _ _)
    have hcs : SourceCall.error ∉ cs := fun e => hn (List.mem_cons_of_mem _ e)
    simp only [RtlSdrSource.run]
    refine List.Forall₂.cons ?_ (ih _ (call_keeps_message st c hc h) hcs)
    cases c with
    | operatorBool => simp [RtlSdrSource.call, probeUnhealthy, RtlSdrSource.operatorBool, h]
    | configure env sr f tg bl agc => trivial
    | get_samples r dat => trivial
    | error => trivial
    | StartAsync => trivial
    | StopAsync => trivial

/-- C14 (amended): a handle whose device failed to open is dead: in every
later sequence of calls, calls to `error()` included, each health probe
reports unhealthy and each `configure` and `get_samples` call returns false.
A failed `configure` call on an open device stores a message, and the health
probe reports unhealthy in every later sequence of calls without `error()`;
a call to `error()` clears the message and the probe reports healthy again. -/
theorem C14_dead_after_open_failure :
    (∀ (async : Bool) (devname : Option String) (r : ℤ) (errstr : String)
      (calls : List SourceCall), r < 0 →
      List.Forall₂ deadAnswer calls ((RtlSdrSource.create async devname r errstr).run calls).1) ∧
    (∀ (st : RtlSdrSource) (env : ConfigureEnv) (sample_rate frequency : ℕ)
      (tuner_gain block_length : ℤ) (agcmode : Bool) (calls : List SourceCall),
      st.m_dev = true →
      (st.configure env sample_rate frequency tuner_gain block_length agcmode).1 = false →
      SourceCall.error ∉ calls →
      List.Forall₂ probeUnhealthy calls
        ((st.configure env sample_rate frequency tuner_gain block_length agcmode).2.run calls).1) ∧
    (∀ (st : RtlSdrSource) (env : ConfigureEnv) (sample_rate frequency : ℕ)
      (tuner_gain block_length : ℤ) (agcmode : Bool),
      st.m_dev = true →
      (st.configure env sample_rate frequency tuner_gain block_length agcmode).1 = false →
      (st.configure env sample_rate frequency tuner_gain block_length
        agcmode).2.error.2.operatorBool = true) := by
  refine ⟨?_, ?_, ?_⟩
  · intro async devname r errstr calls hr
    apply run_dead
    simp only [RtlSdrSource.create, decide_eq_false_iff_not, not_le]
    exact hr
  · intro st env sr f tg bl agc calls hdev hf hn
    exact run_unhealthy calls _ (configure_failed_message st env sr f tg bl agc hdev hf) hn
  · intro st env sr f tg bl agc hdev _
    have hd : (st.configure env sr f tg bl agc).2.m_dev = true := by
      have := call_m_dev st (SourceCall.configure env sr f tg bl agc)
      simp only [RtlSdrSource.call] at this
      rw [this, hdev]
    simp [RtlSdrSource.error, RtlSdrSource.operatorBool, hd]

/-- Witness of C14 (amended): a failed open, then `configure`, `error()` and a
probe; and a `configure` call whose first librtlsdr call fails on an open device. -/
theorem C14_dead_after_open_failure_witness :
    ((-1 : ℤ) < 0 ∧
      List.Forall₂ deadAnswer
        [SourceCall.configure ⟨0, 0, 0, 0, 0, 0⟩ 1200000 100300000 INT_MIN 65536 false,
          SourceCall.error, SourceCall.operatorBool]
        ((RtlSdrSource.create true none (-1) "No such device").run
          [SourceCall.configure ⟨0, 0, 0, 0, 0, 0⟩ 1200000 100300000 INT_MIN 65536 false,
            SourceCall.error, SourceCall.operatorBool]).1) ∧
    ((RtlSdrSource.create false (some "rtl") 0 "").m_dev = true ∧
      ((RtlSdrSource.create false (some "rtl") 0 "").configure ⟨-1, 0, 0, 0, 0, 0⟩
        1200000 100300000 INT_MIN 65536 false).1 = false ∧
      SourceCall.error ∉ [SourceCall.operatorBool] ∧
      List.Forall₂ probeUnhealthy [SourceCall.operatorBool]
        ((((RtlSdrSource.create false (some "rtl") 0 "").configure ⟨-1, 0, 0, 0, 0, 0⟩
          1200000 100300000 INT_MIN 65536 false).2).run [SourceCall.operatorBool]).1) :=
  ⟨⟨by decide, C14_dead_after_open_failure.1 true none (-1) "No such device" _ (by decide)⟩,
    by decide, by decide, by simp,
    C14_dead_after_open_failure.2.1 (RtlSdrSource.create false (some "rtl") 0 "")
      ⟨-1, 0, 0, 0, 0, 0⟩ 1200000 100300000 INT_MIN 65536 false [SourceCall.operatorBool]
      (by decide) (by decide) (by simp)⟩

/-- Counterexample to C14 as stated: on an open device a `configure` call fails
(its first librtlsdr call returns -1); after `error()` the health probe
reports healthy and the next `configure` call returns true. -/
theorem C14_counterexample :
    ((RtlSdrSource.create false (some "rtl") 0 "").run
      [SourceCall.configure ⟨-1, 0, 0, 0, 0, 0⟩ 1200000 100300000 INT_MIN 65536 false,
        SourceCall.operatorBool,
        SourceCall.error,
        SourceCall.operatorBool,
        SourceCall.configure ⟨0, 0, 0, 0, 0, 0⟩ 1200000 100300000 INT_MIN 65536 false]).1
      = [CallResult.flag false, CallResult.flag false,
          CallResult.text "rtlsdr_set_sample_rate failed",
          CallResult.flag true, CallResult.flag true] ∧
    ¬ List.Forall₂ deadAnswer
      [SourceCall.operatorBool,
        SourceCall.error,
        SourceCall.operatorBool,
        SourceCall.configure ⟨0, 0, 0, 0, 0, 0⟩ 1200000 100300000 INT_MIN 65536 false]
      ((((RtlSdrSource.create false (some "rtl") 0 "").configure ⟨-1, 0, 0, 0, 0, 0⟩
          1200000 100300000 INT_MIN 65536 false).2).run
        [SourceCall.operatorBool,
          SourceCall.error,
          SourceCall.operatorBool,
          SourceCall.configure ⟨0, 0, 0, 0, 0, 0⟩ 1200000 100300000 INT_MIN 65536 false]).1 := by
  have e : ((((RtlSdrSource.create false (some "rtl") 0 "").configure ⟨-1, 0, 0, 0, 0, 0⟩
          1200000 100300000 INT_MIN 65536 false).2).run
        [SourceCall.operatorBool,
          SourceCall.error,
          SourceCall.operatorBool,
          SourceCall.configure ⟨0, 0, 0, 0, 0, 0⟩ 1200000 100300000 INT_MIN 65536 false]).1
      = [CallResult.flag false, CallResult.text "rtlsdr_set_sample_rate failed",
          CallResult.flag true, CallResult.flag true] := by decide
  refine ⟨by decide, ?_⟩
  rw [e]
  intro h
  cases h with
  | cons _ h2 =>
    cases h2 with
    | cons _ h3 =>
      cases h3 with
      | cons h4 _ =>
        simp [deadAnswer] at h4

/-! ## Claims on `StartAsync` and `StopAsync` -/

theorem liveThreads_append (a b : List ThreadEvent) :
    liveThreads (a ++ b) = liveThreads a + liveThreads b := by
  induction a with
  | nil => simp [liveThreads]
  | cons e es ih =>
    have e1 : (e :: es) ++ b = e :: (es ++ b) := rfl
    rw [e1]
    cases e <;> simp only [liveThreads, ih] <;> ring

/-- The thread events of one call change the number of live threads exactly as
the call changes `mThread`. -/
theorem call_liveThreads (st : RtlSdrSource) (c : SourceCall) :
    liveThreads (st.call c).2.2
      = (if (st.call c).2.1.mThread then 1 else 0) - (if st.mThread then 1 else 0) := by
  cases c with
  | configure env sr f tg bl agc =>
    have hm : (st.configure env sr f tg bl agc).2.mThread = st.mThread := by
      unfold RtlSdrSource.configure
      cases gainStepError env tg <;> simp only <;> split_ifs <;> rfl
    simp only [RtlSdrSource.call, hm, liveThreads, sub_self]
  | get_samples r dat =>
    have hm : (st.get_samples r dat []).2.1.mThread = st.mThread := by
      unfold RtlSdrSource.get_samples
      simp only
      split_ifs <;> rfl
    simp only [RtlSdrSource.call, hm, liveThreads, sub_self]
  | error => simp [RtlSdrSource.call, RtlSdrSource.error, liveThreads]
  | operatorBool => simp [RtlSdrSource.call, liveThreads]
  | StartAsync =>
    cases ha : st.mAsync <;> cases ht : st.mThread <;>
      simp [RtlSdrSource.call, RtlSdrSource.StartAsync, ha, ht, liveThreads]
  | StopAsync =>
    cases ha : st.mAsync <;> cases ht : st.mThread <;>
      simp [RtlSdrSource.call, RtlSdrSource.StopAsync, ha, ht, liveThreads]

theorem run_liveThreads (calls : List SourceCall) :
    ∀ st : RtlSdrSource,
      liveThreads (st.run calls).2.1
        = (if (st.run calls).2.2.mThread then 1 else 0) - (if st.mThread then 1 else 0) := by
  induction calls with
  | nil => intro st; simp [RtlSdrSource.run, liveThreads]
  | cons c cs ih =>
    intro st
    simp only [RtlSdrSource.run, liveThreads_append, ih, call_liveThreads]
    ring

/-- C20: `StartAsync` returns true, spawning one thread and setting `mThread`,
exactly when the source is in async mode and holds no thread; `StopAsync`
returns true, cancelling, joining and clearing the thread, exactly when the
source is in async mode and holds a thread; otherwise they return false and
do nothing, as they always do on a source that is not in async mode. After
every sequence of calls on a freshly constructed source the number of
threads spawned and not yet joined is 1 if `mThread` is set and 0 if not, so
never more than one. -/
theorem C20_single_capture_thread :
    (∀ st : RtlSdrSource,
      (st.StartAsync.1 = true ↔ st.mAsync = true ∧ st.mThread = false) ∧
      (st.StartAsync.1 = true →
        st.StartAsync.2.2 = [ThreadEvent.spawn] ∧ st.StartAsync.2.1.mThread = true) ∧
      (st.StartAsync.1 = false → st.StartAsync.2 = (st, []))) ∧
    (∀ st : RtlSdrSource,
      (st.StopAsync.1 = true ↔ st.mAsync = true ∧ st.mThread = true) ∧
      (st.StopAsync.1 = true →
        st.StopAsync.2.2 = [ThreadEvent.cancel_async, ThreadEvent.join] ∧
        st.StopAsync.2.1.mThread = false) ∧
      (st.StopAsync.1 = false → st.StopAsync.2 = (st, []))) ∧
    (∀ st : RtlSdrSource, st.mAsync = false →
      st.StartAsync.1 = false ∧ st.StopAsync.1 = false) ∧
    (∀ (async : Bool) (devname : Option String) (r : ℤ) (errstr : String)
      (calls : List SourceCall),
      liveThreads ((RtlSdrSource.create async devname r errstr).run calls).2.1
        = (if ((RtlSdrSource.create async devname r errstr).run calls).2.2.mThread then 1 else 0) ∧
      liveThreads ((RtlSdrSource.create async devname r errstr).run calls).2.1 ≤ 1 ∧
      0 ≤ liveThreads ((RtlSdrSource.create async devname r errstr).run calls).2.1) := by
  refine ⟨?_, ?_, ?_, ?_⟩
  · intro st
    cases ha : st.mAsync <;> cases ht : st.mThread <;>
      simp [RtlSdrSource.StartAsync, ha, ht]
  · intro st
    cases ha : st.mAsync <;> cases ht : st.mThread <;>
      simp [RtlSdrSource.StopAsync, ha, ht]
  · intro st ha
    simp [RtlSdrSource.StartAsync, RtlSdrSource.StopAsync, ha]
  · intro async devname r errstr calls
    have h := run_liveThreads calls (RtlSdrSource.create async devname r errstr)
    have h0 : (RtlSdrSource.create async devname r errstr).mThread = false := rfl
    rw [h0] at h
    simp only [Bool.false_eq_true, if_false, sub_zero] at h
    rw [h]
    refine ⟨rfl, ?_, ?_⟩ <;> split_ifs <;> norm_num

/-- Witness of C20: on an async source without a thread `StartAsync` returns
true and spawns; on a source that is not in async mode both calls return false. -/
theorem C20_single_capture_thread_witness :
    ((RtlSdrSource.create true (some "rtl") 0 "").StartAsync.1 = true ∧
      (RtlSdrSource.create true (some "rtl") 0 "").StartAsync.2.2 = [ThreadEvent.spawn] ∧
      (RtlSdrSource.create true (some "rtl") 0 "").StartAsync.2.1.mThread = true) ∧
    ((RtlSdrSource.create false (some "rtl") 0 "").mAsync = false ∧
      (RtlSdrSource.create false (some "rtl") 0 "").StartAsync.1 = false ∧
      (RtlSdrSource.create false (some "rtl") 0 "").StopAsync.1 = false) :=
  ⟨⟨by decide,
      (C20_single_capture_thread.1 (RtlSdrSource.create true (some "rtl") 0 "")).2.1 (by decide)⟩,
    by decide,
    C20_single_capture_thread.2.2.1 (RtlSdrSource.create false (some "rtl") 0 "") (by decide)⟩

/-! ## Lemmas and claims on `RawAudioOutput::write` -/

theorem take_drop_step (buf : List ℕ) (p k : ℕ) :
    (buf.drop p).take k ++ buf.drop (p + ((buf.drop p).take k).length) = buf.drop p := by
  have e : buf.drop (p + ((buf.drop p).take k).length) = (buf.drop p).drop k := by
    rw [List.length_take, List.drop_drop]
    by_cases hk : k ≤ (buf.drop p).length
    · rw [min_eq_left hk, Nat.add_comm]
    · have h1 : (buf.drop p).length ≤ k := by omega
      rw [min_eq_right h1, List.length_drop]
      rw [List.drop_eq_nil_of_le, List.drop_eq_nil_of_le]
      · rw [List.length_drop] at h1; omega
      · omega
  rw [e, List.take_append_drop]

/-- What a finished run of the write loop leaves. The byte ranges taken by
the operating system are non-empty and make up a prefix of the bytes from
offset `p` on; the run returns true exactly when no issued call gave a bad
result, and then the ranges make up all these bytes and no message is stored;
a run that returns false stores a message `write failed (...)`. -/
theorem writeLoop_spec (buf : List ℕ) (rs : List OsWrite) :
    ∀ (p : ℕ) (run : RawWriteRun), p ≤ buf.length →
      RawAudioOutput.writeLoop buf rs p = some run →
      (∀ w ∈ run.accepted, w ≠ []) ∧
      (∃ tail : List ℕ, run.accepted.flatten ++ tail = buf.drop p ∧
        (run.ret = true → tail = [])) ∧
      (run.ret = true → run.message = none ∧ ∀ r ∈ rs.take run.calls, r.bad = false) ∧
      (run.ret = false →
        (∃ errstr : String, run.message = some ("write failed (" ++ errstr ++ ")")) ∧
        ∃ r ∈ rs.take run.calls, r.bad = true) := by
  induction rs with
  | nil =>
    intro p run hp h
    simp only [RawAudioOutput.writeLoop] at h
    split_ifs at h with hlt
    simp only [Option.some.injEq] at h
    subst h
    have : buf.drop p = [] := List.drop_eq_nil_of_le (by omega)
    simp [this]
  | cons r rs ih =>
    intro p run hp h
    simp only [RawAudioOutput.writeLoop] at h
    by_cases hlt : p < buf.length
    · rw [if_pos hlt] at h
      cases r with
      | accepts k errstr =>
        simp only at h
        by_cases hw : ((buf.drop p).take k).length ≤ 0
        · rw [if_pos hw] at h
          simp only [Option.some.injEq] at h
          subst h
          have hk : k = 0 := by
            have hl : ((buf.drop p).take k).length = min k (buf.drop p).length :=
              List.length_take _ _
            rw [List.length_drop] at hl
            omega
          refine ⟨by simp, ⟨buf.drop p, by simp, by simp⟩, by simp, ?_⟩
          intro _
          exact ⟨⟨errstr, rfl⟩, OsWrite.accepts k errstr, by simp, by simp [OsWrite.bad, hk]⟩
        · rw [if_neg hw] at h
          have hk : k ≠ 0 := by
            intro hk
            apply hw
            simp [hk]
          have hp2 : p + ((buf.drop p).take k).length ≤ buf.length := by
            have hl : ((buf.drop p).take k).length ≤ (buf.drop p).length :=
              List.length_take_le' _ _
            rw [List.length_drop] at hl
            omega
          cases hrec : RawAudioOutput.writeLoop buf rs (p + ((buf.drop p).take k).length) with
          | none => rw [hrec] at h; simp at h
          | some run1 =>
            rw [hrec] at h
            simp only [Option.map_some', Option.some.injEq] at h
            subst h
            obtain ⟨a1, ⟨tail, a2, a3⟩, a4, a5⟩ := ih _ run1 hp2 hrec
            refine ⟨?_, ⟨tail, ?_, a3⟩, ?_, ?_⟩
            · intro w hwm
              simp only [List.mem_cons] at hwm
              rcases hwm with e | e
              · rw [e]; intro hnil; apply hw; rw [hnil]; simp
              · exact a1 w e
            · simp only [List.flatten_cons, List.append_assoc]
              rw [a2, take_drop_step]
            · intro ht
              refine ⟨(a4 ht).1, ?_⟩
              intro r hr
              simp only [List.take_succ_cons, List.mem_cons] at hr
              rcases hr with e | e
              · rw [e]; simp [OsWrite.bad, hk]
              · exact (a4 ht).2 r e
            · intro hf
              obtain ⟨m, r, hr, hb⟩ := a5 hf
              exact ⟨m, r, by simp only [List.take_succ_cons, List.mem_cons]; exact Or.inr hr, hb⟩
      | fails eintr errstr =>
        simp only at h
        cases eintr with
        | false =>
          simp only [Bool.not_false, if_true, Option.some.injEq] at h
          subst h
          refine ⟨by simp, ⟨buf.drop p, by simp, by simp⟩, by simp, ?_⟩
          intro _
          exact ⟨⟨errstr, rfl⟩, OsWrite.fails false errstr, by simp, by simp [OsWrite.bad]⟩
        | true =>
          simp only [Bool.not_true, Bool.false_eq_true, if_false] at h
          cases hrec : RawAudioOutput.writeLoop buf rs p with
          | none => rw [hrec] at h; simp at h
          | some run1 =>
            rw [hrec] at h
            simp only [Option.map_some', Option.some.injEq] at h
            subst h
            obtain ⟨a1, ⟨tail, a2, a3⟩, a4, a5⟩ := ih _ run1 hp hrec
            refine ⟨a1, ⟨tail, a2, a3⟩, ?_, ?_⟩
            · intro ht
              refine ⟨(a4 ht).1, ?_⟩
              intro r hr
              simp only [List.take_succ_cons, List.mem_cons] at hr
              rcases hr with e | e
              · rw [e]; simp [OsWrite.bad]
              · exact (a4 ht).2 r e
            · intro hf
              obtain ⟨m, r, hr, hb⟩ := a5 hf
              exact ⟨m, r, by simp only [List.take_succ_cons, List.mem_cons]; exact Or.inr hr, hb⟩
    · rw [if_neg hlt] at h
      simp only [Option.some.injEq] at h
      subst h
      have : buf.drop p = [] := List.drop_eq_nil_of_le (by omega)
      simp [this]

/-- The write loop returns when the listed results hold, apart from the
`EINTR` results, at least as many results as bytes are left to write. -/
theorem writeLoop_returns (buf : List ℕ) (rs : List OsWrite) :
    ∀ p : ℕ, buf.length - p ≤ (rs.filter (fun r => !r.retry)).length →
      (RawAudioOutput.writeLoop buf rs p).isSome = true := by
  induction rs with
  | nil =>
    intro p h
    simp only [List.filter_nil, List.length_nil, Nat.le_zero] at h
    simp only [RawAudioOutput.writeLoop]
    rw [if_neg (by omega)]
    rfl
  | cons r rs ih =>
    intro p h
    simp only [RawAudioOutput.writeLoop]
    by_cases hlt : p < buf.length
    · rw [if_pos hlt]
      cases r with
      | accepts k errstr =>
        simp only
        by_cases hw : ((buf.drop p).take k).length ≤ 0
        · rw [if_pos hw]; rfl
        · rw [if_neg hw, Option.isSome_map']
          apply ih
          rw [List.filter_cons_of_pos (by simp [OsWrite.retry]), List.length_cons] at h
          omega
      | fails eintr errstr =>
        simp only
        cases eintr with
        | false => rfl
        | true =>
          simp only [Bool.not_true, Bool.false_eq_true, if_false]
          rw [Option.isSome_map']
          apply ih
          rw [List.filter_cons_of_neg (by simp [OsWrite.retry])] at h
          exact h
    · rw [if_neg hlt]; rfl

theorem sampleToLong_zero : sampleToLong 0 = 0 := by
  have h1 : stdMax (-1) (stdMin 1 0) = 0 := by
    unfold stdMax stdMin
    norm_num
  have h2 : lrint (0 : ℚ) = 0 := by
    have := lrint_intCast 0
    simpa using this
  unfold sampleToLong
  simp only [h1, f32Mul, f32Round, zero_mul, zero_div, h2, Int.cast_zero]

theorem samplesToInt16_zero (bytes : List ℕ) :
    samplesToInt16 [(0 : Sample)] bytes = [0, 0] := by
  rw [samplesToInt16_eq]
  simp only [List.flatMap_cons, List.flatMap_nil, List.append_nil, encodeSample,
    sampleToLong_zero]
  rfl

theorem raw_write_dead (o : RawAudioOutput) (samples : List Sample) (rs : List OsWrite)
    (h : o.m_fd < 0) :
    o.write samples rs = some ({ ret := false, message := none, accepted := [], calls := 0 }, o) := by
  unfold RawAudioOutput.write
  rw [if_pos h]

theorem raw_write_live (o : RawAudioOutput) (samples : List Sample) (rs : List OsWrite)
    (h : 0 ≤ o.m_fd) :
    o.write samples rs =
      (RawAudioOutput.writeLoop (samplesToInt16 samples o.m_bytebuf) rs 0).map
        (fun run => (run, { o with m_bytebuf := samplesToInt16 samples o.m_bytebuf,
                                   m_error := run.message.getD o.m_error })) := by
  unfold RawAudioOutput.write
  rw [if_neg (by omega)]

/-- C17 (amended). For a call `RawAudioOutput::write(samples)` that returns on
the operating system results `rs`: the byte ranges taken by the system are
non-empty and make up, in order, a prefix of the S16LE encoding of the
samples; when the call returns true they make up the whole encoding of
`2 * samples.length` bytes and the error text is untouched. The call returns
false exactly when the file descriptor is invalid or one of the issued
`::write` calls returns 0 or fails with an `errno` other than `EINTR`; with a
valid descriptor it then stores a message `write failed (...)`, with an
invalid descriptor it makes no system call and leaves the object, its error
text included, unchanged. The call returns whenever the results hold, apart
from `EINTR` results, as many results as there are bytes to write. -/
theorem C17_raw_write_complete (o : RawAudioOutput) (samples : List Sample)
    (rs : List OsWrite) (run : RawWriteRun) (o1 : RawAudioOutput)
    (h : o.write samples rs = some (run, o1)) :
    (∀ w ∈ run.accepted, w ≠ []) ∧
    (∃ tail : List ℕ, run.accepted.flatten ++ tail = samplesToInt16 samples o.m_bytebuf) ∧
    (run.ret = true →
      run.accepted.flatten = samplesToInt16 samples o.m_bytebuf ∧
      run.accepted.flatten.length = 2 * samples.length ∧
      o1.m_error = o.m_error) ∧
    (run.ret = false ↔ (o.m_fd < 0 ∨ ∃ r ∈ rs.take run.calls, r.bad = true)) ∧
    (run.ret = false → 0 ≤ o.m_fd →
      ∃ errstr : String, o1.m_error = "write failed (" ++ errstr ++ ")") ∧
    (o.m_fd < 0 → run.ret = false ∧ run.calls = 0 ∧ o1 = o) ∧
    (∀ rs1 : List OsWrite, 2 * samples.length ≤ (rs1.filter (fun r => !r.retry)).length →
      (o.write samples rs1).isSome = true) := by
  have hprog : ∀ rs1 : List OsWrite,
      2 * samples.length ≤ (rs1.filter (fun r => !r.retry)).length →
      (o.write samples rs1).isSome = true := by
    intro rs1 hrs1
    by_cases hfd : o.m_fd < 0
    · rw [raw_write_dead o samples rs1 hfd]; rfl
    · rw [raw_write_live o samples rs1 (by omega), Option.isSome_map']
      apply writeLoop_returns
      rw [length_samplesToInt16]
      omega
  by_cases hfd : o.m_fd < 0
  · rw [raw_write_dead o samples rs hfd] at h
    simp only [Option.some.injEq, Prod.mk.injEq] at h
    obtain ⟨h1, h2⟩ := h
    subst h1
    subst h2
    refine ⟨by simp, ⟨_, List.nil_append _⟩, by simp, ?_, ?_, ?_, hprog⟩
    · simp [hfd]
    · intro _ h0; omega
    · intro _; exact ⟨rfl, rfl, rfl⟩
  · have hfd0 : 0 ≤ o.m_fd := by omega
    rw [raw_write_live o samples rs hfd0] at h
    cases hl : RawAudioOutput.writeLoop (samplesToInt16 samples o.m_bytebuf) rs 0 with
    | none => rw [hl] at h; simp at h
    | some run1 =>
      rw [hl] at h
      simp only [Option.map_some', Option.some.injEq, Prod.mk.injEq] at h
      obtain ⟨h1, h2⟩ := h
      subst h1
      obtain ⟨a1, ⟨tail, a2, a3⟩, a4, a5⟩ :=
        writeLoop_spec _ rs 0 run1 (Nat.zero_le _) hl
      rw [List.drop_zero] at a2
      refine ⟨a1, ⟨tail, a2⟩, ?_, ?_, ?_, ?_, hprog⟩
      · intro ht
        have e : run1.accepted.flatten = samplesToInt16 samples o.m_bytebuf := by
          rw [← a2, a3 ht, List.append_nil]
        refine ⟨e, by rw [e, length_samplesToInt16], ?_⟩
        rw [← h2]
        simp only [(a4 ht).1, Option.getD_none]
      · constructor
        · intro hf
          exact Or.inr (a5 hf).2
        · intro hor
          rcases hor with hneg | ⟨r, hr, hb⟩
          · exact absurd hneg hfd
          · cases hret : run1.ret with
            | false => rfl
            | true =>
              have := (a4 hret).2 r hr
              rw [hb] at this
              exact absurd this (by decide)
      · intro hf _
        obtain ⟨⟨errstr, hm⟩, _⟩ := a5 hf
        refine ⟨errstr, ?_⟩
        rw [← h2]
        simp only [hm, Option.getD_some]
      · intro hneg; exact absurd hneg hfd

/-- C17, an instance: a short write of one byte, an `EINTR` result and a
write of the remaining byte; the call returns true and the two ranges make up
the encoding of the sample. -/
theorem C17_raw_write_complete_witness :
    (RawAudioOutput.create "out.raw" 3 "").write [(0 : Sample)]
        [OsWrite.accepts 1 "", OsWrite.fails true "EINTR", OsWrite.accepts 5 ""] =
      some ({ ret := true, message := none, accepted := [[0], [0]], calls := 3 },
            { m_error := "", m_zombie := false, m_fd := 3, m_bytebuf := [0, 0] }) ∧
    [[0], [0]].flatten =
      samplesToInt16 [(0 : Sample)] (RawAudioOutput.create "out.raw" 3 "").m_bytebuf := by
  have hyp : (RawAudioOutput.create "out.raw" 3 "").write [(0 : Sample)]
        [OsWrite.accepts 1 "", OsWrite.fails true "EINTR", OsWrite.accepts 5 ""] =
      some ({ ret := true, message := none, accepted := [[0], [0]], calls := 3 },
            { m_error := "", m_zombie := false, m_fd := 3, m_bytebuf := [0, 0] }) := by
    rw [raw_write_live _ _ _ (by decide), samplesToInt16_zero]
    rfl
  exact ⟨hyp, ((C17_raw_write_complete _ _ _ _ _ hyp).2.2.1 rfl).1⟩

/-- C17, counterexample to "returns false with an error message ... when the
file descriptor is invalid": a raw sink whose `open` failed, after one call of
`error()`, returns false from `write` and holds no error message. -/
theorem C17_counterexample :
    ((RawAudioOutput.create "out.raw" (-1) "No such file or directory").error.2).m_fd < 0 ∧
    (((RawAudioOutput.create "out.raw" (-1) "No such file or directory").error.2).write
        [(0 : Sample)] []).map (fun x => (x.1.ret, x.1.calls, x.2.m_error)) =
      some (false, 0, "") := by
  constructor
  · decide
  · rw [raw_write_dead _ _ _ (by decide)]
    rfl

/-! ## Claims on the zombie flag and on `error()` of the audio sinks -/

theorem wav_call_zombie (o : WavAudioOutput) (c : WavCall) (h : o.m_zombie = true) :
    wavDeadAnswer c (o.call c).1 ∧ (o.call c).2.m_zombie = true := by
  cases c with
  | write samples k errstr =>
    simp only [WavAudioOutput.call, WavAudioOutput.write, h, if_true, wavDeadAnswer, and_self]
  | error =>
    simp only [WavAudioOutput.call, WavAudioOutput.error, wavDeadAnswer, true_and]
    exact h
  | operatorBool =>
    simp only [WavAudioOutput.call, WavAudioOutput.operatorBool, AudioOutput.operatorBool,
      WavAudioOutput.base, h, wavDeadAnswer, Bool.not_true, Bool.false_and, and_self]

theorem wav_run_zombie (calls : List WavCall) :
    ∀ o : WavAudioOutput, o.m_zombie = true →
      List.Forall₂ wavDeadAnswer calls (o.run calls).1 ∧ (o.run calls).2.m_zombie = true := by
  induction calls with
  | nil => intro o h; exact ⟨List.Forall₂.nil, h⟩
  | cons c cs ih =>
    intro o h
    obtain ⟨h1, h2⟩ := wav_call_zombie o c h
    obtain ⟨h3, h4⟩ := ih _ h2
    exact ⟨List.Forall₂.cons h1 h3, h4⟩

theorem raw_call_zombie (o : RawAudioOutput) (c : RawCall) (h : o.m_zombie = true)
    (hfd : o.m_fd < 0) :
    ∃ x : CallResult × RawAudioOutput, o.call c = some x ∧ rawDeadAnswer c x.1 ∧
      x.2.m_zombie = true ∧ x.2.m_fd < 0 := by
  cases c with
  | write samples rs =>
    refine ⟨(CallResult.flag false, o), ?_, rfl, h, hfd⟩
    simp only [RawAudioOutput.call, raw_write_dead o samples rs hfd, Option.map_some']
  | error => exact ⟨_, rfl, trivial, h, hfd⟩
  | operatorBool =>
    refine ⟨_, rfl, ?_, h, hfd⟩
    simp only [RawAudioOutput.operatorBool, AudioOutput.operatorBool, RawAudioOutput.base, h,
      rawDeadAnswer, Bool.not_true, Bool.false_and]

theorem raw_run_zombie (calls : List RawCall) :
    ∀ o : RawAudioOutput, o.m_zombie = true → o.m_fd < 0 →
      List.Forall₂ rawDeadAnswer calls (o.run calls).1 ∧ (o.run calls).2.m_zombie = true := by
  induction calls with
  | nil => intro o h _; exact ⟨List.Forall₂.nil, h⟩
  | cons c cs ih =>
    intro o h hfd
    obtain ⟨x, hx, h1, h2, h3⟩ := raw_call_zombie o c h hfd
    obtain ⟨h4, h5⟩ := ih _ h2 h3
    simp only [RawAudioOutput.run, hx]
    exact ⟨List.Forall₂.cons h1 h4, h5⟩

theorem wav_create_zombie (filename : String) (samplerate : ℕ) (stereo opened : Bool)
    (errstr : String) (k : ℕ) :
    (WavAudioOutput.create filename samplerate stereo opened errstr k).m_zombie = true ↔
      (opened = false ∨ k < 44) := by
  cases opened with
  | false => simp [WavAudioOutput.create]
  | true =>
    have hl : (wavHeader (if stereo = true then 2 else 1) samplerate 0x7fff0000).length = 44 :=
      length_wavHeader _ _ _
    simp only [WavAudioOutput.create, WavAudioOutput.write_header, WavAudioOutput.headerBytes,
      fwrite, if_true, Option.isNone_some, Bool.false_eq_true, if_false, List.length_take, hl]
    by_cases hk : k < 44
    · have e : (min k 44 == 44) = false := by
        rw [min_eq_left (by omega)]; simp; omega
      simp [e, hk]
    · have e : (min k 44 == 44) = true := by
        rw [min_eq_right (by omega)]; rfl
      simp [e, hk]

theorem raw_create_zombie (filename : String) (fd : ℤ) (errstr : String) :
    ((RawAudioOutput.create filename fd errstr).m_zombie = true ↔ (filename ≠ "-" ∧ fd < 0)) ∧
    ((RawAudioOutput.create filename fd errstr).m_zombie = true →
      (RawAudioOutput.create filename fd errstr).m_fd < 0) := by
  unfold RawAudioOutput.create
  by_cases h1 : filename = "-"
  · simp [h1]
  · by_cases h2 : fd < 0
    · simp [h1, h2]
    · simp [h1, h2]

/-- C15. The zombie flag of an audio sink is set by the constructor exactly on
an open failure (`RawAudioOutput`, `WavAudioOutput`) or on a failure of the
initial header write (`WavAudioOutput`), and once set it stays set: in every
later sequence of `write()`, `error()` and health probe calls every `write()`
returns false, every probe returns false, and the flag is still set at the end. -/
theorem C15_zombie_is_permanent :
    (∀ (filename : String) (samplerate : ℕ) (stereo opened : Bool) (errstr : String) (k : ℕ),
      ((WavAudioOutput.create filename samplerate stereo opened errstr k).m_zombie = true ↔
        (opened = false ∨ k < 44))) ∧
    (∀ (o : WavAudioOutput) (calls : List WavCall), o.m_zombie = true →
      List.Forall₂ wavDeadAnswer calls (o.run calls).1 ∧ (o.run calls).2.m_zombie = true) ∧
    (∀ (filename : String) (fd : ℤ) (errstr : String),
      ((RawAudioOutput.create filename fd errstr).m_zombie = true ↔
        (filename ≠ "-" ∧ fd < 0))) ∧
    (∀ (filename : String) (fd : ℤ) (errstr : String) (calls : List RawCall),
      (RawAudioOutput.create filename fd errstr).m_zombie = true →
      List.Forall₂ rawDeadAnswer calls
          ((RawAudioOutput.create filename fd errstr).run calls).1 ∧
        ((RawAudioOutput.create filename fd errstr).run calls).2.m_zombie = true) :=
  ⟨wav_create_zombie, fun o calls h => wav_run_zombie calls o h,
    fun filename fd errstr => (raw_create_zombie filename fd errstr).1,
    fun filename fd errstr calls h =>
      raw_run_zombie calls _ h ((raw_create_zombie filename fd errstr).2 h)⟩

/-- C15, an instance: a raw sink whose `open` fails answers false to a
write, to the probe, and to both again after `error()`. -/
theorem C15_zombie_is_permanent_witness :
    (RawAudioOutput.create "out.raw" (-1) "Permission denied").m_zombie = true ∧
    List.Forall₂ rawDeadAnswer
      [RawCall.write [(0 : Sample)] [OsWrite.accepts 2 ""], RawCall.operatorBool,
        RawCall.error, RawCall.operatorBool, RawCall.write [(0 : Sample)] [OsWrite.accepts 2 ""]]
      ((RawAudioOutput.create "out.raw" (-1) "Permission denied").run
        [RawCall.write [(0 : Sample)] [OsWrite.accepts 2 ""], RawCall.operatorBool,
          RawCall.error, RawCall.operatorBool,
          RawCall.write [(0 : Sample)] [OsWrite.accepts 2 ""]]).1 :=
  ⟨by decide, (C15_zombie_is_permanent.2.2.2 "out.raw" (-1) "Permission denied" _ (by decide)).1⟩

/-- C16. `AudioOutput::error()` returns the stored error text (the empty
string when none is stored) and clears it, leaving the zombie flag alone, so
that an immediately following `error()` returns the empty string; the same
holds for the call on a `WavAudioOutput` and on a `RawAudioOutput`, whose
other members are left unchanged. -/
theorem C16_error_returns_and_clears :
    (∀ a : AudioOutput, a.error.1 = a.m_error ∧ a.error.2.m_error = "" ∧
      a.error.2.m_zombie = a.m_zombie ∧ a.error.2.error.1 = "" ∧
      a.error.2.error.2 = a.error.2) ∧
    (∀ o : WavAudioOutput, o.error.1 = o.m_error ∧ o.error.2 = { o with m_error := "" } ∧
      o.error.2.error.1 = "") ∧
    (∀ o : RawAudioOutput, o.error.1 = o.m_error ∧ o.error.2 = { o with m_error := "" } ∧
      o.error.2.error.1 = "") :=
  ⟨fun _ => ⟨rfl, rfl, rfl, rfl, rfl⟩, fun _ => ⟨rfl, rfl, rfl⟩, fun _ => ⟨rfl, rfl, rfl⟩⟩

/-! ## Claims on `DongleCallback` -/

theorem fillBlock_eq (buf : List ℕ) :
    ∀ (n i : ℕ) (samples : List IQSample), 2 * (i + n) ≤ buf.length → i + n ≤ samples.length →
      RtlSdrSource.fillBlock buf n i samples =
        some ((List.range' i n).foldl (fun w j => w.set j (iqFromBytes buf j)) samples) := by
  intro n
  induction n with
  | zero => intro i samples _ _; rfl
  | succ n ih =>
    intro i samples h1 h2
    simp only [RtlSdrSource.fillBlock]
    rw [if_pos ⟨by omega, by omega⟩, ih (i + 1) _ (by omega) (by rw [List.length_set]; omega)]
    rfl

theorem fillBlock_ok (buf : List ℕ) (n : ℕ) (samples : List IQSample)
    (h1 : 2 * n ≤ buf.length) (h2 : n ≤ samples.length) :
    RtlSdrSource.fillBlock buf n 0 samples =
      some ((List.range n).map (iqFromBytes buf) ++ samples.drop n) := by
  rw [fillBlock_eq buf n 0 samples (by omega) (by omega), ← List.range_eq_range',
    foldl_set_range _ _ _ h2]

/-- C18. `DongleCallback` is a straight run through its body. When
`GetBlockToWrite()` yields no slot it records the warning, writes no block
and publishes nothing (`UpdateWriteState` is not called); when it yields a
slot that holds `len / 2` samples, and `buf` holds `len` bytes, it publishes
exactly one block, whose first `len / 2` cells are the converted samples and
whose other members are as before. In both cases `NEW_DATA` is emitted
exactly once, as the last step. -/
theorem C18_callback_drops_or_publishes (buf : List ℕ) (len : ℕ) :
    RtlSdrSource.DongleCallback none buf len =
      some [CallbackEvent.SDEB "+", CallbackEvent.GetBlockToWrite,
        CallbackEvent.SWAR "SampleBuffer is full", CallbackEvent.NEW_DATA_Emit] ∧
    (RtlSdrSource.DongleCallback none buf len).map publishedBlocks = some [] ∧
    (RtlSdrSource.DongleCallback none buf len).map warnings = some ["SampleBuffer is full"] ∧
    (RtlSdrSource.DongleCallback none buf len).map emissions = some 1 ∧
    (∀ block : SampleBufferBlock, len ≤ buf.length → len / 2 ≤ block.samples.length →
      RtlSdrSource.DongleCallback (some block) buf len =
        some [CallbackEvent.SDEB "+", CallbackEvent.GetBlockToWrite,
          CallbackEvent.UpdateWriteState
            { block with samples :=
                (List.range (len / 2)).map (iqFromBytes buf) ++ block.samples.drop (len / 2) },
          CallbackEvent.NEW_DATA_Emit] ∧
      (RtlSdrSource.DongleCallback (some block) buf len).map publishedBlocks =
        some [{ block with samples :=
                (List.range (len / 2)).map (iqFromBytes buf) ++ block.samples.drop (len / 2) }] ∧
      (RtlSdrSource.DongleCallback (some block) buf len).map warnings = some [] ∧
      (RtlSdrSource.DongleCallback (some block) buf len).map emissions = some 1) := by
  refine ⟨rfl, rfl, rfl, rfl, ?_⟩
  intro block h1 h2
  have e : RtlSdrSource.DongleCallback (some block) buf len =
      some [CallbackEvent.SDEB "+", CallbackEvent.GetBlockToWrite,
        CallbackEvent.UpdateWriteState
          { block with samples :=
              (List.range (len / 2)).map (iqFromBytes buf) ++ block.samples.drop (len / 2) },
        CallbackEvent.NEW_DATA_Emit] := by
    simp only [RtlSdrSource.DongleCallback]
    rw [fillBlock_ok buf (len / 2) block.samples (by omega) h2]
    rfl
  rw [e]
  exact ⟨rfl, rfl, rfl, rfl⟩

/-- C18, an instance: four bytes into a free slot of three cells. -/
theorem C18_callback_drops_or_publishes_witness :
    (RtlSdrSource.DongleCallback
        (some { samples := [⟨0, 0⟩, ⟨0, 0⟩, ⟨1, 1⟩], size := 0 }) [128, 255, 0, 128] 4).map
      publishedBlocks =
      some [{ ({ samples := [⟨0, 0⟩, ⟨0, 0⟩, ⟨1, 1⟩], size := 0 } : SampleBufferBlock) with
              samples := (List.range (4 / 2)).map (iqFromBytes [128, 255, 0, 128]) ++
                ({ samples := [⟨0, 0⟩, ⟨0, 0⟩, ⟨1, 1⟩], size := 0 } :
                  SampleBufferBlock).samples.drop (4 / 2) }] :=
  ((C18_callback_drops_or_publishes [128, 255, 0, 128] 4).2.2.2.2
    { samples := [⟨0, 0⟩, ⟨0, 0⟩, ⟨1, 1⟩], size := 0 } (by decide) (by decide)).2.1

/-! ## Claims on `DataBuffer` -/

theorem push_empty {α : Type} (b : DataBuffer α) : b.push [] = b := rfl

theorem push_queue {α : Type} (b : DataBuffer α) (samples : List α) :
    (b.push samples).m_queue =
      if samples.isEmpty then b.m_queue else b.m_queue ++ [samples] := by
  unfold DataBuffer.push
  cases samples <;> rfl

theorem pull_front {α : Type} (b : DataBuffer α) (front : List α) (rest : List (List α))
    (h : b.m_queue = front :: rest) :
    ∃ b1 : DataBuffer α, b.pull = some (front, b1) ∧ b1.m_queue = rest ∧
      b1.m_end_marked = b.m_end_marked := by
  unfold DataBuffer.pull
  rw [h]
  exact ⟨_, rfl, rfl, rfl⟩

/-- From any state, a sequence of calls whose `pull` calls all find a
non-empty queue returns the blocks of the queue followed by the non-empty
pushed blocks, in order, one per `pull`. -/
theorem run_fifo {α : Type} (ops : List (BufferOp α)) :
    ∀ b : DataBuffer α, b.pullsOnNonEmpty ops = true →
      (b.run ops).1 = (b.m_queue ++ pushedNonEmpty ops).take (pullCount ops) := by
  induction ops with
  | nil => intro b _; simp [DataBuffer.run, pullCount]
  | cons op ops ih =>
    intro b h
    cases op with
    | push samples =>
      simp only [DataBuffer.pullsOnNonEmpty] at h
      simp only [DataBuffer.run, pushedNonEmpty, pullCount]
      rw [ih _ h, push_queue]
      cases hs : samples.isEmpty <;> simp
    | push_end =>
      simp only [DataBuffer.pullsOnNonEmpty] at h
      simp only [DataBuffer.run, pushedNonEmpty, pullCount]
      rw [ih _ h]
      rfl
    | pull =>
      simp only [DataBuffer.pullsOnNonEmpty, Bool.and_eq_true] at h
      obtain ⟨hq, hrest⟩ := h
      cases hqueue : b.m_queue with
      | nil => rw [hqueue] at hq; simp at hq
      | cons front rest =>
        obtain ⟨b1, hp, hb1, _⟩ := pull_front b front rest hqueue
        rw [hp] at hrest
        simp only [DataBuffer.run, hp, pushedNonEmpty, pullCount]
        rw [ih b1 hrest, hb1]
        rfl

/-- Every `pull` of a sequence of calls returns when each is made on a
non-empty queue. -/
theorem run_length {α : Type} (ops : List (BufferOp α)) :
    ∀ b : DataBuffer α, b.pullsOnNonEmpty ops = true →
      (b.run ops).1.length = pullCount ops := by
  induction ops with
  | nil => intro b _; rfl
  | cons op ops ih =>
    intro b h
    cases op with
    | push samples =>
      simp only [DataBuffer.pullsOnNonEmpty] at h
      simp only [DataBuffer.run, pullCount]
      exact ih _ h
    | push_end =>
      simp only [DataBuffer.pullsOnNonEmpty] at h
      simp only [DataBuffer.run, pullCount]
      exact ih _ h
    | pull =>
      simp only [DataBuffer.pullsOnNonEmpty, Bool.and_eq_true] at h
      obtain ⟨hq, hrest⟩ := h
      cases hqueue : b.m_queue with
      | nil => rw [hqueue] at hq; simp at hq
      | cons front rest =>
        obtain ⟨b1, hp, hb1, _⟩ := pull_front b front rest hqueue
        rw [hp] at hrest
        simp only [DataBuffer.run, hp, pullCount, List.length_cons]
        rw [ih b1 hrest]

/-- Every block in the queue is non-empty, after any sequence of calls from a
state in which this holds. -/
theorem run_queue_nonempty {α : Type} (ops : List (BufferOp α)) :
    ∀ b : DataBuffer α, (∀ s ∈ b.m_queue, s ≠ []) → ∀ s ∈ (b.run ops).2.m_queue, s ≠ [] := by
  induction ops with
  | nil => intro b h; exact h
  | cons op ops ih =>
    intro b h
    cases op with
    | push samples =>
      simp only [DataBuffer.run]
      apply ih
      rw [push_queue]
      cases samples with
      | nil => exact h
      | cons x xs =>
        intro s hs
        simp only [List.isEmpty_cons, Bool.false_eq_true, if_false, List.mem_append,
          List.mem_singleton] at hs
        rcases hs with hs | hs
        · exact h s hs
        · rw [hs]; exact List.cons_ne_nil _ _
    | push_end =>
      simp only [DataBuffer.run]
      exact ih _ h
    | pull =>
      simp only [DataBuffer.run]
      cases hqueue : b.m_queue with
      | nil =>
        cases hp : b.pull with
        | none => simp only; exact h
        | some x =>
          simp only
          apply ih
          have hx : x.2 = b := by
            unfold DataBuffer.pull at hp
            rw [hqueue] at hp
            split_ifs at hp
            simp only [Option.some.injEq] at hp
            rw [← hp]
          rw [hx]
          exact h
      | cons front rest =>
        obtain ⟨b1, hp, hb1, _⟩ := pull_front b front rest hqueue
        rw [hp]
        simp only
        apply ih
        rw [hb1]
        intro s hs
        exact h s (by rw [hqueue]; exact List.mem_cons_of_mem _ hs)

theorem pull_empty_result {α : Type} (b : DataBuffer α) (b1 : DataBuffer α)
    (hq : ∀ s ∈ b.m_queue, s ≠ []) (h : b.pull = some ([], b1)) :
    b.m_queue = [] ∧ b.m_end_marked = true ∧ b1 = b := by
  cases hqueue : b.m_queue with
  | nil =>
    unfold DataBuffer.pull at h
    rw [hqueue] at h
    cases he : b.m_end_marked with
    | false => rw [he] at h; simp at h
    | true =>
      rw [he] at h
      simp only [List.isEmpty_nil, Bool.not_true, Bool.and_false, Bool.false_eq_true, if_false,
        Option.some.injEq, Prod.mk.injEq, true_and] at h
      exact ⟨rfl, rfl, h.symm⟩
  | cons front rest =>
    obtain ⟨b2, hp, _, _⟩ := pull_front b front rest hqueue
    rw [hp] at h
    simp only [Option.some.injEq, Prod.mk.injEq] at h
    exact absurd h.1 (hq front (by rw [hqueue]; exact List.mem_cons_self _ _))

/-- C19. In a sequence of `push`, `push_end` and `pull` calls on a new
`DataBuffer` in which every `pull` is made when the queue is non-empty, every
`pull` returns, and the k-th `pull` returns the k-th non-empty pushed block.
Pushing an empty block leaves the buffer as it is. In a state reached by any
sequence of calls, a `pull` that returns an empty vector finds the queue empty
and the end marker set, and changes nothing. -/
theorem C19_pull_is_fifo {α : Type} (ops : List (BufferOp α))
    (h : (DataBuffer.create : DataBuffer α).pullsOnNonEmpty ops = true) :
    ((DataBuffer.create : DataBuffer α).run ops).1 =
        (pushedNonEmpty ops).take (pullCount ops) ∧
    ((DataBuffer.create : DataBuffer α).run ops).1.length = pullCount ops ∧
    (∀ k : ℕ, k < pullCount ops →
      ((DataBuffer.create : DataBuffer α).run ops).1[k]? = (pushedNonEmpty ops)[k]? ∧
      k < (pushedNonEmpty ops).length) ∧
    (∀ b : DataBuffer α, b.push [] = b) ∧
    (∀ (ops1 : List (BufferOp α)) (b1 : DataBuffer α),
      ((DataBuffer.create : DataBuffer α).run ops1).2.pull = some ([], b1) →
      ((DataBuffer.create : DataBuffer α).run ops1).2.m_queue = [] ∧
      ((DataBuffer.create : DataBuffer α).run ops1).2.m_end_marked = true ∧
      b1 = ((DataBuffer.create : DataBuffer α).run ops1).2) := by
  have e := run_fifo ops (DataBuffer.create : DataBuffer α) h
  have e1 : ((DataBuffer.create : DataBuffer α).run ops).1 =
      (pushedNonEmpty ops).take (pullCount ops) := by
    rw [e]; rfl
  have e2 := run_length ops (DataBuffer.create : DataBuffer α) h
  have e3 : pullCount ops ≤ (pushedNonEmpty ops).length := by
    rw [e1, List.length_take] at e2
    omega
  refine ⟨e1, e2, ?_, push_empty, ?_⟩
  · intro k hk
    refine ⟨?_, by omega⟩
    rw [e1, List.getElem?_take_of_lt hk]
  · intro ops1 b1 hp
    exact pull_empty_result _ b1
      (run_queue_nonempty ops1 DataBuffer.create (by intro s hs; simp [DataBuffer.create] at hs)) hp

/-- C19, an instance: two non-empty blocks and an empty one are pushed, the
two `pull` calls return the two non-empty blocks in order. -/
theorem C19_pull_is_fifo_witness :
    (DataBuffer.create : DataBuffer ℕ).pullsOnNonEmpty
        [BufferOp.push [1, 2], BufferOp.push [], BufferOp.pull, BufferOp.push [3],
          BufferOp.push_end, BufferOp.pull] = true ∧
    ((DataBuffer.create : DataBuffer ℕ).run
        [BufferOp.push [1, 2], BufferOp.push [], BufferOp.pull, BufferOp.push [3],
          BufferOp.push_end, BufferOp.pull]).1 =
      (pushedNonEmpty
        [BufferOp.push [1, 2], BufferOp.push [], BufferOp.pull, BufferOp.push [3],
          BufferOp.push_end, BufferOp.pull]).take
        (pullCount
          [BufferOp.push [1, 2], BufferOp.push [], BufferOp.pull, BufferOp.push [3],
            BufferOp.push_end, BufferOp.pull]) ∧
    (pushedNonEmpty
        [BufferOp.push [1, 2], BufferOp.push ([] : List ℕ), BufferOp.pull, BufferOp.push [3],
          BufferOp.push_end, BufferOp.pull]).take 2 = [[1, 2], [3]] :=
  ⟨by decide, (C19_pull_is_fifo _ (by decide)).1, by decide⟩

/-! ## Claims on the `AudioBuffer` overload of `samplesToInt16` and on `RtAudioOutput` -/

theorem samplesToInt16Push_eq (samples : List Sample) :
    samplesToInt16Push samples = samples.map encodeSample := by
  induction samples with
  | nil => rfl
  | cons s rest ih => simp only [samplesToInt16Push, ih, List.map_cons, encodeSample]

/-- C25. The bytes that the `AudioBuffer` overload of `samplesToInt16` pushes,
two per `PushFramesBytes` call and one call per sample, make up in call order
the byte vector that the `std::vector` overload leaves for the same samples,
whatever that vector held before. -/
theorem C25_push_overload_same_bytes (samples : List Sample) (bytes : List ℕ) :
    (samplesToInt16Push samples).flatten = samplesToInt16 samples bytes ∧
    (samplesToInt16Push samples).length = samples.length ∧
    (∀ w ∈ samplesToInt16Push samples, w.length = 2) := by
  rw [samplesToInt16Push_eq, samplesToInt16_eq]
  refine ⟨?_, by simp, ?_⟩
  · rw [List.flatMap_def]
  · intro w hw
    simp only [List.mem_map] at hw
    obtain ⟨s, _, hs⟩ := hw
    rw [← hs]
    rfl

/-- C22. `RtAudioOutput(samplerate, stereo)` constructs its audio buffer and
its player parameters with `static_cast<uint16_t>(samplerate)` and with 2
channels if `stereo`, else 1. The rate handed over is `samplerate` modulo
65536: it is the requested rate exactly when that is below 65536, and for the
requested rate 96000 it is 30464. -/
theorem C22_rtaudio_rate_truncated (samplerate : ℕ) (stereo : Bool) :
    (RtAudioOutput.create samplerate stereo).mAudioBuffer.sampleRate = samplerate % 65536 ∧
    (RtAudioOutput.create samplerate stereo).mParameters.sampleRate = samplerate % 65536 ∧
    (RtAudioOutput.create samplerate stereo).mAudioBuffer.channels = (if stereo then 2 else 1) ∧
    (RtAudioOutput.create samplerate stereo).mParameters.channels = (if stereo then 2 else 1) ∧
    ((RtAudioOutput.create samplerate stereo).mParameters.sampleRate = samplerate ↔
      samplerate < 65536) ∧
    (RtAudioOutput.create 96000 true).mParameters = { sampleRate := 30464, channels := 2 } ∧
    (RtAudioOutput.create 96000 true).mAudioBuffer = { sampleRate := 30464, channels := 2 } := by
  refine ⟨rfl, rfl, rfl, rfl, ?_, by decide, by decide⟩
  show samplerate % 2 ^ 16 = samplerate ↔ samplerate < 65536
  constructor
  · intro h; omega
  · intro h; omega

/-! ## Claims on the failure paths of `get_samples` -/

/-- C28. `get_samples` returns false exactly when there is no device, the
source was opened in async mode, the device read fails, or the read delivers
a number of bytes other than `2 * m_block_length`; the caller's sample vector
is then unchanged. On the success path the vector is resized to
`m_block_length` samples and every one of them is overwritten with the
converted bytes. -/
theorem C28_get_samples_failure_keeps_vector (st : RtlSdrSource) (r : ℤ) (dat : List ℕ)
    (samples : List IQSample) :
    ((st.get_samples r dat samples).1 = false ↔
      (st.m_dev = false ∨ st.mAsync = true ∨ r < 0 ∨
        (dat.length : ℤ) ≠ 2 * st.m_block_length)) ∧
    ((st.get_samples r dat samples).1 = false →
      (st.get_samples r dat samples).2.2 = samples) ∧
    ((st.get_samples r dat samples).1 = true →
      (st.get_samples r dat samples).2.2 =
        (List.range st.m_block_length.toNat).map (iqFromBytes dat)) := by
  unfold RtlSdrSource.get_samples
  by_cases h1 : st.m_dev = false
  · simp [h1]
  · by_cases h2 : st.mAsync = true
    · simp [h2]
    · have h1t : st.m_dev = true := by simpa using h1
      have h2f : st.mAsync = false := by simpa using h2
      by_cases h3 : r < 0
      · simp [h1t, h2f, h3]
      · by_cases h4 : (dat.length : ℤ) ≠ 2 * st.m_block_length
        · simp [h1t, h2f, h3, h4]
        · have h4e : (dat.length : ℤ) = 2 * st.m_block_length := by
            by_contra hc; exact h4 hc
          have hpad : (2 * st.m_block_length).toNat - dat.length = 0 := by omega
          simp only [h1t, h2f, h3, h4e, hpad, Bool.not_true, Bool.or_false, Bool.false_eq_true,
            if_false, ne_eq, not_true_eq_false, List.replicate_zero, List.append_nil]
          refine ⟨by simp, by simp, ?_⟩
          intro _
          rw [foldl_set_range _ _ _ (by rw [length_resize])]
          rw [List.drop_of_length_le (by rw [length_resize]), List.append_nil]
/-! ## Claims on the bookkeeping of `DataBuffer` -/

theorem toUnsignedLong_add_mod (m S len : ℕ) (h : m = S % 2 ^ 64) :
    toUnsignedLong ((m : ℤ) + (len : ℤ)) = (S + len) % 2 ^ 64 := by
  unfold toUnsignedLong
  have e : ((m : ℤ) + (len : ℤ)) % 2 ^ 64 = (((S + len) % 2 ^ 64 : ℕ) : ℤ) := by
    rw [h]; push_cast; omega
  rw [e, Int.toNat_natCast]

theorem toUnsignedLong_sub_mod (m R len : ℕ) (h : m = (len + R) % 2 ^ 64) :
    toUnsignedLong ((m : ℤ) - (len : ℤ)) = R % 2 ^ 64 := by
  unfold toUnsignedLong
  have e : ((m : ℤ) - (len : ℤ)) % 2 ^ 64 = ((R % 2 ^ 64 : ℕ) : ℤ) := by
    rw [h]; push_cast; omega
  rw [e, Int.toNat_natCast]

theorem push_qlen {α : Type} (b : DataBuffer α) (samples : List α)
    (h : b.m_qlen = queuedTotal b.m_queue % 2 ^ 64) :
    (b.push samples).m_qlen = queuedTotal (b.push samples).m_queue % 2 ^ 64 := by
  cases samples with
  | nil => exact h
  | cons x xs =>
    simp only [DataBuffer.push, List.isEmpty_cons, Bool.not_false, if_true]
    rw [toUnsignedLong_add_mod _ _ _ h]
    simp [queuedTotal]

theorem pull_qlen {α : Type} (b b1 : DataBuffer α) (ret : List α)
    (h : b.m_qlen = queuedTotal b.m_queue % 2 ^ 64) (hp : b.pull = some (ret, b1)) :
    b1.m_qlen = queuedTotal b1.m_queue % 2 ^ 64 := by
  unfold DataBuffer.pull at hp
  split_ifs at hp
  cases hq : b.m_queue with
  | nil =>
    rw [hq] at hp
    simp only [Option.some.injEq, Prod.mk.injEq] at hp
    rw [← hp.2]; exact h
  | cons front rest =>
    rw [hq] at hp h
    simp only [Option.some.injEq, Prod.mk.injEq] at hp
    rw [← hp.2]
    simp only
    apply toUnsignedLong_sub_mod
    rw [h]
    simp [queuedTotal]

/-- In every state reached by a sequence of calls, `m_qlen` is the number of
queued samples reduced modulo `2 ^ 64`. -/
theorem run_qlen {α : Type} (ops : List (BufferOp α)) :
    ∀ b : DataBuffer α, b.m_qlen = queuedTotal b.m_queue % 2 ^ 64 →
      (b.run ops).2.m_qlen = queuedTotal (b.run ops).2.m_queue % 2 ^ 64 := by
  induction ops with
  | nil => intro b h; exact h
  | cons op ops ih =>
    intro b h
    cases op with
    | push samples =>
      simp only [DataBuffer.run]
      exact ih _ (push_qlen b samples h)
    | push_end =>
      simp only [DataBuffer.run]
      exact ih _ h
    | pull =>
      simp only [DataBuffer.run]
      cases hp : b.pull with
      | none => exact h
      | some x =>
        simp only
        exact ih _ (pull_qlen b x.2 x.1 h hp)

theorem queuedTotal_eq_zero {α : Type} (queue : List (List α)) (h : ∀ s ∈ queue, s ≠ []) :
    queuedTotal queue = 0 ↔ queue = [] := by
  cases queue with
  | nil => simp [queuedTotal]
  | cons front rest =>
    have hf : front ≠ [] := h front (List.mem_cons_self _ _)
    have hl : 0 < front.length := List.length_pos.mpr hf
    simp only [queuedTotal, List.map_cons, List.sum_cons]
    constructor
    · intro h0; omega
    · intro h0; exact absurd h0 (List.cons_ne_nil _ _)

/-- The end marker is set in the state reached by a sequence of calls exactly
when it was set before or one of the calls that returned is `push_end()`. -/
theorem run_end_marked {α : Type} (ops : List (BufferOp α)) :
    ∀ b : DataBuffer α,
      (b.run ops).2.m_end_marked =
        (b.m_end_marked || (b.performed ops).any BufferOp.isPushEnd) := by
  induction ops with
  | nil => intro b; simp [DataBuffer.run, DataBuffer.performed]
  | cons op ops ih =>
    intro b
    cases op with
    | push samples =>
      simp only [DataBuffer.run, DataBuffer.performed, List.any_cons, BufferOp.isPushEnd,
        Bool.false_or]
      rw [ih]
      cases samples <;> rfl
    | push_end =>
      simp only [DataBuffer.run, DataBuffer.performed, List.any_cons, BufferOp.isPushEnd,
        Bool.true_or, Bool.or_true]
      rw [ih]
      rfl
    | pull =>
      simp only [DataBuffer.run, DataBuffer.performed]
      cases hp : b.pull with
      | none => simp
      | some x =>
        simp only [List.any_cons, BufferOp.isPushEnd, Bool.false_or]
        rw [ih]
        have hx : x.2.m_end_marked = b.m_end_marked := by
          unfold DataBuffer.pull at hp
          split_ifs at hp
          cases hq : b.m_queue with
          | nil =>
            rw [hq] at hp
            simp only [Option.some.injEq] at hp
            rw [← hp]
          | cons front rest =>
            rw [hq] at hp
            simp only [Option.some.injEq] at hp
            rw [← hp]
        rw [hx]

/-- A `push_end()` call returns, and no `pull` waits after it: when the calls
of a sequence hold a `push_end()` before any `pull` that waits, all of them
return. -/
theorem performed_after_end {α : Type} (ops : List (BufferOp α)) :
    ∀ b : DataBuffer α, b.m_end_marked = true → b.performed ops = ops := by
  induction ops with
  | nil => intro b _; rfl
  | cons op ops ih =>
    intro b h
    cases op with
    | push samples =>
      simp only [DataBuffer.performed]
      rw [ih _ (by cases samples <;> exact h)]
    | push_end =>
      simp only [DataBuffer.performed]
      rw [ih _ rfl]
    | pull =>
      simp only [DataBuffer.performed]
      cases hq : b.m_queue with
      | nil =>
        have hp : b.pull = some ([], b) := by
          unfold DataBuffer.pull
          rw [hq, h]
          rfl
        rw [hp]
        simp only
        rw [ih _ h]
      | cons front rest =>
        obtain ⟨b1, hp, _, he⟩ := pull_front b front rest hq
        rw [hp]
        simp only
        rw [ih _ (by rw [he]; exact h)]

/-- Once a `push_end()` call is among the calls that returned, every call of
the sequence returns. -/
theorem performed_of_end {α : Type} (ops : List (BufferOp α)) :
    ∀ b : DataBuffer α, (b.performed ops).any BufferOp.isPushEnd = true →
      b.performed ops = ops := by
  induction ops with
  | nil => intro b _; rfl
  | cons op ops ih =>
    intro b h
    cases op with
    | push samples =>
      simp only [DataBuffer.performed, List.any_cons, BufferOp.isPushEnd, Bool.false_or] at h ⊢
      rw [ih _ h]
    | push_end =>
      simp only [DataBuffer.performed]
      rw [performed_after_end ops _ rfl]
    | pull =>
      simp only [DataBuffer.performed] at h ⊢
      cases hp : b.pull with
      | none => rw [hp] at h; simp at h
      | some x =>
        rw [hp] at h
        simp only [List.any_cons, BufferOp.isPushEnd, Bool.false_or] at h ⊢
        rw [ih _ h]

/-- C26. In the state reached by any sequence of `push`, `push_end` and `pull`
calls on a new `DataBuffer`, every queued block is non-empty and `m_qlen` is
the number of queued samples (the sum of the block sizes, which is below
`2 ^ 64` for blocks that fit in memory); so `queued_samples()` is 0 exactly
when the queue is empty. The end marker is set exactly when one of the calls
that returned is `push_end()`, and `pull_end_reached()` is true exactly when
the queue is empty and `push_end()` has been called. -/
theorem C26_qlen_is_queue_total {α : Type} (ops : List (BufferOp α))
    (hmem : queuedTotal ((DataBuffer.create : DataBuffer α).run ops).2.m_queue < 2 ^ 64) :
    ((DataBuffer.create : DataBuffer α).run ops).2.m_qlen =
      queuedTotal ((DataBuffer.create : DataBuffer α).run ops).2.m_queue ∧
    (∀ s ∈ ((DataBuffer.create : DataBuffer α).run ops).2.m_queue, s ≠ []) ∧
    (((DataBuffer.create : DataBuffer α).run ops).2.queued_samples = 0 ↔
      ((DataBuffer.create : DataBuffer α).run ops).2.m_queue = []) ∧
    (((DataBuffer.create : DataBuffer α).run ops).2.pull_end_reached = true ↔
      (((DataBuffer.create : DataBuffer α).run ops).2.m_queue = [] ∧
        ((DataBuffer.create : DataBuffer α).run ops).2.m_end_marked = true)) ∧
    (((DataBuffer.create : DataBuffer α).run ops).2.m_end_marked = true ↔
      ((DataBuffer.create : DataBuffer α).performed ops).any BufferOp.isPushEnd = true) ∧
    (((DataBuffer.create : DataBuffer α).run ops).2.pull_end_reached = true ↔
      (((DataBuffer.create : DataBuffer α).run ops).2.m_queue = [] ∧
        ((DataBuffer.create : DataBuffer α).performed ops).any BufferOp.isPushEnd = true)) ∧
    (((DataBuffer.create : DataBuffer α).performed ops).any BufferOp.isPushEnd = true →
      (DataBuffer.create : DataBuffer α).performed ops = ops) := by
  have h1 := run_qlen ops (DataBuffer.create : DataBuffer α) rfl
  have h2 := run_queue_nonempty ops (DataBuffer.create : DataBuffer α)
    (by intro s hs; simp [DataBuffer.create] at hs)
  rw [Nat.mod_eq_of_lt hmem] at h1
  have h3 := queuedTotal_eq_zero _ h2
  have h4 : ((DataBuffer.create : DataBuffer α).run ops).2.m_end_marked = true ↔
      ((DataBuffer.create : DataBuffer α).performed ops).any BufferOp.isPushEnd = true := by
    rw [run_end_marked ops (DataBuffer.create : DataBuffer α)]
    simp [DataBuffer.create]
  have h5 : ((DataBuffer.create : DataBuffer α).run ops).2.pull_end_reached = true ↔
      (((DataBuffer.create : DataBuffer α).run ops).2.m_queue = [] ∧
        ((DataBuffer.create : DataBuffer α).run ops).2.m_end_marked = true) := by
    unfold DataBuffer.pull_end_reached
    rw [h1, Bool.and_eq_true, beq_iff_eq, h3]
  refine ⟨h1, h2, ?_, h5, h4, ?_, ?_⟩
  · unfold DataBuffer.queued_samples
    rw [h1]; exact h3
  · rw [h5, h4]
  · intro hperf
    exact performed_of_end ops (DataBuffer.create : DataBuffer α) hperf

/-- C26, an instance: two blocks pushed, one pulled, the end marked; one block
of one sample is queued. -/
theorem C26_qlen_is_queue_total_witness :
    queuedTotal ((DataBuffer.create : DataBuffer ℕ).run
      [BufferOp.push [1, 2], BufferOp.push [3], BufferOp.pull, BufferOp.push_end]).2.m_queue
        < 2 ^ 64 ∧
    ((DataBuffer.create : DataBuffer ℕ).run
      [BufferOp.push [1, 2], BufferOp.push [3], BufferOp.pull, BufferOp.push_end]).2.m_qlen =
      queuedTotal ((DataBuffer.create : DataBuffer ℕ).run
        [BufferOp.push [1, 2], BufferOp.push [3], BufferOp.pull, BufferOp.push_end]).2.m_queue :=
  ⟨by decide, (C26_qlen_is_queue_total _ (by decide)).1⟩

/-! ## Claims on the bounds of `DongleCallback` -/

theorem badarg_status {α : Type} (label : String) (status : ℕ) (log : List StderrItem)
    (h : (badarg label : Outcome α) = Outcome.exit status log) : status = 1 := by
  unfold badarg at h
  simp only [Outcome.exit.injEq] at h
  exact h.1.symm

theorem ite_badarg_status {α : Type} (c : Prop) [Decidable c] (label : String) (a : α)
    (status : ℕ) (log : List StderrItem)
    (h : (if c then badarg label else Outcome.proceed a) = Outcome.exit status log) :
    status = 1 := by
  by_cases hc : c
  · rw [if_pos hc] at h; exact badarg_status _ _ _ h
  · rw [if_neg hc] at h; cases h

theorem ite_badarg_value {α : Type} (c : Prop) [Decidable c] (label : String) (a b : α)
    (h : (if c then badarg label else Outcome.proceed a) = Outcome.proceed b) : b = a := by
  by_cases hc : c
  · rw [if_pos hc] at h; unfold badarg at h; cases h
  · rw [if_neg hc] at h
    simp only [Outcome.proceed.injEq] at h
    exact h.symm

theorem optionG_status (optarg : List Char) (x : ℚ) (n : ℕ) (status : ℕ)
    (log : List StderrItem) (h : optionG optarg x n = Outcome.exit status log) : status = 1 := by
  unfold optionG at h
  by_cases h1 : strcasecmpEq optarg ['a', 'u', 't', 'o'] = true
  · rw [if_pos h1] at h; cases h
  · rw [if_neg h1] at h
    by_cases h2 : strcasecmpEq optarg ['l', 'i', 's', 't'] = true
    · rw [if_pos h2] at h; cases h
    · rw [if_neg h2] at h
      by_cases h3 : (!(parse_dbl optarg x n).1) = true
      · rw [if_pos h3] at h; exact badarg_status _ _ _ h
      · rw [if_neg h3] at h
        exact ite_badarg_status _ _ _ _ _ h

theorem optionS_status (parsed : Bool) (ifrate : DoubleValue) (status : ℕ)
    (log : List StderrItem) (h : optionS parsed ifrate = Outcome.exit status log) :
    status = 1 := by
  unfold optionS at h
  by_cases h1 : (!parsed) = true
  · rw [if_pos h1] at h; exact badarg_status _ _ _ h
  · rw [if_neg h1] at h
    exact ite_badarg_status _ _ _ _ _ h

theorem proceed_step (v v2 : MainVars) (c : Char) (hfreq : v2.freq = v.freq) :
    (∀ (status : ℕ) (log : List StderrItem),
      (Outcome.proceed v2 : Outcome MainVars) = Outcome.exit status log → status = 1) ∧
    (∀ v1 : MainVars, c ≠ 'f' → Outcome.proceed v2 = Outcome.proceed v1 →
      v1.freq = v.freq) := by
  constructor
  · intro s l h; cases h
  · intro v1 _ h
    simp only [Outcome.proceed.injEq] at h
    rw [← h]; exact hfreq

/-- The body of the option loop either exits with status 1 or goes on, and an
option other than `-f` leaves `freq` as it is. -/
theorem mainOption_step (v : MainVars) (o : GetoptResult) :
    (∀ (status : ℕ) (log : List StderrItem),
      mainOption v o = Outcome.exit status log → status = 1) ∧
    (∀ v1 : MainVars, o.c ≠ 'f' → mainOption v o = Outcome.proceed v1 → v1.freq = v.freq) := by
  unfold mainOption
  by_cases c1 : o.c = 'f'
  · rw [if_pos c1]
    exact ⟨fun s l h => ite_badarg_status _ _ _ _ _ h, fun v1 hc _ => absurd c1 hc⟩
  rw [if_neg c1]
  by_cases c2 : o.c = 'd'
  · rw [if_pos c2]
    constructor
    · intro s l h
      by_cases hb : (!(parse_int o.optarg v.devidx false).1) = true
      · rw [if_pos hb] at h; cases h
      · rw [if_neg hb] at h; cases h
    · intro v1 _ h
      by_cases hb : (!(parse_int o.optarg v.devidx false).1) = true
      · rw [if_pos hb] at h; simp only [Outcome.proceed.injEq] at h; rw [← h]
      · rw [if_neg hb] at h; simp only [Outcome.proceed.injEq] at h; rw [← h]
  rw [if_neg c2]
  by_cases c3 : o.c = 'g'
  · rw [if_pos c3]
    cases hg : optionG o.optarg o.x o.n with
    | proceed l =>
      constructor
      · intro s l1 h; cases h
      · intro v1 _ h; simp only [Outcome.proceed.injEq] at h; rw [← h]
    | exit s l =>
      constructor
      · intro s1 l1 h
        simp only [Outcome.exit.injEq] at h
        rw [← h.1]
        exact optionG_status _ _ _ _ _ hg
      · intro v1 _ h; cases h
  rw [if_neg c3]
  by_cases c4 : o.c = 's'
  · rw [if_pos c4]
    cases hs : optionS (parse_dbl o.optarg o.x o.n).1
        (DoubleValue.finite (parse_dbl o.optarg o.x o.n).2) with
    | proceed l =>
      constructor
      · intro s l1 h; cases h
      · intro v1 _ h; simp only [Outcome.proceed.injEq] at h; rw [← h]
    | exit s l =>
      constructor
      · intro s1 l1 h
        simp only [Outcome.exit.injEq] at h
        rw [← h.1]
        exact optionS_status _ _ _ _ hs
      · intro v1 _ h; cases h
  rw [if_neg c4]
  by_cases c5 : o.c = 'r'
  · rw [if_pos c5]
    exact ⟨fun s l h => ite_badarg_status _ _ _ _ _ h,
      fun v1 _ h => by rw [ite_badarg_value _ _ _ _ h]⟩
  rw [if_neg c5]
  by_cases c6 : o.c = 'M'
  · rw [if_pos c6]
    exact proceed_step v _ o.c rfl
  rw [if_neg c6]
  by_cases c7 : o.c = 'R'
  · rw [if_pos c7]
    exact proceed_step v _ o.c rfl
  rw [if_neg c7]
  by_cases c8 : o.c = 'W'
  · rw [if_pos c8]
    exact proceed_step v _ o.c rfl
  rw [if_neg c8]
  by_cases c9 : o.c = 'P'
  · rw [if_pos c9]
    exact proceed_step v _ o.c rfl
  rw [if_neg c9]
  by_cases c10 : o.c = 'T'
  · rw [if_pos c10]
    exact proceed_step v _ o.c rfl
  rw [if_neg c10]
  by_cases c11 : o.c = 'b'
  · rw [if_pos c11]
    exact ⟨fun s l h => ite_badarg_status _ _ _ _ _ h,
      fun v1 _ h => by rw [ite_badarg_value _ _ _ _ h]⟩
  rw [if_neg c11]
  by_cases c12 : o.c = 'a'
  · rw [if_pos c12]
    exact proceed_step v _ o.c rfl
  rw [if_neg c12]
  constructor
  · intro s l h
    simp only [Outcome.exit.injEq] at h
    exact h.1.symm
  · intro v1 _ h
    cases h

/-- The option loop either exits with status 1 or goes on; without an option
`-f` it leaves `freq` as it is. -/
theorem optionLoop_step (opts : List GetoptResult) :
    ∀ v : MainVars,
      (∀ (status : ℕ) (log : List StderrItem),
        optionLoop v opts = Outcome.exit status log → status = 1) ∧
      (∀ v1 : MainVars, (∀ o ∈ opts, o.c ≠ 'f') → optionLoop v opts = Outcome.proceed v1 →
        v1.freq = v.freq) := by
  induction opts with
  | nil =>
    intro v
    constructor
    · intro s l h; cases h
    · intro v1 _ h
      simp only [optionLoop, Outcome.proceed.injEq] at h
      rw [← h]
  | cons o os ih =>
    intro v
    simp only [optionLoop]
    cases ho : mainOption v o with
    | proceed v2 =>
      simp only
      constructor
      · exact (ih v2).1
      · intro v1 hf h
        rw [(ih v2).2 v1 (fun o1 h1 => hf o1 (List.mem_cons_of_mem _ h1)) h]
        exact (mainOption_step v o).2 v2 (hf o (List.mem_cons_self _ _)) ho
    | exit s l =>
      simp only
      constructor
      · intro s1 l1 h
        simp only [Outcome.exit.injEq] at h
        rw [← h.1]
        exact (mainOption_step v o).1 s l ho
      · intro v1 _ h; cases h

/-- C21. An argument list without an option `-f` makes `main` end through
`exit(1)` before the line that opens the RTL-SDR device, whatever the other
options, the left-over arguments and the device list are. An option `-f`
whose argument `parse_dbl` rejects, or whose value is not above 0, ends the
option loop through `badarg("-f")`, which exits with status 1. `main` gets to
the line that opens the device only with a frequency above 0. -/
theorem C21_no_frequency_exits (opts : List GetoptResult) (leftover : Bool)
    (devnames : List (List Char)) :
    ((∀ o ∈ opts, o.c ≠ 'f') →
      ∃ log : List MainLog, mainToOpen opts leftover devnames = MainStage.exit 1 log) ∧
    (∀ (v : MainVars) (o : GetoptResult), o.c = 'f' →
      ((parse_dbl o.optarg o.x o.n).1 = false ∨ (parse_dbl o.optarg o.x o.n).2 ≤ 0) →
      mainOption v o = badarg "-f" ∧
      (badarg "-f" : Outcome MainVars) = Outcome.exit 1
        [StderrItem.usage, StderrItem.line "ERROR: Invalid argument for -f\n"]) ∧
    (∀ (status : ℕ) (log : List MainLog),
      mainToOpen opts leftover devnames = MainStage.exit status log → status = 1) ∧
    (∀ (v : MainVars) (log : List MainLog),
      mainToOpen opts leftover devnames = MainStage.openDevice v log → 0 < v.freq) := by
  have hloop := optionLoop_step opts MainVars.init
  refine ⟨?_, ?_, ?_, ?_⟩
  · intro hf
    unfold mainToOpen
    cases hl : optionLoop MainVars.init opts with
    | exit s l =>
      simp only
      rw [hloop.1 s l hl]
      exact ⟨_, rfl⟩
    | proceed v =>
      simp only
      have hfreq : v.freq = -1 := hloop.2 v hf hl
      by_cases h1 : leftover = true
      · rw [if_pos h1]; exact ⟨_, rfl⟩
      · rw [if_neg h1]
        by_cases h2 : v.devidx < 0 ∨ (toUnsigned v.devidx : ℤ) ≥ (devnames.length : ℤ)
        · rw [if_pos h2]; exact ⟨_, rfl⟩
        · rw [if_neg h2, if_pos (by rw [hfreq]; norm_num)]
          exact ⟨_, rfl⟩
  · intro v o hc hbad
    refine ⟨?_, rfl⟩
    unfold mainOption
    rw [if_pos hc, if_pos]
    rcases hbad with hb | hb
    · rw [hb]; rfl
    · simp only [Bool.or_eq_true, decide_eq_true_eq]
      exact Or.inr hb
  · intro status log h
    unfold mainToOpen at h
    cases hl : optionLoop MainVars.init opts with
    | exit s l =>
      rw [hl] at h
      simp only [MainStage.exit.injEq] at h
      rw [← h.1]
      exact hloop.1 s l hl
    | proceed v =>
      rw [hl] at h
      simp only at h
      by_cases h1 : leftover = true
      · rw [if_pos h1] at h
        simp only [MainStage.exit.injEq] at h
        exact h.1.symm
      · rw [if_neg h1] at h
        by_cases h2 : v.devidx < 0 ∨ (toUnsigned v.devidx : ℤ) ≥ (devnames.length : ℤ)
        · rw [if_pos h2] at h
          simp only [MainStage.exit.injEq] at h
          exact h.1.symm
        · rw [if_neg h2] at h
          by_cases h3 : v.freq ≤ 0
          · rw [if_pos h3] at h
            simp only [MainStage.exit.injEq] at h
            exact h.1.symm
          · rw [if_neg h3] at h; cases h
  · intro v1 log h
    unfold mainToOpen at h
    cases hl : optionLoop MainVars.init opts with
    | exit s l => rw [hl] at h; cases h
    | proceed v =>
      rw [hl] at h
      simp only at h
      by_cases h1 : leftover = true
      · rw [if_pos h1] at h; cases h
      · rw [if_neg h1] at h
        by_cases h2 : v.devidx < 0 ∨ (toUnsigned v.devidx : ℤ) ≥ (devnames.length : ℤ)
        · rw [if_pos h2] at h; cases h
        · rw [if_neg h2] at h
          by_cases h3 : v.freq ≤ 0
          · rw [if_pos h3] at h; cases h
          · rw [if_neg h3] at h
            simp only [MainStage.openDevice.injEq] at h
            rw [← h.1]
            exact lt_of_not_le h3

/-- C21, an instance: the options `-M -s 250000` without `-f`, one device. -/
theorem C21_no_frequency_exits_witness :
    (∀ o ∈ [({ c := 'M', optarg := [], x := 0, n := 0 } : GetoptResult),
        { c := 's', optarg := ['2', '5', '0', '0', '0', '0'], x := 250000, n := 6 }],
      o.c ≠ 'f') ∧
    ∃ log : List MainLog,
      mainToOpen [({ c := 'M', optarg := [], x := 0, n := 0 } : GetoptResult),
        { c := 's', optarg := ['2', '5', '0', '0', '0', '0'], x := 250000, n := 6 }]
        false [['r', 't', 'l']] = MainStage.exit 1 log :=
  ⟨by decide,
    (C21_no_frequency_exits
      [({ c := 'M', optarg := [], x := 0, n := 0 } : GetoptResult),
        { c := 's', optarg := ['2', '5', '0', '0', '0', '0'], x := 250000, n := 6 }]
      false [['r', 't', 'l']]).1 (by decide)⟩
/-! ## Lemmas on rounding to binary64 -/

theorem f64_quantum_pos (e : ℤ) : (0 : ℚ) < 2 ^ (e - 52) := by positivity

theorem f64Exponent_ge (x : ℚ) : -1022 ≤ f64Exponent x := le_max_right _ _

/-- A positive number lies below the upper end of its binade. -/
theorem lt_two_pow_f64Exponent (x : ℚ) (hx : 0 < x) : x < 2 ^ (f64Exponent x + 1) := by
  have h1 : x < (2 : ℚ) ^ (Int.log 2 x + 1) := by
    have := Int.lt_zpow_succ_log_self (R := ℚ) (b := 2) (by norm_num) x
    exact_mod_cast this
  have h2 : Int.log 2 x ≤ f64Exponent x := by
    unfold f64Exponent; rw [abs_of_pos hx]; exact le_max_left _ _
  calc x < (2 : ℚ) ^ (Int.log 2 x + 1) := h1
    _ ≤ 2 ^ (f64Exponent x + 1) := zpow_le_zpow_right₀ (by norm_num) (by omega)

/-- A number of magnitude at least `2 ^ e`, with `e` no less than -1022, has
an exponent of at least `e`. -/
theorem le_f64Exponent (x : ℚ) (e : ℤ) (hx : (2 : ℚ) ^ e ≤ x) : e ≤ f64Exponent x := by
  have hpos : 0 < x := lt_of_lt_of_le (by positivity) hx
  have h := (Int.zpow_le_iff_le_log (R := ℚ) (b := 2) (by norm_num) hpos (x := e)).mp
    (by exact_mod_cast hx)
  unfold f64Exponent
  rw [abs_of_pos hpos]
  exact le_trans h (le_max_left _ _)

/-- A positive number whose exponent is above -1022 is at least the lower end
of its binade. -/
theorem two_pow_f64Exponent_le (x : ℚ) (hx : 0 < x) (he : -1022 < f64Exponent x) :
    (2 : ℚ) ^ f64Exponent x ≤ x := by
  have h1 : f64Exponent x = Int.log 2 x := by
    unfold f64Exponent at he ⊢
    rw [abs_of_pos hx] at he ⊢
    rcases le_total (Int.log 2 x) (-1022) with h | h
    · rw [max_eq_right h] at he; omega
    · exact max_eq_left h
  rw [h1]
  have := Int.zpow_log_le_self (R := ℚ) (b := 2) (by norm_num) hx
  exact_mod_cast this

theorem f64Exponent_mono (x y : ℚ) (hx : 0 < x) (hxy : x ≤ y) :
    f64Exponent x ≤ f64Exponent y := by
  unfold f64Exponent
  rw [abs_of_pos hx, abs_of_pos (lt_of_lt_of_le hx hxy)]
  exact max_le_max (Int.log_mono_right hx hxy) le_rfl

/-- Rounding does not cross a multiple of the quantum: from above. -/
theorem f64Round_le_of_grid (x g : ℚ) (m : ℤ) (hg : g = m * 2 ^ (f64Exponent x - 52))
    (h : x ≤ g) : f64Round x ≤ g := by
  unfold f64Round
  have hq := f64_quantum_pos (f64Exponent x)
  have h1 : x / 2 ^ (f64Exponent x - 52) ≤ (m : ℚ) := by
    rw [div_le_iff₀ hq, ← hg]; exact h
  have h2 := lrint_le_of_le _ m h1
  rw [hg]
  exact mul_le_mul_of_nonneg_right (by exact_mod_cast h2) hq.le

/-- Rounding does not cross a multiple of the quantum: from below. -/
theorem le_f64Round_of_grid (x g : ℚ) (m : ℤ) (hg : g = m * 2 ^ (f64Exponent x - 52))
    (h : g ≤ x) : g ≤ f64Round x := by
  unfold f64Round
  have hq := f64_quantum_pos (f64Exponent x)
  have h1 : (m : ℚ) ≤ x / 2 ^ (f64Exponent x - 52) := by
    rw [le_div_iff₀ hq, ← hg]; exact h
  have h2 := le_lrint_of_le _ m h1
  rw [hg]
  exact mul_le_mul_of_nonneg_right (by exact_mod_cast h2) hq.le

/-- A multiple of `2 ^ (e - 52)` is a multiple of `2 ^ (e1 - 52)` for `e1 ≤ e`. -/
theorem grid_refine (m : ℤ) (e e1 : ℤ) (h : e1 ≤ e) :
    ∃ m1 : ℤ, (m : ℚ) * 2 ^ (e - 52) = m1 * 2 ^ (e1 - 52) := by
  refine ⟨m * 2 ^ (e - e1).toNat, ?_⟩
  have h1 : e - 52 = (e1 - 52) + ((e - e1).toNat : ℤ) := by
    rw [Int.toNat_of_nonneg (by omega)]; ring
  rw [h1, zpow_add₀ (by norm_num), zpow_natCast]
  push_cast
  ring

theorem f64Round_zero : f64Round 0 = 0 := by
  unfold f64Round
  simp [lrint_intCast 0, show lrint (0 : ℚ) = 0 from by simpa using lrint_intCast 0]

theorem f64Round_nonneg (x : ℚ) (hx : 0 ≤ x) : 0 ≤ f64Round x :=
  le_f64Round_of_grid x 0 0 (by simp) hx

theorem lrint_mono (x y : ℚ) (h : x ≤ y) : lrint x ≤ lrint y := by
  by_contra hc
  push_neg at hc
  have h1 := abs_le.mp (lrint_sub_le x)
  have h2 := abs_le.mp (lrint_sub_le y)
  have h3 : (lrint y : ℚ) + 1 ≤ lrint x := by exact_mod_cast hc
  have hxy : x = y := by linarith [h1.1, h2.2]
  rw [hxy] at hc
  exact lt_irrefl _ hc

/-- Rounding to binary64 is monotone on the non-negative numbers. -/
theorem f64Round_mono (x y : ℚ) (hx : 0 ≤ x) (hxy : x ≤ y) : f64Round x ≤ f64Round y := by
  rcases hx.eq_or_lt with h0 | hpos
  · rw [← h0, f64Round_zero]; exact f64Round_nonneg y (le_trans hx hxy)
  · have hypos : 0 < y := lt_of_lt_of_le hpos hxy
    rcases (f64Exponent_mono x y hpos hxy).eq_or_lt with he | he
    · unfold f64Round
      rw [he]
      have hq := f64_quantum_pos (f64Exponent y)
      have := lrint_mono (x / 2 ^ (f64Exponent y - 52)) (y / 2 ^ (f64Exponent y - 52))
        (div_le_div_of_nonneg_right hxy hq.le)
      exact mul_le_mul_of_nonneg_right (by exact_mod_cast this) hq.le
    · have h1 : f64Round x ≤ 2 ^ (f64Exponent x + 1) := by
        apply f64Round_le_of_grid x _ (2 ^ 53) _ (lt_two_pow_f64Exponent x hpos).le
        rw [show f64Exponent x + 1 = (53 : ℤ) + (f64Exponent x - 52) by ring,
          zpow_add₀ (by norm_num)]
        norm_num
      have h2 : (2 : ℚ) ^ f64Exponent y ≤ f64Round y := by
        apply le_f64Round_of_grid y _ (2 ^ 52) _
          (two_pow_f64Exponent_le y hypos (by have := f64Exponent_ge x; omega))
        rw [show f64Exponent y = (52 : ℤ) + (f64Exponent y - 52) by ring,
          zpow_add₀ (by norm_num)]
        norm_num
      have h3 : (2 : ℚ) ^ (f64Exponent x + 1) ≤ 2 ^ f64Exponent y :=
        zpow_le_zpow_right₀ (by norm_num) (by omega)
      linarith
/-! ## Claims on the downsampling factor -/

/-- A positive number below `2 ^ (e + 1)` has an exponent of at most `e`, or -1022. -/
theorem f64Exponent_le_of_lt (x : ℚ) (e : ℤ) (hpos : 0 < x) (hx : x < 2 ^ (e + 1)) :
    f64Exponent x ≤ max e (-1022) := by
  unfold f64Exponent
  rw [abs_of_pos hpos]
  apply max_le_max _ le_rfl
  have h := (Int.lt_zpow_iff_log_lt (R := ℚ) (b := 2) (by norm_num) hpos (x := e + 1)).mp
    (by exact_mod_cast hx)
  omega

/-- A value of the type `double` is a multiple of the quantum of its binade. -/
theorem isDouble_grid (x : ℚ) (h : isDouble x) :
    x = (lrint (x / 2 ^ (f64Exponent x - 52)) : ℚ) * 2 ^ (f64Exponent x - 52) := by
  unfold isDouble f64Round at h
  exact h.symm

/-- Below an integer `N` of magnitude less than `2 ^ 53`, a positive `double`
keeps a distance of more than the fraction `2⁻⁵³` of its value. -/
theorem double_gap_below_int (x : ℚ) (N : ℤ) (hd : isDouble x) (hpos : 0 < x)
    (h53 : x < 2 ^ 53) (hlt : x < N) : x / 2 ^ 53 < N - x := by
  have he : f64Exponent x ≤ 52 := by
    have := f64Exponent_le_of_lt x 52 hpos (by norm_num; exact h53)
    rw [max_eq_left (by norm_num)] at this
    exact this
  have hq := f64_quantum_pos (f64Exponent x)
  obtain ⟨N1, hN1⟩ := grid_refine N 52 (f64Exponent x) he
  rw [show (52 : ℤ) - 52 = 0 by norm_num, zpow_zero, mul_one] at hN1
  have hx := isDouble_grid x hd
  set q : ℚ := 2 ^ (f64Exponent x - 52) with hqdef
  set M : ℤ := lrint (x / q) with hM
  have h1 : (M : ℚ) < N1 := by
    have : (M : ℚ) * q < N1 * q := by rw [← hx, ← hN1]; exact hlt
    exact lt_of_mul_lt_mul_right this hq.le
  have h2 : (M : ℚ) + 1 ≤ N1 := by exact_mod_cast (Int.add_one_le_iff.mpr (by exact_mod_cast h1))
  have h3 : x + q ≤ N := by
    rw [hN1]
    calc x + q = ((M : ℚ) + 1) * q := by rw [add_mul, one_mul, ← hx]
      _ ≤ N1 * q := mul_le_mul_of_nonneg_right h2 hq.le
  have h4 : x < 2 ^ 53 * q := by
    have := lt_two_pow_f64Exponent x hpos
    rw [show f64Exponent x + 1 = (53 : ℤ) + (f64Exponent x - 52) by ring,
      zpow_add₀ (by norm_num)] at this
    exact_mod_cast this
  have h5 : x / 2 ^ 53 < q := by
    rw [div_lt_iff₀ (by positivity)]
    linarith
  linarith

/-- The `double` quotient of a positive `double` by 215000 has the integer
part of the exact quotient. -/
theorem floor_f64Div_215000 (x : ℚ) (hd : isDouble x) (hpos : 0 < x)
    (hlt : x < 215000 * 2 ^ 31) : ⌊f64Div x 215000⌋ = ⌊x / 215000⌋ := by
  unfold f64Div
  set y : ℚ := x / 215000 with hy
  have hypos : 0 < y := by positivity
  have hy31 : y < 2 ^ 31 := by
    rw [hy, div_lt_iff₀ (by norm_num)]; linarith
  have hj1 : (⌊y⌋ : ℚ) ≤ y := Int.floor_le y
  have hj2 : y < ⌊y⌋ + 1 := Int.lt_floor_add_one y
  have hj0 : 0 ≤ ⌊y⌋ := Int.floor_nonneg.mpr hypos.le
  have he : f64Exponent y ≤ 52 := by
    have := f64Exponent_le_of_lt y 52 hypos (by norm_num; linarith)
    rw [max_eq_left (by norm_num)] at this
    exact this
  rw [Int.floor_eq_iff]
  constructor
  · obtain ⟨m1, hm1⟩ := grid_refine ⌊y⌋ 52 (f64Exponent y) he
    rw [show (52 : ℤ) - 52 = 0 by norm_num, zpow_zero, mul_one] at hm1
    exact le_f64Round_of_grid y _ m1 hm1 hj1
  · by_contra hc
    push_neg at hc
    rcases lt_or_le y ((2 : ℚ) ^ (-1022 : ℤ)) with hsub | hnorm
    · have he2 : f64Exponent y = -1022 := by
        have h1 := f64Exponent_le_of_lt y (-1023) hypos
          (by rw [show (-1023 : ℤ) + 1 = -1022 by norm_num]; exact hsub)
        rw [max_eq_right (by norm_num)] at h1
        have h2 := f64Exponent_ge y
        omega
      have h3 : f64Round y ≤ 2 ^ (-1022 : ℤ) := by
        apply f64Round_le_of_grid y _ (2 ^ 52) _ hsub.le
        rw [he2]
        rw [show (-1022 : ℤ) = (52 : ℤ) + (-1022 - 52) by norm_num, zpow_add₀ (by norm_num)]
        norm_num
      have h4 : (2 : ℚ) ^ (-1022 : ℤ) < 1 := by
        rw [zpow_neg]
        apply inv_lt_one_of_one_lt₀
        norm_num
      have h5 : (1 : ℚ) ≤ ⌊y⌋ + 1 := by
        have : (0 : ℚ) ≤ ⌊y⌋ := by exact_mod_cast hj0
        linarith
      linarith
    · have hrel := f64Round_rel_error y (by rw [abs_of_pos hypos]; exact hnorm)
      rw [abs_of_pos hypos] at hrel
      have hr2 := (abs_le.mp hrel).2
      have hx53 : x < 2 ^ 53 := by
        have : (215000 : ℚ) * 2 ^ 31 < 2 ^ 53 := by norm_num
        linarith
      have hxN : x < ((215000 * (⌊y⌋ + 1) : ℤ) : ℚ) := by
        push_cast
        have : x = 215000 * y := by rw [hy]; field_simp
        rw [this]
        linarith
      have hgap := double_gap_below_int x (215000 * (⌊y⌋ + 1)) hd hpos hx53 hxN
      push_cast at hgap
      have hxy : x = 215000 * y := by rw [hy]; field_simp
      rw [hxy] at hgap
      have : 215000 * y / 2 ^ 53 = 215000 * (y / 2 ^ 53) := by ring
      rw [this] at hgap
      linarith

theorem toUnsigned_of_range (v : ℤ) (h0 : 0 ≤ v) (h1 : v < 2 ^ 32) :
    toUnsigned v = v.toNat := by
  unfold toUnsigned
  rw [Int.emod_eq_of_lt h0 (by norm_num at h1 ⊢; exact h1)]

/-- The downsampling factor of a positive IF rate held in a `double`. -/
theorem downsample_eq (x : ℚ) (hd : isDouble x) (hpos : 0 < x) (hlt : x < 215000 * 2 ^ 31) :
    downsample x = some (max 1 ⌊x / 215000⌋).toNat := by
  have hfl := floor_f64Div_215000 x hd hpos hlt
  have hy0 : 0 ≤ ⌊x / 215000⌋ := Int.floor_nonneg.mpr (by positivity)
  have hy31 : ⌊x / 215000⌋ < 2 ^ 31 := by
    rw [Int.floor_lt]
    rw [div_lt_iff₀ (by norm_num)]
    push_cast
    linarith
  have hr0 : 0 ≤ f64Div x 215000 := f64Round_nonneg _ (by positivity)
  unfold downsample doubleToInt
  simp only [hr0, if_true, hfl]
  rw [if_pos ⟨by unfold INT_MIN; omega, by unfold INT_MAX; omega⟩]
  simp only [Option.map_some', Option.some.injEq]
  have hm : stdMaxInt 1 ⌊x / 215000⌋ = max 1 ⌊x / 215000⌋ := by
    unfold stdMaxInt
    split_ifs with h
    · exact (max_eq_right h.le).symm
    · exact (max_eq_left (not_lt.mp h)).symm
  rw [hm]
  exact toUnsigned_of_range _ (by omega) (by omega)

/-- C23. For a positive IF rate held in a `double` (below `215000 * 2 ^ 31`,
so that the conversion to `int` is defined), the line that computes
`downsample` in `main` and in `oldmain` gives `max(1, floor(ifrate / 215000))`,
which is at least 1. This covers every rate that `get_sample_rate()` can
return, a whole number below `2 ^ 32`; for these the factor is
`max(1, n / 215000)` with the integer quotient. -/
theorem C23_downsample_factor (ifrate : ℚ) (hd : isDouble ifrate) (hpos : 0 < ifrate)
    (hlt : ifrate < 215000 * 2 ^ 31) :
    downsample ifrate = some (max 1 ⌊ifrate / 215000⌋).toNat ∧
    1 ≤ (max 1 ⌊ifrate / 215000⌋).toNat ∧
    (∀ n : ℕ, 0 < n → n < 2 ^ 32 → downsample (n : ℚ) = some (max 1 (n / 215000))) := by
  refine ⟨downsample_eq ifrate hd hpos hlt, by omega, ?_⟩
  intro n hn0 hn32
  have hdn : isDouble (n : ℚ) := by
    have := f64Round_int (n : ℤ) (by
      rw [abs_of_nonneg (by positivity)]
      have : (n : ℚ) < 2 ^ 32 := by exact_mod_cast hn32
      push_cast
      linarith [show (2 : ℚ) ^ 32 < 2 ^ 53 by norm_num])
    simpa [isDouble] using this
  have hlt2 : (n : ℚ) < 215000 * 2 ^ 31 := by
    have : (n : ℚ) < 2 ^ 32 := by exact_mod_cast hn32
    linarith [show (2 : ℚ) ^ 32 < 215000 * 2 ^ 31 by norm_num]
  rw [downsample_eq (n : ℚ) hdn (by exact_mod_cast hn0) hlt2]
  have hfloor : ⌊(n : ℚ) / 215000⌋ = ((n / 215000 : ℕ) : ℤ) := by
    have := Rat.floor_intCast_div_natCast (n : ℤ) 215000
    simpa using this
  rw [hfloor]
  congr 1
  omega

/-- A whole number of magnitude below `2 ^ 53` is a value of the type `double`. -/
theorem isDouble_int (k : ℤ) (hk : |(k : ℚ)| < 2 ^ 53) : isDouble (k : ℚ) :=
  f64Round_int k hk

/-- C23, an instance: the default IF rate 1200000 of `main`. -/
theorem C23_downsample_factor_witness :
    isDouble ((1200000 : ℤ) : ℚ) ∧ (0 : ℚ) < ((1200000 : ℤ) : ℚ) ∧
    downsample ((1200000 : ℤ) : ℚ) = some (max 1 ⌊((1200000 : ℤ) : ℚ) / 215000⌋).toNat :=
  ⟨isDouble_int 1200000 (by norm_num), by norm_num,
    (C23_downsample_factor ((1200000 : ℤ) : ℚ) (isDouble_int 1200000 (by norm_num))
      (by norm_num) (by norm_num)).1⟩

/-- What the validation of `-s` lets through. -/
theorem optionS_accepts (ifrate : ℚ)
    (h : optionS true (DoubleValue.finite ifrate) = Outcome.proceed (DoubleValue.finite ifrate)) :
    225001 ≤ ifrate ∧ ifrate ≤ 3200000 ∧ (ifrate ≤ 300000 ∨ 900001 ≤ ifrate) := by
  rw [optionS_finite] at h
  by_cases hc : (ifrate < 225001) ∨ (ifrate > 3200000) ∨ ((ifrate > 300000) ∧ (ifrate < 900001))
  · rw [if_pos hc] at h; unfold badarg at h; cases h
  · push_neg at hc
    refine ⟨hc.1, hc.2.1, ?_⟩
    rcases le_or_lt ifrate 300000 with h1 | h1
    · exact Or.inl h1
    · exact Or.inr (hc.2.2 h1)

/-- C29. For an IF rate held in a `double` that the validation of `-s` lets
through (a rate in `[225001, 300000]` or in `[900001, 3200000]`), the line
that computes `downsample` gives `d = max(1, floor(ifrate / 215000))`, and
the baseband rate `ifrate / d` lies in `[215000, 300000]`, as the exact
quotient and as the `double` quotient. -/
theorem C29_baseband_rate_range (ifrate : ℚ) (hd : isDouble ifrate)
    (hacc : optionS true (DoubleValue.finite ifrate) =
      Outcome.proceed (DoubleValue.finite ifrate)) :
    downsample ifrate = some (max 1 ⌊ifrate / 215000⌋).toNat ∧
    1 ≤ (max 1 ⌊ifrate / 215000⌋).toNat ∧
    215000 ≤ ifrate / ((max 1 ⌊ifrate / 215000⌋).toNat : ℚ) ∧
    ifrate / ((max 1 ⌊ifrate / 215000⌋).toNat : ℚ) ≤ 300000 ∧
    215000 ≤ f64Div ifrate ((max 1 ⌊ifrate / 215000⌋).toNat : ℚ) ∧
    f64Div ifrate ((max 1 ⌊ifrate / 215000⌋).toNat : ℚ) ≤ 300000 := by
  obtain ⟨h1, h2, h3⟩ := optionS_accepts ifrate hacc
  have hpos : 0 < ifrate := by linarith
  have hds := downsample_eq ifrate hd hpos (by norm_num; linarith)
  set j : ℤ := ⌊ifrate / 215000⌋ with hj
  have hjl : (j : ℚ) ≤ ifrate / 215000 := Int.floor_le _
  have hju : ifrate / 215000 < j + 1 := Int.lt_floor_add_one _
  rw [le_div_iff₀ (by norm_num)] at hjl
  rw [div_lt_iff₀ (by norm_num)] at hju
  have hj1 : 1 ≤ j := by
    have : (0 : ℚ) < j + 1 - 1 := by linarith
    have : (0 : ℚ) < j := by linarith
    have : (0 : ℤ) < j := by exact_mod_cast this
    omega
  have hmax : max 1 j = j := max_eq_right hj1
  have hcast : (((max 1 j).toNat : ℕ) : ℚ) = (j : ℚ) := by
    rw [hmax]
    have : ((j.toNat : ℕ) : ℤ) = j := Int.toNat_of_nonneg (by omega)
    exact_mod_cast this
  have hjpos : (0 : ℚ) < j := by exact_mod_cast (by omega : (0 : ℤ) < j)
  have hlow : 215000 ≤ ifrate / (j : ℚ) := by
    rw [le_div_iff₀ hjpos]; linarith
  have hup : ifrate / (j : ℚ) ≤ 300000 := by
    rw [div_le_iff₀ hjpos]
    rcases h3 with h3 | h3
    · have : (1 : ℚ) ≤ j := by exact_mod_cast hj1
      linarith
    · have hj4 : (4 : ℚ) ≤ j := by
        have : (3 : ℚ) < j := by linarith
        have : (3 : ℤ) < j := by exact_mod_cast this
        exact_mod_cast (by omega : (4 : ℤ) ≤ j)
      linarith
  have hqpos : 0 < ifrate / (j : ℚ) := by positivity
  have he : f64Exponent (ifrate / (j : ℚ)) ≤ 52 := by
    have := f64Exponent_le_of_lt (ifrate / (j : ℚ)) 52 hqpos
      (by norm_num; linarith)
    rw [max_eq_left (by norm_num)] at this
    exact this
  have hgrid : ∀ k : ℤ, ∃ m1 : ℤ,
      (k : ℚ) = m1 * 2 ^ (f64Exponent (ifrate / (j : ℚ)) - 52) := by
    intro k
    obtain ⟨m1, hm1⟩ := grid_refine k 52 _ he
    rw [show (52 : ℤ) - 52 = 0 by norm_num, zpow_zero, mul_one] at hm1
    exact ⟨m1, hm1⟩
  rw [hcast]
  refine ⟨hds, by omega, hlow, hup, ?_, ?_⟩
  · obtain ⟨m1, hm1⟩ := hgrid 215000
    unfold f64Div
    exact le_f64Round_of_grid _ _ m1 (by exact_mod_cast hm1) hlow
  · obtain ⟨m1, hm1⟩ := hgrid 300000
    unfold f64Div
    exact f64Round_le_of_grid _ _ m1 (by exact_mod_cast hm1) hup

/-- C29, an instance: the IF rate 1000000 gives the factor 4 and the
baseband rate 250000. -/
theorem C29_baseband_rate_range_witness :
    isDouble ((1000000 : ℤ) : ℚ) ∧
    optionS true (DoubleValue.finite ((1000000 : ℤ) : ℚ)) =
      Outcome.proceed (DoubleValue.finite ((1000000 : ℤ) : ℚ)) ∧
    215000 ≤ ((1000000 : ℤ) : ℚ) / ((max 1 ⌊((1000000 : ℤ) : ℚ) / 215000⌋).toNat : ℚ) :=
  ⟨isDouble_int 1000000 (by norm_num), by rw [optionS_finite]; norm_num,
    (C29_baseband_rate_range ((1000000 : ℤ) : ℚ) (isDouble_int 1000000 (by norm_num))
      (by rw [optionS_finite]; norm_num)).2.2.1⟩
/-! ## Claims on the PPS time stamps -/

/-- A `double` below 1 is at most `1 - 2⁻⁵³`. -/
theorem isDouble_lt_one (p : ℚ) (hd : isDouble p) (h1 : p < 1) : p ≤ 1 - 1 / 2 ^ 53 := by
  rcases le_or_lt p (1 / 2) with hs | hl
  · have : (1 : ℚ) / 2 ≤ 1 - 1 / 2 ^ 53 := by norm_num
    linarith
  · have hpos : 0 < p := by linarith
    have he1 : -1 ≤ f64Exponent p := le_f64Exponent p (-1) (by norm_num; linarith)
    have he2 : f64Exponent p ≤ -1 := by
      have := f64Exponent_le_of_lt p (-1) hpos (by norm_num; exact h1)
      rw [max_eq_left (by norm_num)] at this
      exact this
    have he : f64Exponent p = -1 := by omega
    have hg := isDouble_grid p hd
    rw [he] at hg
    have hq : (2 : ℚ) ^ ((-1 : ℤ) - 52) = 1 / 2 ^ 53 := by norm_num
    rw [hq] at hg
    set M : ℤ := lrint (p / (1 / 2 ^ 53)) with hM
    have hlt : (M : ℚ) < 2 ^ 53 := by
      have : (M : ℚ) * (1 / 2 ^ 53) < 1 := by rw [← hg]; exact h1
      rw [mul_one_div, div_lt_iff₀ (by positivity)] at this
      linarith
    have hle : (M : ℚ) ≤ 2 ^ 53 - 1 := by
      have h2 : M < 2 ^ 53 := by exact_mod_cast hlt
      have h3 : M ≤ 2 ^ 53 - 1 := by omega
      exact_mod_cast h3
    rw [hg]
    have : (M : ℚ) * (1 / 2 ^ 53) ≤ (2 ^ 53 - 1) * (1 / 2 ^ 53) :=
      mul_le_mul_of_nonneg_right hle (by positivity)
    calc (M : ℚ) * (1 / 2 ^ 53) ≤ (2 ^ 53 - 1) * (1 / 2 ^ 53) := this
      _ = 1 - 1 / 2 ^ 53 := by norm_num

/-- Every `double` is a multiple of `2⁻¹⁰⁷⁴`. -/
theorem isDouble_subgrid (a : ℚ) (hd : isDouble a) :
    ∃ k : ℤ, a = k * 2 ^ ((-1022 : ℤ) - 52) := by
  have hg := isDouble_grid a hd
  obtain ⟨m1, hm1⟩ := grid_refine (lrint (a / 2 ^ (f64Exponent a - 52))) (f64Exponent a)
    (-1022) (f64Exponent_ge a)
  exact ⟨m1, by rw [← hm1]; exact hg⟩

theorem lrint_lt_of_lt (t : ℚ) (n : ℤ) (h : t < n - 1 / 2) : lrint t ≤ n - 1 := by
  have h1 := (abs_le.mp (lrint_sub_le t)).2
  have h2 : (lrint t : ℚ) < n := by linarith
  have h3 : lrint t < n := by exact_mod_cast h2
  omega

/-- The product of a `double` below 1 with the rounded difference of two
`double` values does not exceed the exact difference. -/
theorem f64Mul_f64Sub_le (prev cur p : ℚ) (hprev : isDouble prev) (hcur : isDouble cur)
    (hp : isDouble p) (hle : prev ≤ cur) (hp0 : 0 ≤ p) (hp1 : p < 1) :
    f64Mul p (f64Sub cur prev) ≤ cur - prev := by
  unfold f64Mul f64Sub
  set d : ℚ := cur - prev with hd
  have hd0 : 0 ≤ d := by rw [hd]; linarith
  rcases hd0.eq_or_lt with h0 | hdpos
  · rw [← h0, f64Round_zero, mul_zero, f64Round_zero]
  have hD0 : 0 ≤ f64Round d := f64Round_nonneg d hd0
  have hq := f64_quantum_pos (f64Exponent d)
  have hDdef : f64Round d =
      (lrint (d / 2 ^ (f64Exponent d - 52)) : ℚ) * 2 ^ (f64Exponent d - 52) := rfl
  set q : ℚ := 2 ^ (f64Exponent d - 52) with hqdef
  set n : ℤ := lrint (d / q) with hn
  set D : ℚ := f64Round d with hDD
  have hz0 : 0 ≤ p * D := mul_nonneg hp0 hD0
  have hzD : p * D ≤ D := by nlinarith
  rcases hz0.eq_or_lt with hz | hzpos
  · rw [← hz, f64Round_zero]; exact hd0
  by_cases hDd : D ≤ d
  · have hez : f64Exponent (p * D) ≤ f64Exponent d :=
      f64Exponent_mono _ _ hzpos (le_trans hzD hDd)
    obtain ⟨m1, hm1⟩ := grid_refine n (f64Exponent d) (f64Exponent (p * D)) hez
    have := f64Round_le_of_grid (p * D) D m1 (hDdef.trans hm1) hzD
    linarith
  · push_neg at hDd
    have hnorm : -1022 < f64Exponent d := by
      by_contra hc
      have he : f64Exponent d = -1022 := by
        have := f64Exponent_ge d
        omega
      obtain ⟨k1, hk1⟩ := isDouble_subgrid cur hcur
      obtain ⟨k2, hk2⟩ := isDouble_subgrid prev hprev
      have hqe : q = 2 ^ ((-1022 : ℤ) - 52) := by rw [hqdef, he]
      have hdk : d / q = ((k1 - k2 : ℤ) : ℚ) := by
        rw [hd, hk1, hk2, hqe]
        push_cast
        field_simp
      have hnk : n = k1 - k2 := by rw [hn, hdk, lrint_intCast]
      have hDe : D = d := by
        rw [hDdef, hnk, ← hdk]
        field_simp
      linarith
    have hlow : (2 : ℚ) ^ f64Exponent d ≤ d := two_pow_f64Exponent_le d hdpos hnorm
    have h2e : (2 : ℚ) ^ f64Exponent d = 2 ^ 52 * q := by
      rw [hqdef, show f64Exponent d = (52 : ℤ) + (f64Exponent d - 52) by ring,
        zpow_add₀ (by norm_num)]
      norm_num
    have hnq : d < (n : ℚ) * q := by rw [← hDdef]; exact hDd
    have hn52 : (2 : ℚ) ^ 52 < n := by
      have : (2 : ℚ) ^ 52 * q < n * q := by linarith
      exact lt_of_mul_lt_mul_right this hq.le
    have hn53 : (2 : ℚ) ^ 52 + 1 ≤ n := by
      have h1 : (2 : ℤ) ^ 52 < n := by exact_mod_cast hn52
      have h2 : (2 : ℤ) ^ 52 + 1 ≤ n := by omega
      exact_mod_cast h2
    have herr := (abs_le.mp (lrint_sub_le (d / q))).2
    have hhalf : ((n : ℚ) - 1 / 2) * q ≤ d := by
      have : (n : ℚ) - 1 / 2 ≤ d / q := by linarith
      calc ((n : ℚ) - 1 / 2) * q ≤ d / q * q := mul_le_mul_of_nonneg_right this hq.le
        _ = d := by field_simp
    have hpb := isDouble_lt_one p hp hp1
    have hnpos : (0 : ℚ) < n := by linarith [show (0 : ℚ) < 2 ^ 52 by positivity]
    have hz1 : p * D < ((n : ℚ) - 1 / 2) * q := by
      rw [hDdef]
      have h1 : p * ((n : ℚ) * q) ≤ (1 - 1 / 2 ^ 53) * ((n : ℚ) * q) :=
        mul_le_mul_of_nonneg_right hpb (by positivity)
      have h2 : (1 - 1 / 2 ^ 53) * ((n : ℚ) * q) = ((n : ℚ) - n / 2 ^ 53) * q := by ring
      have h3 : (1 : ℚ) / 2 < n / 2 ^ 53 := by
        rw [lt_div_iff₀ (by positivity)]
        linarith
      have h4 : ((n : ℚ) - n / 2 ^ 53) * q < ((n : ℚ) - 1 / 2) * q :=
        mul_lt_mul_of_pos_right (by linarith) hq
      linarith
    have hzd : p * D < d := by linarith
    have hez : f64Exponent (p * D) ≤ f64Exponent d :=
      f64Exponent_mono _ _ hzpos hzd.le
    have hg1 : ((n - 1 : ℤ) : ℚ) * q ≤ d := by
      push_cast
      have : ((n : ℚ) - 1) * q ≤ ((n : ℚ) - 1 / 2) * q :=
        mul_le_mul_of_nonneg_right (by linarith) hq.le
      linarith
    by_cases hzg : p * D ≤ ((n - 1 : ℤ) : ℚ) * q
    · obtain ⟨m1, hm1⟩ := grid_refine (n - 1) (f64Exponent d) (f64Exponent (p * D)) hez
      have := f64Round_le_of_grid (p * D) _ m1 hm1 hzg
      linarith
    · push_neg at hzg
      have hge : f64Exponent d ≤ f64Exponent (p * D) := by
        apply le_f64Exponent
        rw [h2e]
        have : (2 : ℚ) ^ 52 * q ≤ ((n - 1 : ℤ) : ℚ) * q := by
          push_cast
          exact mul_le_mul_of_nonneg_right (by linarith) hq.le
        linarith
      have hee : f64Exponent (p * D) = f64Exponent d := by omega
      have hW : f64Round (p * D) = (lrint (p * D / q) : ℚ) * q := by
        unfold f64Round
        rw [hee]
      have hlr : lrint (p * D / q) ≤ n - 1 := by
        apply lrint_lt_of_lt
        rw [div_lt_iff₀ hq]
        exact hz1
      rw [hW]
      have : (lrint (p * D / q) : ℚ) * q ≤ ((n - 1 : ℤ) : ℚ) * q :=
        mul_le_mul_of_nonneg_right (by exact_mod_cast hlr) hq.le
      linarith

theorem f64Exponent_eq (x : ℚ) (e : ℤ) (h1 : (2 : ℚ) ^ e ≤ x) (h2 : x < 2 ^ (e + 1))
    (h3 : -1022 ≤ e) : f64Exponent x = e := by
  have hpos : 0 < x := lt_of_lt_of_le (by positivity) h1
  have ha := le_f64Exponent x e h1
  have hb := f64Exponent_le_of_lt x e hpos h2
  rw [max_eq_left h3] at hb
  omega

theorem lrint_eq_of_abs_lt (t : ℚ) (n : ℤ) (h : |t - n| < 1 / 2) : lrint t = n := by
  have h1 := abs_le.mp (lrint_sub_le t)
  have h2 := abs_lt.mp h
  have h3 : (lrint t : ℚ) < n + 1 := by linarith [h1.2, h2.2]
  have h4 : (n : ℚ) - 1 < lrint t := by linarith [h1.1, h2.1]
  have h5 : lrint t < n + 1 := by exact_mod_cast h3
  have h6 : n - 1 < lrint t := by exact_mod_cast h4
  omega

/-- Rounding to binary64 of a number whose binade is known. -/
theorem f64Round_eq (x : ℚ) (e n : ℤ) (h1 : (2 : ℚ) ^ e ≤ x) (h2 : x < 2 ^ (e + 1))
    (h3 : -1022 ≤ e) (hn : |x / 2 ^ (e - 52) - n| < 1 / 2) :
    f64Round x = n * 2 ^ (e - 52) := by
  unfold f64Round
  rw [f64Exponent_eq x e h1 h2 h3]
  show (lrint (x / 2 ^ (e - 52)) : ℚ) * 2 ^ (e - 52) = n * 2 ^ (e - 52)
  rw [lrint_eq_of_abs_lt _ n hn]

/-- Rounding to binary64 moves a non-negative number below `B` by at most
`B / 2 ^ 53`, for `B` no less than `2⁻¹⁰²²`. -/
theorem f64Round_abs_error (y B : ℚ) (hy : 0 ≤ y) (hB : y ≤ B)
    (hB2 : (2 : ℚ) ^ (-1022 : ℤ) ≤ B) : |f64Round y - y| ≤ B / 2 ^ 53 := by
  have hB0 : 0 ≤ B := le_trans hy hB
  rcases hy.eq_or_lt with h0 | hpos
  · rw [← h0, f64Round_zero, sub_zero, abs_zero]; positivity
  have hq := f64_quantum_pos (f64Exponent y)
  have hr := lrint_sub_le (y / 2 ^ (f64Exponent y - 52))
  have e2 : f64Round y - y =
      ((lrint (y / 2 ^ (f64Exponent y - 52)) : ℚ) - y / 2 ^ (f64Exponent y - 52)) *
        2 ^ (f64Exponent y - 52) := by
    unfold f64Round
    field_simp
  have e3 : (2 : ℚ) ^ (f64Exponent y - 52) = 2 ^ f64Exponent y / 2 ^ 52 := by
    rw [zpow_sub₀ (by norm_num)]; norm_num
  have hpow : (2 : ℚ) ^ f64Exponent y ≤ B := by
    rcases (f64Exponent_ge y).eq_or_lt with he | he
    · rw [← he]; exact hB2
    · exact le_trans (two_pow_f64Exponent_le y hpos he) hB
  rw [e2, abs_mul, abs_of_pos hq]
  calc |(lrint (y / 2 ^ (f64Exponent y - 52)) : ℚ) - y / 2 ^ (f64Exponent y - 52)| *
        2 ^ (f64Exponent y - 52)
      ≤ 1 / 2 * 2 ^ (f64Exponent y - 52) := mul_le_mul_of_nonneg_right hr hq.le
    _ = 2 ^ f64Exponent y / 2 ^ 53 := by rw [e3]; ring
    _ ≤ B / 2 ^ 53 := by
        apply div_le_div_of_nonneg_right hpow; positivity

/-- C24 (amended). For block times `0 ≤ t_prev ≤ t_cur` and a block position
`p` in `[0, 1)`, all held in `double`, the time stamp that `oldmain` writes is
the `double` value of `t_prev + p * (t_cur - t_prev)`, each operation rounded.
It lies in `[t_prev, t_cur]`, it does not decrease when `p` grows, and it is
within `3 * t_cur / 2 ^ 53` of the exact value, which lies in `[t_prev, t_cur)`
when `t_prev < t_cur`. -/
theorem C24_pps_time_interpolated (prev cur p : ℚ) (hprev : isDouble prev)
    (hcur : isDouble cur) (hp : isDouble p) (h0 : 0 ≤ prev) (hle : prev ≤ cur)
    (hp0 : 0 ≤ p) (hp1 : p < 1) :
    ppsTime prev cur p = f64Add prev (f64Mul p (f64Sub cur prev)) ∧
    prev ≤ ppsTime prev cur p ∧ ppsTime prev cur p ≤ cur ∧
    (∀ p2 : ℚ, p ≤ p2 → ppsTime prev cur p ≤ ppsTime prev cur p2) ∧
    ((2 : ℚ) ^ (-1022 : ℤ) ≤ cur →
      |ppsTime prev cur p - (prev + p * (cur - prev))| ≤ 3 * cur / 2 ^ 53) ∧
    prev ≤ prev + p * (cur - prev) ∧
    (prev < cur → prev + p * (cur - prev) < cur) := by
  have hK := f64Mul_f64Sub_le prev cur p hprev hcur hp hle hp0 hp1
  have hd0 : 0 ≤ cur - prev := by linarith
  have hD0 : 0 ≤ f64Sub cur prev := f64Round_nonneg _ hd0
  have hW0 : 0 ≤ f64Mul p (f64Sub cur prev) := f64Round_nonneg _ (mul_nonneg hp0 hD0)
  have hlow : prev ≤ ppsTime prev cur p := by
    have := f64Round_mono prev (prev + f64Mul p (f64Sub cur prev)) h0 (by linarith)
    rw [show f64Round prev = prev from hprev] at this
    exact this
  have hup : ppsTime prev cur p ≤ cur := by
    have := f64Round_mono (prev + f64Mul p (f64Sub cur prev)) cur (by linarith) (by linarith)
    rw [show f64Round cur = cur from hcur] at this
    exact this
  refine ⟨rfl, hlow, hup, ?_, ?_, ?_, ?_⟩
  · intro p2 hp2
    unfold ppsTime f64Add
    apply f64Round_mono _ _ (by linarith)
    have : f64Mul p (f64Sub cur prev) ≤ f64Mul p2 (f64Sub cur prev) :=
      f64Round_mono _ _ (mul_nonneg hp0 hD0) (mul_le_mul_of_nonneg_right hp2 hD0)
    linarith
  · intro hnorm
    have hcur0 : 0 ≤ cur := le_trans h0 hle
    have hDle : f64Sub cur prev ≤ cur := by
      have := f64Round_mono (cur - prev) cur hd0 (by linarith)
      rw [show f64Round cur = cur from hcur] at this
      exact this
    have e1 := abs_le.mp (f64Round_abs_error (cur - prev) cur hd0 (by linarith) hnorm)
    have e2 := abs_le.mp (f64Round_abs_error (p * f64Sub cur prev) cur (mul_nonneg hp0 hD0)
      (by nlinarith) hnorm)
    have e3 := abs_le.mp (f64Round_abs_error (prev + f64Mul p (f64Sub cur prev)) cur
      (by linarith) (by linarith) hnorm)
    have hu : 0 ≤ cur / 2 ^ 53 := by positivity
    have e1p : |p * f64Sub cur prev - p * (cur - prev)| ≤ cur / 2 ^ 53 := by
      rw [← mul_sub, abs_mul, abs_of_nonneg hp0]
      have : |f64Sub cur prev - (cur - prev)| ≤ cur / 2 ^ 53 := abs_le.mpr e1
      calc p * |f64Sub cur prev - (cur - prev)| ≤ 1 * |f64Sub cur prev - (cur - prev)| :=
            mul_le_mul_of_nonneg_right hp1.le (abs_nonneg _)
        _ ≤ cur / 2 ^ 53 := by rw [one_mul]; exact this
    have e1q := abs_le.mp e1p
    rw [abs_le]
    unfold ppsTime f64Add
    unfold f64Mul at e2 e3 ⊢
    constructor
    · linarith [e1q.1, e2.1, e3.1]
    · linarith [e1q.2, e2.2, e3.2]
  · nlinarith
  · intro hlt
    nlinarith

theorem isDouble_half : isDouble (1 / 2) := by
  unfold isDouble
  rw [f64Round_eq (1 / 2) (-1) 4503599627370496 (by norm_num) (by norm_num) (by norm_num)
    (by norm_num)]
  norm_num

theorem isDouble_three_quarters : isDouble (3 / 4) := by
  unfold isDouble
  rw [f64Round_eq (3 / 4) (-1) 6755399441055744 (by norm_num) (by norm_num) (by norm_num)
    (by norm_num)]
  norm_num

/-- C24, an instance: block times one second apart, an event in the middle. -/
theorem C24_pps_time_interpolated_witness :
    isDouble ((1073741824 : ℤ) : ℚ) ∧ isDouble ((1073741825 : ℤ) : ℚ) ∧ isDouble (1 / 2) ∧
    ((1073741824 : ℤ) : ℚ) ≤ ppsTime ((1073741824 : ℤ) : ℚ) ((1073741825 : ℤ) : ℚ) (1 / 2) ∧
    ppsTime ((1073741824 : ℤ) : ℚ) ((1073741825 : ℤ) : ℚ) (1 / 2) ≤ ((1073741825 : ℤ) : ℚ) :=
  ⟨isDouble_int 1073741824 (by norm_num), isDouble_int 1073741825 (by norm_num), isDouble_half,
    (C24_pps_time_interpolated ((1073741824 : ℤ) : ℚ) ((1073741825 : ℤ) : ℚ) (1 / 2)
      (isDouble_int 1073741824 (by norm_num)) (isDouble_int 1073741825 (by norm_num))
      isDouble_half (by norm_num) (by norm_num) (by norm_num) (by norm_num)).2.1,
    (C24_pps_time_interpolated ((1073741824 : ℤ) : ℚ) ((1073741825 : ℤ) : ℚ) (1 / 2)
      (isDouble_int 1073741824 (by norm_num)) (isDouble_int 1073741825 (by norm_num))
      isDouble_half (by norm_num) (by norm_num) (by norm_num) (by norm_num)).2.2.1⟩

/-- C24, counterexample to the claim as stated: with the block times
`t_prev = 2 ^ 30` and `t_cur = 2 ^ 30 + 2⁻²²` (two neighbouring `double`
values) and the block position `3 / 4`, the time stamp written is `t_cur`:
it is not below `t_cur`, and it is not the exact value
`t_prev + p * (t_cur - t_prev)`. -/
theorem C24_counterexample :
    isDouble 1073741824 ∧ isDouble (1073741824 + 1 / 4194304) ∧ isDouble (3 / 4) ∧
    (1073741824 : ℚ) < 1073741824 + 1 / 4194304 ∧
    ppsTime 1073741824 (1073741824 + 1 / 4194304) (3 / 4) = 1073741824 + 1 / 4194304 ∧
    ppsTime 1073741824 (1073741824 + 1 / 4194304) (3 / 4) ≠
      1073741824 + 3 / 4 * ((1073741824 + 1 / 4194304) - 1073741824) := by
  have h1 : isDouble 1073741824 := by
    have := isDouble_int 1073741824 (by norm_num)
    simpa using this
  have h2 : f64Round (1073741824 + 1 / 4194304) = 1073741824 + 1 / 4194304 := by
    rw [f64Round_eq (1073741824 + 1 / 4194304) 30 4503599627370497 (by norm_num) (by norm_num)
      (by norm_num) (by norm_num)]
    norm_num
  have h3 : f64Sub (1073741824 + 1 / 4194304) 1073741824 = 1 / 4194304 := by
    unfold f64Sub
    rw [show (1073741824 : ℚ) + 1 / 4194304 - 1073741824 = 1 / 4194304 by norm_num,
      f64Round_eq (1 / 4194304) (-22) 4503599627370496 (by norm_num) (by norm_num)
        (by norm_num) (by norm_num)]
    norm_num
  have h4 : f64Mul (3 / 4) (1 / 4194304) = 3 / 16777216 := by
    unfold f64Mul
    rw [show (3 : ℚ) / 4 * (1 / 4194304) = 3 / 16777216 by norm_num,
      f64Round_eq (3 / 16777216) (-23) 6755399441055744 (by norm_num) (by norm_num)
        (by norm_num) (by norm_num)]
    norm_num
  have h5 : ppsTime 1073741824 (1073741824 + 1 / 4194304) (3 / 4) =
      1073741824 + 1 / 4194304 := by
    unfold ppsTime
    rw [h3, h4]
    unfold f64Add
    rw [f64Round_eq (1073741824 + 3 / 16777216) 30 4503599627370497 (by norm_num)
      (by norm_num) (by norm_num) (by norm_num [abs_lt])]
    norm_num
  refine ⟨h1, h2, isDouble_three_quarters, by norm_num, h5, ?_⟩
  rw [h5]
  norm_num

/-! ## The `float` product and the exact product in `samplesToInt16` -/

theorem f32Exponent_eq (x : ℚ) (e : ℤ) (h1 : (2 : ℚ) ^ e ≤ x) (h2 : x < 2 ^ (e + 1))
    (h3 : -126 ≤ e) : f32Exponent x = e := by
  have hpos : 0 < x := lt_of_lt_of_le (by positivity) h1
  have ha := (Int.zpow_le_iff_le_log (R := ℚ) (b := 2) (by norm_num) hpos (x := e)).mp
    (by exact_mod_cast h1)
  have hb := (Int.lt_zpow_iff_log_lt (R := ℚ) (b := 2) (by norm_num) hpos (x := e + 1)).mp
    (by exact_mod_cast h2)
  unfold f32Exponent
  rw [abs_of_pos hpos, max_eq_left (by omega)]
  omega

/-- Rounding to binary32 of a number whose binade is known. -/
theorem f32Round_eq (x : ℚ) (e n : ℤ) (h1 : (2 : ℚ) ^ e ≤ x) (h2 : x < 2 ^ (e + 1))
    (h3 : -126 ≤ e) (hn : |x / 2 ^ (e - 23) - n| < 1 / 2) :
    f32Round x = n * 2 ^ (e - 23) := by
  unfold f32Round
  rw [f32Exponent_eq x e h1 h2 h3]
  show (lrint (x / 2 ^ (e - 23)) : ℚ) * 2 ^ (e - 23) = n * 2 ^ (e - 23)
  rw [lrint_eq_of_abs_lt _ n hn]

/-- A tie between an odd integer and its successor goes to the successor. -/
theorem lrint_tie_odd (f : ℤ) (hodd : f % 2 = 1) : lrint ((f : ℚ) + 1 / 2) = f + 1 := by
  have hf : ⌊(f : ℚ) + 1 / 2⌋ = f := by
    rw [Int.floor_eq_iff]
    constructor <;> linarith
  unfold lrint
  simp only [hf]
  rw [if_neg (by norm_num), if_neg (by norm_num), if_neg (by omega)]

/-- C3, counterexample to the claim as stated: for the `float` sample
`8193 / 16384` the exact product with 32767 is `16385.5 - 2⁻¹⁴`, which rounds
to 16385, but the `float` product is 16385.5 and `lrint` takes the tie to the
even 16386. The bytes written are those of 16386, not those of 16385. -/
theorem C3_counterexample :
    f32Round (8193 / 16384) = 8193 / 16384 ∧
    lrint (32767 * max (-1) (min 1 (8193 / 16384 : Sample))) = 16385 ∧
    sampleToLong (8193 / 16384) = 16386 ∧
    samplesToInt16 [(8193 / 16384 : Sample)] [] = [2, 64] ∧
    [twosComplement16 16385 % 256, twosComplement16 16385 / 256] = [1, 64] := by
  have h1 : f32Round (8193 / 16384) = 8193 / 16384 := by
    rw [f32Round_eq (8193 / 16384) (-1) 8389632 (by norm_num) (by norm_num) (by norm_num)
      (by norm_num)]
    norm_num
  have h2 : lrint (32767 * max (-1) (min 1 (8193 / 16384 : Sample))) = 16385 := by
    rw [min_eq_right (by norm_num), max_eq_right (by norm_num)]
    exact lrint_eq_of_abs_lt _ 16385 (by norm_num [abs_lt])
  have h3 : sampleToLong (8193 / 16384) = 16386 := by
    unfold sampleToLong f32Mul
    simp only
    rw [clamp_id _ (by norm_num) (by norm_num)]
    rw [f32Round_eq (8193 / 16384 * 32767) 14 8389376 (by norm_num) (by norm_num) (by norm_num)
      (by norm_num [abs_lt])]
    have e : ((8389376 : ℤ) : ℚ) * 2 ^ ((14 : ℤ) - 23) = ((16385 : ℤ) : ℚ) + 1 / 2 := by
      norm_num
    rw [e, lrint_tie_odd 16385 (by norm_num)]
    norm_num
  refine ⟨h1, h2, h3, ?_, by decide⟩
  rw [samplesToInt16_eq]
  simp only [List.flatMap_cons, List.flatMap_nil, List.append_nil, encodeSample, h3]
  decide

end SoftFM
